import Mathlib

/-
Verification development for the CharmTools pick-and-place file converter
(repository rickmcneely/CharmTools).

The development shallowly embeds the Go source files
internal/models/stack.go, internal/models/pos.go, internal/models/dpv.go
(the validation/generation unit) and internal/models/xfile.go (the data
model) as executable Lean definitions, and proves the frozen specification
claims about them.

Modeling conventions:
- Go strings are Lean String values; character-level work is done on the
  underlying List Char (abbreviated Str below).  Character predicates
  (whitespace, case mapping) are modeled on the ASCII range, which covers
  every string the formats use.
- Go int is modeled as Int (no arithmetic in scope can overflow 64 bits);
  the bitwise operators are Int.land / Int.lor, which agree with two's
  complement int64 on all in-range values.
- Go float64 is modeled exactly as a fraction of integers (structure F64,
  denominator positive by construction).  F64.eqv is equality of the
  modeled value; decimal formatting (fmt %.2f) is modeled by fmt2 with
  round-half-to-even, and strconv.ParseFloat by parseFloatCh restricted to
  the decimal/exponent syntax (hex floats, inf/nan and digit-group
  underscores do not occur in the formats handled here).
- Go map[K]V values that the code builds and then reads are modeled as
  association lists with last-write-wins lookup (goInsert / goFind).
- Functions that mutate a model in place are modeled as functions
  returning the updated model; functions that only read it return their
  result (the generator also returns the model it was handed, making the
  absence of mutation a provable statement).
-/

set_option maxRecDepth 10000

abbrev Str := List Char

/-- Whitespace test matching the ASCII cases of Go unicode.IsSpace
(space, tab, newline, vertical tab, form feed, carriage return). -/
def isSpaceCh (c : Char) : Bool :=
  c = ' ' || c = '\t' || c = '\n' || c = Char.ofNat 11 || c = Char.ofNat 12 || c = '\r'

/-- Model of Go strings.TrimSpace on the character list. -/
def trimCh (l : Str) : Str :=
  ((l.dropWhile isSpaceCh).reverse.dropWhile isSpaceCh).reverse

/-- ASCII lower-casing of one character (Go strings.ToLower on ASCII data). -/
def lowerCh (c : Char) : Char :=
  if 'A' ≤ c ∧ c ≤ 'Z' then Char.ofNat (c.toNat + 32) else c

/-- ASCII lower-casing of a character list. -/
def lowerS (l : Str) : Str := l.map lowerCh

/-- Model of Go strings.Split with a one-character separator. -/
def splitCh (c : Char) : Str → List Str
  | [] => [[]]
  | a :: rest =>
    if a = c then [] :: splitCh c rest
    else
      match splitCh c rest with
      | [] => [[a]]
      | h :: t => (a :: h) :: t

/-- Model of Go strings.Contains: some suffix of hay begins with sub. -/
def containsSub (hay sub : Str) : Bool :=
  (List.range (hay.length + 1)).any (fun i => sub.isPrefixOf (hay.drop i))

/-- Decimal digit character for a value below ten. -/
def digitChar (d : Nat) : Char := Char.ofNat (48 + d)

/-- Reversed decimal digits of a natural number, with explicit fuel. -/
def natDigitsRev : Nat → Nat → Str
  | 0, _ => []
  | f + 1, n => if n = 0 then [] else digitChar (n % 10) :: natDigitsRev f (n / 10)

/-- Decimal rendering of a natural number (fmt %d on non-negative data). -/
def natStr (n : Nat) : Str :=
  if n = 0 then ['0'] else (natDigitsRev (n + 1) n).reverse

/-- Decimal rendering of an integer (fmt %d). -/
def intStr (i : Int) : Str :=
  if i < 0 then '-' :: natStr i.natAbs else natStr i.natAbs

/-- Two-digit zero-padded rendering (fmt %02d and two-decimal fractions). -/
def pad2 (n : Nat) : Str :=
  if n < 10 then '0' :: natStr n else natStr n

/-- Exact-fraction model of a Go float64 value.  Every construction in the
embedded code keeps the denominator positive; F64.eqv compares modeled
values, structural equality compares representations. -/
structure F64 where
  num : Int
  den : Int
deriving DecidableEq, Repr

/-- Embeds an integer literal as a float value. -/
def F64.ofInt (n : Int) : F64 := ⟨n, 1⟩

/-- Float addition (exact). -/
def F64.add (a b : F64) : F64 :=
  ⟨a.num * b.den + b.num * a.den, a.den * b.den⟩

/-- Value-level strict order on floats (for positive denominators). -/
def F64.lt (a b : F64) : Prop := a.num * b.den < b.num * a.den

/-- Value-level equality on floats (for positive denominators). -/
def F64.eqv (a b : F64) : Prop := a.num * b.den = b.num * a.den

instance (a b : F64) : Decidable (F64.lt a b) := by
  unfold F64.lt; infer_instance

instance (a b : F64) : Decidable (F64.eqv a b) := by
  unfold F64.eqv; infer_instance

/-- Model of fmt %.2f: the value rounded to two decimals, half to even,
with the sign taken from the numerator. -/
def fmt2 (q : F64) : Str :=
  let scaled := q.num.natAbs * 100
  let d := q.den.natAbs
  let w := scaled / d
  let r := scaled % d
  let n := if 2 * r < d then w
           else if d < 2 * r then w + 1
           else if w % 2 = 0 then w else w + 1
  (if q.num < 0 then ['-'] else []) ++ natStr (n / 100) ++ '.' :: pad2 (n % 100)

/-- Value of a decimal digit character. -/
def digitVal (c : Char) : Option Nat :=
  if '0' ≤ c ∧ c ≤ '9' then some (c.toNat - 48) else none

/-- Reads a string of decimal digits as a number; none on any other character. -/
def allDigitsVal (l : Str) : Option Nat :=
  l.foldl (fun acc c =>
    match acc, digitVal c with
    | some a, some d => some (a * 10 + d)
    | _, _ => none) (some 0)

/-- Model of Go strconv.Atoi: optional sign, then one or more digits. -/
def atoiCh (l : Str) : Option Int :=
  match l with
  | [] => none
  | '+' :: rest => if rest = [] then none else (allDigitsVal rest).map Int.ofNat
  | '-' :: rest => if rest = [] then none else (allDigitsVal rest).map (fun n => -(Int.ofNat n))
  | _ => (allDigitsVal l).map Int.ofNat

/-- Reads an optional exponent part: empty means exponent zero, otherwise
the letter e or E followed by a signed digit string. -/
def parseExpPart (l : Str) : Option Int :=
  match l with
  | [] => some 0
  | 'e' :: r => atoiCh r
  | 'E' :: r => atoiCh r
  | _ => none

/-- The fraction part following the integer digits: the digits after a
leading decimal point, with the rest of the text. -/
def fracSplit (l : Str) : Str × Str :=
  match l with
  | '.' :: r => r.span (fun c => (digitVal c).isSome)
  | _ => ([], l)

/-- The sign-independent core of the ParseFloat model: integer digits,
optional fraction, optional exponent (at least one mantissa digit). -/
def parseFloatCore (neg : Bool) (l : Str) : Option F64 :=
  let ipRest := l.span (fun c => (digitVal c).isSome)
  let fpRest := fracSplit ipRest.2
  if ipRest.1 = [] ∧ fpRest.1 = [] then none
  else
    match parseExpPart fpRest.2 with
    | none => none
    | some e =>
      let mant : Nat := (allDigitsVal (ipRest.1 ++ fpRest.1)).getD 0
      let numSigned : Int := if neg then -(Int.ofNat mant) else Int.ofNat mant
      let den0 : Int := Int.ofNat (10 ^ fpRest.1.length)
      some (if 0 ≤ e then ⟨numSigned * Int.ofNat (10 ^ e.toNat), den0⟩
            else ⟨numSigned, den0 * Int.ofNat (10 ^ (-e).toNat)⟩)

/-- Model of Go strconv.ParseFloat on the decimal forms
[sign] digits [. digits] [exponent] (at least one mantissa digit). -/
def parseFloatCh (l : Str) : Option F64 :=
  match l with
  | '+' :: r => parseFloatCore false r
  | '-' :: r => parseFloatCore true r
  | _ => parseFloatCore false l

/-- Association-list model of writing to a Go map (append; reads take the
last write). -/
def goInsert {κ β : Type} (m : List (κ × β)) (k : κ) (v : β) : List (κ × β) :=
  m ++ [(k, v)]

/-- Association-list model of reading a Go map: the last value written for
the key, if any. -/
def goFind {κ β : Type} [DecidableEq κ] (m : List (κ × β)) (k : κ) : Option β :=
  ((m.filter (fun p => p.1 = k)).getLast?).map (fun p => p.2)

/-- Component placement row (EComponent table row) of internal/models/xfile.go,
with the UI-only Select and DNP extension fields. -/
structure XComponent where
  No : Int
  ID : Int
  PHead : Int
  STNo : Int
  DeltX : F64
  DeltY : F64
  Angle : F64
  Height : F64
  Skip : Int
  Speed : Int
  Explain : String
  Note : String
  Delay : Int
  Select : Bool
  DNP : Bool
deriving DecidableEq, Repr

/-- Material stack / feeder row (Station table row) of internal/models/xfile.go,
with the UI-only Select, PHead and DNP extension fields. -/
structure XStation where
  No : Int
  ID : Int
  DeltX : F64
  DeltY : F64
  FeedRates : Int
  Note : String
  Height : F64
  Speed : Int
  Status : Int
  NPixSizeX : Int
  NPixSizeY : Int
  HeightTake : F64
  DelayTake : Int
  NPullStripSpeed : Int
  NThreshold : Int
  NVisualRadio : Int
  Select : Bool
  PHead : Int
  DNP : Bool
deriving DecidableEq, Repr

/-- Panel_Array table row. -/
structure PanelArrayRow where
  No : Int
  ID : Int
  IntervalX : F64
  IntervalY : F64
  NumX : Int
  NumY : Int
deriving DecidableEq, Repr

/-- Panel_Coord table row. -/
structure PanelCoordRow where
  No : Int
  ID : Int
  DeltX : F64
  DeltY : F64
deriving DecidableEq, Repr

/-- Global X/Y offset applied to all component positions at export. -/
structure GlobalOffset where
  X : F64
  Y : F64
deriving DecidableEq, Repr

/-- Single row of the original KiCad POS file. -/
structure POSRow where
  Ref : String
  Val : String
  Package : String
  PosX : F64
  PosY : F64
  Rot : F64
  Side : String
deriving DecidableEq, Repr

/-- File metadata (creation/modification instants, modeled as opaque ticks). -/
structure XFileMetadata where
  Created : Int
  Modified : Int
deriving DecidableEq, Repr

/-- Central data structure holding all converted data (xfile.go XFile). -/
structure XFile where
  Metadata : XFileMetadata
  GlobalOffset : GlobalOffset
  POSRows : List POSRow
  Components : List XComponent
  Stations : List XStation
  PanelArray : List PanelArrayRow
  PanelCoord : List PanelCoordRow
  OriginalPOS : String
  StackFiles : List String
deriving DecidableEq, Repr

/-- Model of NewXFile: the empty model with default single-row panel tables
(the creation instant is passed explicitly in place of time.Now). -/
def newXFile (now : Int) : XFile :=
  { Metadata := ⟨now, now⟩
    GlobalOffset := ⟨F64.ofInt 0, F64.ofInt 0⟩
    POSRows := []
    Components := []
    Stations := []
    PanelArray := [⟨0, 1, F64.ofInt 0, F64.ofInt 0, 1, 1⟩]
    PanelCoord := [⟨0, 1, F64.ofInt 0, F64.ofInt 0⟩]
    OriginalPOS := ""
    StackFiles := [] }

/-- Parser state of the one-line CSV field scanner modeling encoding/csv
with LazyQuotes off: at the start of a field, inside a plain field, inside
a quoted field, or just past a closing quote. -/
inductive CsvSt where
  | fieldStart
  | plain
  | quoted
  | afterQuote
deriving DecidableEq, Repr

/-- One-line CSV record scanner modeling Go encoding/csv (FieldsPerRecord
-1, LazyQuotes off, TrimLeadingSpace off) on a line with no newline: none
models the parse errors for bare or stray quotes and unterminated quoted
fields, in which case ParseStack skips the line. -/
def csvRun : CsvSt → Str → List Str → Str → Option (List Str)
  | .fieldStart, _, done, [] => some (done.reverse ++ [[]])
  | .fieldStart, cur, done, c :: rest =>
    if c = '"' then csvRun .quoted cur done rest
    else if c = ',' then csvRun .fieldStart [] ([] :: done) rest
    else csvRun .plain [c] done rest
  | .plain, cur, done, [] => some (done.reverse ++ [cur.reverse])
  | .plain, cur, done, c :: rest =>
    if c = ',' then csvRun .fieldStart [] (cur.reverse :: done) rest
    else if c = '"' then none
    else csvRun .plain (c :: cur) done rest
  | .quoted, _, _, [] => none
  | .quoted, cur, done, c :: rest =>
    if c = '"' then csvRun .afterQuote cur done rest
    else csvRun .quoted (c :: cur) done rest
  | .afterQuote, cur, done, [] => some (done.reverse ++ [cur.reverse])
  | .afterQuote, cur, done, c :: rest =>
    if c = '"' then csvRun .quoted ('"' :: cur) done rest
    else if c = ',' then csvRun .fieldStart [] (cur.reverse :: done) rest
    else none

/-- Parses one CSV line into its fields (encoding/csv model). -/
def csvParseLine (l : Str) : Option (List Str) := csvRun .fieldStart [] [] l

/-- Default Station header used by ParseStack when a Station row appears
before any Table header row. -/
def defaultStackHeader : List Str :=
  ["Table".data, "No.".data, "ID".data, "DeltX".data, "DeltY".data, "FeedRates".data,
   "Note".data, "Height".data, "Speed".data, "Status".data, "nPixSizeX".data,
   "nPixSizeY".data, "HeightTake".data, "DelayTake".data, "nPullStripSpeed".data,
   "nThreshold".data, "nVisualRadio".data]

/-- Lower-cased trimmed column-name map of a header row (parseStationRow). -/
def stackColMap (header : List Str) : List (Str × Nat) :=
  header.enum.foldl (fun m p => goInsert m (lowerS (trimCh p.2)) p.1) []

/-- Field access by column name with trimming (parseStationRow getValue). -/
def stackGetValue (colMap : List (Str × Nat)) (row : List Str) (name : Str) : Str :=
  match goFind colMap name with
  | some idx => if idx < row.length then trimCh (row.getD idx []) else []
  | none => []

/-- Integer field access with default (parseStationRow getInt). -/
def stackGetInt (colMap : List (Str × Nat)) (row : List Str) (name : Str) (dflt : Int) : Int :=
  let v := stackGetValue colMap row name
  if v = [] then dflt
  else match atoiCh v with
       | some i => i
       | none => dflt

/-- Float field access with default (parseStationRow getFloat). -/
def stackGetFloat (colMap : List (Str × Nat)) (row : List Str) (name : Str) (dflt : F64) : F64 :=
  let v := stackGetValue colMap row name
  if v = [] then dflt
  else match parseFloatCh v with
       | some f => f
       | none => dflt

/-- Model of parseStationRow: reads every Station field by column name with
its documented default (the initial record defaults in the source are all
overwritten by these reads), including the V0/V1 pixel-size fallback. -/
def parseStationRow (header row : List Str) : XStation :=
  let cm := stackColMap header
  let px := if 0 ≤ stackGetInt cm row "npixsizex".data (-1)
            then stackGetInt cm row "npixsizex".data (-1)
            else stackGetInt cm row "sizex".data 0
  let py := if 0 ≤ stackGetInt cm row "npixsizey".data (-1)
            then stackGetInt cm row "npixsizey".data (-1)
            else stackGetInt cm row "sizey".data 0
  { No := stackGetInt cm row "no.".data 0
    ID := stackGetInt cm row "id".data 1
    DeltX := stackGetFloat cm row "deltx".data (F64.ofInt 0)
    DeltY := stackGetFloat cm row "delty".data (F64.ofInt 0)
    FeedRates := stackGetInt cm row "feedrates".data 4
    Note := String.mk (stackGetValue cm row "note".data)
    Height := stackGetFloat cm row "height".data ⟨5, 10⟩
    Speed := stackGetInt cm row "speed".data 0
    Status := stackGetInt cm row "status".data 4
    NPixSizeX := px
    NPixSizeY := py
    HeightTake := stackGetFloat cm row "heighttake".data (F64.ofInt 0)
    DelayTake := stackGetInt cm row "delaytake".data 10
    NPullStripSpeed := stackGetInt cm row "npullstripspeed".data 85
    NThreshold := stackGetInt cm row "nthreshold".data 110
    NVisualRadio := stackGetInt cm row "nvisualradio".data 200
    Select := false
    PHead := stackGetInt cm row "phead".data 1
    DNP := false }

/-- Header prefixes that ParseStack skips (case-insensitively). -/
def stackSkipPrefixes : List Str :=
  ["separated".data, "file,".data, "pcbfile,".data, "date,".data, "time,".data,
   "panelype,".data]

/-- Per-line step of the ParseStack loop: carries the current Table header
and the Station rows collected so far. -/
def parseStackLine (st : List Str × List XStation) (rawLine : Str) : List Str × List XStation :=
  let line := trimCh rawLine
  if line = [] then st
  else
    let low := lowerS line
    if stackSkipPrefixes.any (fun p => p.isPrefixOf low) then st
    else
      match csvParseLine line with
      | none => st
      | some row =>
        match row.head? with
        | none => st
        | some f0 =>
          let first := trimCh f0
          if first = "Table".data then (row, st.2)
          else if first = "Station".data then
            let hdr := if st.1 = [] then defaultStackHeader else st.1
            (st.1, st.2 ++ [parseStationRow hdr row])
          else st

/-- Model of ParseStack: checks the DPV markers, splits the text into lines
with carriage returns removed, folds the line handler, and fails when no
Station rows were found. -/
def parseStack (content : String) : Except String (List XStation) :=
  let text := content.data
  let low := lowerS text
  if ¬ (containsSub low "separated".data || containsSub low "station".data) then
    .error "not a valid STACK file (missing 'separated' or 'Station' markers)"
  else
    let lines := splitCh '\n' (text.filter (fun c => c ≠ '\r'))
    let res := lines.foldl parseStackLine ([], [])
    if res.2 = [] then .error "no Station data found in stack file"
    else .ok res.2

/-- Maximum existing Station ID with floor zero (the maxID scan of the
merge loops). -/
def stationMaxID (sts : List XStation) : Int :=
  sts.foldl (fun mx s => if s.ID > mx then s.ID else mx) 0

/-- The note-to-index map over existing stations (empty notes excluded)
built before the merge loops run. -/
def buildNoteToIdx (sts : List XStation) : List (String × Nat) :=
  sts.enum.foldl (fun m p => if p.2.Note ≠ "" then goInsert m p.2.Note p.1 else m) []

/-- One step of the merge loops.  The accumulator carries the station list
and the merged/added counters; preserveNo selects the MergeStacksFile
variant that also keeps the existing No field. -/
def mergeStep (noteToIdx : List (String × Nat)) (preserveNo : Bool)
    (acc : List XStation × Int × Int) (incoming : XStation) : List XStation × Int × Int :=
  match goFind noteToIdx incoming.Note with
  | some idx =>
    let old := acc.1.getD idx incoming
    let upd := if preserveNo then { incoming with ID := old.ID, No := old.No }
               else { incoming with ID := old.ID }
    (acc.1.set idx upd, acc.2.1 + 1, acc.2.2)
  | none =>
    (acc.1 ++ [{ incoming with ID := stationMaxID acc.1 + 1, No := Int.ofNat acc.1.length }],
     acc.2.1, acc.2.2 + 1)

/-- The note-to-ID map over stations (empty notes excluded) built by
rederiveComponentSTNo. -/
def buildNoteToID (sts : List XStation) : List (String × Int) :=
  sts.foldl (fun m s => if s.Note ≠ "" then goInsert m s.Note s.ID else m) []

/-- Model of rederiveComponentSTNo: every component whose Explain value is a
key of the note-to-ID map gets its STNo overwritten with the mapped ID. -/
def rederiveComponents (sts : List XStation) (comps : List XComponent) : List XComponent :=
  let noteToID := buildNoteToID sts
  comps.map (fun c =>
    match goFind noteToID c.Explain with
    | some i => { c with STNo := i }
    | none => c)

/-- Model of MergeStationsIntoXFile: merge by note, provenance bookkeeping,
then STNo rederivation; returns the updated model and the merged count. -/
def mergeStationsIntoXFile (xf : XFile) (stations : List XStation) (filename : String) :
    XFile × Int :=
  let noteToIdx := buildNoteToIdx xf.Stations
  let res := stations.foldl (mergeStep noteToIdx false) (xf.Stations, 0, 0)
  let stackFiles := if filename ≠ "" ∧ ¬ xf.StackFiles.contains filename
                    then xf.StackFiles ++ [filename] else xf.StackFiles
  ({ xf with Stations := res.1, StackFiles := stackFiles,
             Components := rederiveComponents res.1 xf.Components }, res.2.1)

/-- Merge core of MergeStacksFile (the loop after parsing): preserves both
ID and No on a note match and counts merged and added stations. -/
def mergeStacksStations (xf : XFile) (stations : List XStation) : XFile × Int × Int :=
  let noteToIdx := buildNoteToIdx xf.Stations
  let res := stations.foldl (mergeStep noteToIdx true) (xf.Stations, 0, 0)
  ({ xf with Stations := res.1,
             Components := rederiveComponents res.1 xf.Components }, res.2)

/-- Model of MergeStacksFile: parse then merge with No preservation. -/
def mergeStacksFile (xf : XFile) (content : String) : Except String (XFile × Int × Int) :=
  match parseStack content with
  | .error e => .error e
  | .ok sts => .ok (mergeStacksStations xf sts)

/-- Model of stackCsvEscape: quote a field containing a comma, quote or
line break, doubling internal quotes. -/
def stackCsvEscape (l : Str) : Str :=
  if l.any (fun c => c = ',' || c = '"' || c = '\r' || c = '\n') then
    '"' :: l.foldr (fun c acc => if c = '"' then '"' :: '"' :: acc else c :: acc) ['"']
  else l

/-- Carriage-return/line-feed pair ending every generated line. -/
def crlf : Str := ['\r', '\n']

/-- Joins rendered fields with commas (the shape of the Sprintf data rows). -/
def joinComma (fs : List Str) : Str := (fs.intersperse [',']).flatten

/-- Rendered fields of one generated Station row (GenerateStack and
GenerateStacksFile use the same Sprintf layout; only the Note field goes
through stackCsvEscape). -/
def stackStationFields (n : Nat) (s : XStation) : List Str :=
  ["Station".data, natStr n, intStr s.ID, intStr s.PHead, fmt2 s.DeltX, fmt2 s.DeltY,
   intStr s.FeedRates, stackCsvEscape s.Note.data, fmt2 s.Height, intStr s.Speed,
   intStr s.Status, intStr s.NPixSizeX, intStr s.NPixSizeY, fmt2 s.HeightTake,
   intStr s.DelayTake, intStr s.NPullStripSpeed, intStr s.NThreshold, intStr s.NVisualRadio]

/-- One generated Station data line (without its line ending). -/
def stackStationLine (n : Nat) (s : XStation) : Str := joinComma (stackStationFields n s)

/-- Column header line shared by the .stack and .stacks table. -/
def stackTableHeader : Str :=
  "Table,No.,ID,PHead,DeltX,DeltY,FeedRates,Note,Height,Speed,Status,nPixSizeX,nPixSizeY,HeightTake,DelayTake,nPullStripSpeed,nThreshold,nVisualRadio".data

/-- Data rows of GenerateStack: the loop keeps each exported feeder's index
in the full stored station list as its row number. -/
def stackDataRows (xf : XFile) : List (Nat × XStation) :=
  xf.Stations.enum.filter (fun p => !p.2.DNP)

/-- Lines of the generated .stack file, in order and without endings. -/
def generateStackLines (xf : XFile) : List Str :=
  ["separated".data, "FILE,MaterialStack.stack".data, "PANELYPE,1".data, [], stackTableHeader]
    ++ (stackDataRows xf).map (fun p => stackStationLine p.1 p.2)

/-- Joins lines with CRLF endings (the string-builder output shape). -/
def crlfJoin (ls : List Str) : Str := (ls.map (fun l => l ++ crlf)).flatten

/-- Model of GenerateStack. -/
def generateStack (xf : XFile) : String := ⟨crlfJoin (generateStackLines xf)⟩

/-- Data rows of GenerateStacksFile: a separate counter renumbers the
exported feeders 0..N-1. -/
def stacksFileDataRows (xf : XFile) : List (Nat × XStation) :=
  (xf.Stations.filter (fun s => !s.DNP)).enum

/-- Lines of the generated .stacks file, in order and without endings. -/
def generateStacksFileLines (xf : XFile) : List Str :=
  ["separated".data, "FILE,material.stacks".data, "PANELYPE,1".data, [], stackTableHeader]
    ++ (stacksFileDataRows xf).map (fun p => stackStationLine p.1 p.2)

/-- Model of GenerateStacksFile. -/
def generateStacksFile (xf : XFile) : String := ⟨crlfJoin (generateStacksFileLines xf)⟩

/-- Parsed POS file data (pos.go POSData). -/
structure POSData where
  Headers : List String
  Rows : List POSRow
deriving DecidableEq, Repr

/-- Strips a UTF-8 byte-order mark, modeled as the single code point FEFF. -/
def dropBOM (l : Str) : Str :=
  match l with
  | c :: rest => if c = Char.ofNat 0xFEFF then rest else l
  | [] => l

/-- Fueled splitter behind splitWS. -/
def splitWSF : Nat → Str → List Str
  | 0, _ => []
  | f + 1, l =>
    let l2 := l.dropWhile isSpaceCh
    if l2 = [] then []
    else l2.takeWhile (fun c => !isSpaceCh c) ::
         splitWSF f (l2.dropWhile (fun c => !isSpaceCh c))

/-- Model of splitByWhitespace: the maximal non-whitespace runs of the
line (the Go code splits the trimmed line on a whitespace regexp and drops
empty parts, which yields exactly these runs). -/
def splitWS (l : Str) : List Str := splitWSF (l.length + 1) l

/-- Character loop of pos.go parseCSVLine: a quote toggles the in-quotes
flag unless it is the first of a doubled quote inside quotes; a comma
outside quotes ends the field; fields are trimmed as they are emitted. -/
def posCsvRun (inQ : Bool) (cur : Str) : Str → List Str
  | [] => [trimCh cur.reverse]
  | '"' :: '"' :: rest2 =>
    if inQ then posCsvRun true ('"' :: cur) rest2
    else posCsvRun true cur ('"' :: rest2)
  | '"' :: rest =>
    if inQ then posCsvRun false cur rest
    else posCsvRun true cur rest
  | ',' :: rest =>
    if inQ then posCsvRun inQ (',' :: cur) rest
    else trimCh cur.reverse :: posCsvRun false [] rest
  | c :: rest => posCsvRun inQ (c :: cur) rest

/-- Model of pos.go parseCSVLine. -/
def parseCSVLinePOS (l : Str) : List Str := posCsvRun false [] l

/-- Model of buildColumnMap: canonical column key per recognized synonym,
matched case-insensitively on the trimmed cell. -/
def buildColumnMap (headers : List Str) : List (String × Nat) :=
  headers.enum.foldl (fun m p =>
    let lw := lowerS (trimCh p.2)
    if lw = "ref".data ∨ lw = "designator".data then goInsert m "ref" p.1
    else if lw = "val".data ∨ lw = "value".data then goInsert m "val" p.1
    else if lw = "package".data ∨ lw = "footprint".data then goInsert m "package" p.1
    else if lw = "posx".data ∨ lw = "mid x".data ∨ lw = "center-x(mm)".data then
      goInsert m "posx" p.1
    else if lw = "posy".data ∨ lw = "mid y".data ∨ lw = "center-y(mm)".data then
      goInsert m "posy" p.1
    else if lw = "rot".data ∨ lw = "rotation".data then goInsert m "rot" p.1
    else if lw = "side".data ∨ lw = "layer".data ∨ lw = "tb".data then goInsert m "side" p.1
    else m) []

/-- Removes one trailing unit suffix mm if present (strings.TrimSuffix). -/
def dropMM (l : Str) : Str :=
  if "mm".data.isSuffixOf l then l.take (l.length - 2) else l

/-- Model of pos.go parseFloat: trim, drop a trailing mm, trim, parse. -/
def parseFloatPos (l : Str) : Option F64 :=
  parseFloatCh (trimCh (dropMM (trimCh l)))

/-- String field extraction of parseRowFields. -/
def posGetStr (cm : List (String × Nat)) (fields : List Str) (key : String) : String :=
  match goFind cm key with
  | some idx => if idx < fields.length then String.mk (trimCh (fields.getD idx [])) else ""
  | none => ""

/-- Numeric field extraction of parseRowFields (parse failures leave the
zero value in place). -/
def posGetF (cm : List (String × Nat)) (fields : List Str) (key : String) : F64 :=
  match goFind cm key with
  | some idx =>
    if idx < fields.length then
      match parseFloatPos (fields.getD idx []) with
      | some v => v
      | none => F64.ofInt 0
    else F64.ofInt 0
  | none => F64.ofInt 0

/-- Model of parseRowFields. -/
def parseRowFields (fields : List Str) (cm : List (String × Nat)) : POSRow :=
  { Ref := posGetStr cm fields "ref"
    Val := posGetStr cm fields "val"
    Package := posGetStr cm fields "package"
    PosX := posGetF cm fields "posx"
    PosY := posGetF cm fields "posy"
    Rot := posGetF cm fields "rot"
    Side := posGetStr cm fields "side" }

/-- Content of a comment header line: the trimmed line with one leading
hash removed, trimmed again. -/
def hashContent (l : Str) : Str :=
  let t := trimCh l
  trimCh (match t with
          | '#' :: r => r
          | _ => t)

/-- Header discovery of parseKiCadFormat: the first comment line whose
content mentions ref (case-insensitively), else the first comment line at
all; returns its index and content. -/
def findKiCadHeader (lines : List Str) : Option (Nat × Str) :=
  match (lines.enum.filter (fun p =>
      "#".data.isPrefixOf (trimCh p.2) &&
      containsSub (lowerS (hashContent p.2)) "ref".data)).head? with
  | some p => some (p.1, hashContent p.2)
  | none =>
    match (lines.enum.filter (fun p => "#".data.isPrefixOf (trimCh p.2))).head? with
    | some p => some (p.1, hashContent p.2)
    | none => none

/-- Line list of the whitespace-format importer: byte-order mark dropped,
carriage returns removed, split on newlines. -/
def kicadLines (content : String) : List Str :=
  splitCh '\n' ((dropBOM content.data).filter (fun c => c ≠ '\r'))

/-- Model of parseKiCadFormat (the Go error messages embed the offending
header list via %v; the messages here keep the fixed text only). -/
def parseKiCadFormat (content : String) : Except String POSData :=
  let lines := kicadLines content
  match findKiCadHeader lines with
  | none => .error "could not find KiCad POS header row (need # Ref Val ... line)"
  | some (hidx, headerLine) =>
    if headerLine = [] then
      .error "could not find KiCad POS header row (need # Ref Val ... line)"
    else
      let dataLines := ((lines.enum.filter (fun p =>
          decide (hidx < p.1) && trimCh p.2 ≠ [] &&
          !("#".data.isPrefixOf (trimCh p.2)))).map (fun p => trimCh p.2))
      let headers := splitWS headerLine
      if headers = [] then .error "empty header row"
      else
        let cm := buildColumnMap headers
        if (goFind cm "ref").isNone then .error "header missing Ref column"
        else if (goFind cm "val").isNone then .error "header missing Val column"
        else
          .ok ⟨headers.map (fun h => String.mk h),
               dataLines.foldl (fun acc line =>
                 let fields := splitWS line
                 if fields = [] then acc
                 else
                   let r := parseRowFields fields cm
                   if r.Ref = "" then acc else acc ++ [r]) []⟩

/-- Model of parseCSVFormat: the first non-comment line whose columns
resolve both ref and val becomes the header; later non-comment lines
become rows, dropping rows with an empty reference. -/
def parseCSVFormat (content : String) : Except String POSData :=
  let lines := splitCh '\n' (content.data.filter (fun c => c ≠ '\r'))
  match (lines.enum.filter (fun p =>
      let t := trimCh p.2
      t ≠ [] && !("#".data.isPrefixOf t) &&
      (let cmx := buildColumnMap (parseCSVLinePOS t)
       (goFind cmx "ref").isSome && (goFind cmx "val").isSome))).head? with
  | none => .error "could not find KiCad POS header row (need Ref, Val columns)"
  | some hp =>
    let headers := parseCSVLinePOS (trimCh hp.2)
    let cm := buildColumnMap headers
    .ok ⟨headers.map (fun h => String.mk h),
         (lines.enum.filter (fun p =>
             decide (hp.1 < p.1) && trimCh p.2 ≠ [] &&
             !("#".data.isPrefixOf (trimCh p.2)))).foldl (fun acc p =>
           let fields := parseCSVLinePOS (trimCh p.2)
           if fields = [] then acc
           else
             let r := parseRowFields fields cm
             if r.Ref = "" then acc else acc ++ [r]) []⟩

/-- Model of ParsePOS: texts containing a comma and not starting with a
comment marker use the CSV sub-format, all others the whitespace format. -/
def parsePOS (content : String) : Except String POSData :=
  if content.data.contains ',' && !("#".data.isPrefixOf (trimCh content.data)) then
    parseCSVFormat content
  else parseKiCadFormat content

/-- Unique-value scan step of ConvertPOSToXFile: a fresh 1-based station ID
per first-seen non-empty value label. -/
def posValsStep (acc : List (String × Int) × List String) (row : POSRow) :
    List (String × Int) × List String :=
  if row.Val ≠ "" then
    match goFind acc.1 row.Val with
    | some _ => acc
    | none => (goInsert acc.1 row.Val (Int.ofNat acc.2.length + 1), acc.2 ++ [row.Val])
  else acc

/-- Model of ConvertPOSToXFile (the creation instant stands in for
time.Now inside NewXFile); posValsStep above is its unique-value scan. -/
def convertPOSToXFile (pos : POSData) (filename : String) (now : Int) : XFile :=
  let xf0 := newXFile now
  let valsAcc := pos.Rows.foldl posValsStep ([], [])
  let stations := valsAcc.2.enum.map (fun p =>
    ({ No := Int.ofNat p.1, ID := Int.ofNat p.1 + 1, DeltX := F64.ofInt 0,
       DeltY := F64.ofInt 0, FeedRates := 4, Note := p.2, Height := ⟨5, 10⟩,
       Speed := 0, Status := 4, NPixSizeX := 0, NPixSizeY := 0,
       HeightTake := F64.ofInt 0, DelayTake := 10, NPullStripSpeed := 85,
       NThreshold := 110, NVisualRadio := 200, Select := false, PHead := 1,
       DNP := false } : XStation))
  let comps := pos.Rows.enum.map (fun p =>
    let stNo : Int :=
      match goFind valsAcc.1 p.2.Val with
      | some i => i
      | none => 1
    let note : String :=
      if p.2.Ref ≠ "" ∧ p.2.Package ≠ "" then p.2.Ref ++ " - " ++ p.2.Package
      else if p.2.Ref ≠ "" then p.2.Ref
      else if p.2.Package ≠ "" then p.2.Package
      else ""
    ({ No := Int.ofNat p.1, ID := Int.ofNat p.1 + 1, PHead := 1, STNo := stNo,
       DeltX := p.2.PosX, DeltY := p.2.PosY, Angle := p.2.Rot, Height := ⟨5, 10⟩,
       Skip := 4, Speed := 0, Explain := p.2.Val, Note := note, Delay := 0,
       Select := false, DNP := false } : XComponent))
  { xf0 with OriginalPOS := filename, POSRows := pos.Rows,
             Components := comps, Stations := stations }


/-- One validation finding (dpv.go DPVValidationError); a Go construction
that omits Field or Row leaves the zero value. -/
structure DPVValidationError where
  Etype : String
  Field : String
  Row : Int
  Message : String
deriving DecidableEq, Repr

/-- Validation report (dpv.go DPVValidationResult). -/
structure DPVValidationResult where
  Valid : Bool
  Errors : List DPVValidationError
  Warnings : List DPVValidationError
deriving DecidableEq, Repr

/-- Decimal string of an integer. -/
def strOfInt (i : Int) : String := ⟨intStr i⟩

/-- Decimal string of a natural number. -/
def strOfNat (n : Nat) : String := ⟨natStr n⟩

/-- Two-decimal string of a float value (fmt %.2f inside messages). -/
def strOfF2 (q : F64) : String := ⟨fmt2 q⟩

/-- Active (non-DNP) components of a model. -/
def activeComponents (xf : XFile) : List XComponent :=
  xf.Components.filter (fun c => !c.DNP)

/-- Active (non-DNP) stations of a model. -/
def activeStations (xf : XFile) : List XStation :=
  xf.Stations.filter (fun s => !s.DNP)

/-- Duplicate-ID and reserved-ID errors of the first Station loop, in the
order the loop emits them (the incremental seen-set makes row i a
duplicate exactly when an earlier active row carries the same ID). -/
def valErrsStationIDs (sts : List XStation) : List DPVValidationError :=
  (sts.enum.map (fun p =>
    (if (sts.take p.1).any (fun t => t.ID == p.2.ID) then
      [⟨"duplicate_station_id", "Station.ID", Int.ofNat p.1,
        "Duplicate Station ID " ++ strOfInt p.2.ID ++ " at row " ++ strOfNat p.1⟩]
     else [])
    ++ (if 100 ≤ p.2.ID then
      [⟨"reserved_station_id", "Station.ID", Int.ofNat p.1,
        "Station ID " ++ strOfInt p.2.ID ++
        " is reserved (IDs >= 100 are machine-reserved and will cause head crashes)"⟩]
     else []))).flatten

/-- Undefined-range warnings of the first Station loop. -/
def valWarnsStationUndef (sts : List XStation) : List DPVValidationError :=
  (sts.enum.map (fun p =>
    if (30 ≤ p.2.ID ∧ p.2.ID ≤ 35) ∨ (65 ≤ p.2.ID ∧ p.2.ID ≤ 70) then
      [⟨"undefined_station_id", "Station.ID", Int.ofNat p.1,
        "Station ID " ++ strOfInt p.2.ID ++
        " is in an undefined range (valid: 1-29 left reels, 36-64 right reels, 71-84 front tray, 85-90 vibratory, 91-99 IC trays)"⟩]
    else [])).flatten

/-- Out-of-sequence warnings for Station row numbers. -/
def valWarnsStationNoSeq (sts : List XStation) : List DPVValidationError :=
  (sts.enum.map (fun p =>
    if p.2.No ≠ Int.ofNat p.1 then
      [⟨"station_no_sequence", "Station.No.", Int.ofNat p.1,
        "Station No. " ++ strOfInt p.2.No ++ " should be " ++ strOfNat p.1 ++
        " (will be renumbered on export)"⟩]
    else [])).flatten

/-- Status-flag range errors for stations. -/
def valErrsStationStatus (sts : List XStation) : List DPVValidationError :=
  (sts.enum.map (fun p =>
    if p.2.Status < 0 ∨ 15 < p.2.Status then
      [⟨"invalid_station_status", "Station.Status", Int.ofNat p.1,
        "Station Status " ++ strOfInt p.2.Status ++ " is invalid (must be 0-15)"⟩]
    else [])).flatten

/-- Unusual feed-rate warnings for stations. -/
def valWarnsFeedRates (sts : List XStation) : List DPVValidationError :=
  (sts.enum.map (fun p =>
    if p.2.FeedRates ≠ 2 ∧ p.2.FeedRates ≠ 4 ∧ p.2.FeedRates ≠ 8 then
      [⟨"unusual_feedrate", "Station.FeedRates", Int.ofNat p.1,
        "Station FeedRates " ++ strOfInt p.2.FeedRates ++
        " is unusual (typically 2, 4, or 8)"⟩]
    else [])).flatten

/-- Speed range errors for stations (zero means full speed). -/
def valErrsStationSpeed (sts : List XStation) : List DPVValidationError :=
  (sts.enum.map (fun p =>
    if p.2.Speed ≠ 0 ∧ p.2.Speed < 50 then
      [⟨"invalid_station_speed", "Station.Speed", Int.ofNat p.1,
        "Station Speed " ++ strOfInt p.2.Speed ++
        " is invalid (must be 0 for 100%, or 50-100)"⟩]
    else [])).flatten

/-- Preferred-head errors for stations. -/
def valErrsStationPHead (sts : List XStation) : List DPVValidationError :=
  (sts.enum.map (fun p =>
    if p.2.PHead ≠ 1 ∧ p.2.PHead ≠ 2 then
      [⟨"invalid_station_phead", "Station.PHead", Int.ofNat p.1,
        "Station PHead " ++ strOfInt p.2.PHead ++
        " must be 1 (left nozzle) or 2 (right nozzle)"⟩]
    else [])).flatten

/-- Vision-threshold range errors for stations. -/
def valErrsThreshold (sts : List XStation) : List DPVValidationError :=
  (sts.enum.map (fun p =>
    if p.2.NThreshold ≠ 0 ∧ (p.2.NThreshold < 1 ∨ 256 < p.2.NThreshold) then
      [⟨"invalid_threshold", "Station.nThreshold", Int.ofNat p.1,
        "Station nThreshold " ++ strOfInt p.2.NThreshold ++
        " is invalid (must be 0 for default, or 1-256)"⟩]
    else [])).flatten

/-- Height range errors for stations (ceiling five, floor zero). -/
def valErrsStationHeight (sts : List XStation) : List DPVValidationError :=
  (sts.enum.map (fun p =>
    (if F64.lt (F64.ofInt 5) p.2.Height then
      [⟨"station_height_exceeded", "Station.Height", Int.ofNat p.1,
        "Station Height " ++ strOfF2 p.2.Height ++ " exceeds maximum 5mm"⟩]
     else [])
    ++ (if F64.lt p.2.Height (F64.ofInt 0) then
      [⟨"station_height_negative", "Station.Height", Int.ofNat p.1,
        "Station Height " ++ strOfF2 p.2.Height ++ " cannot be negative"⟩]
     else []))).flatten

/-- Aggregate needs-calibration warning when every active station sits at
the zero offset. -/
def valWarnsCalib (sts : List XStation) : List DPVValidationError :=
  if sts.all (fun s => decide (s.DeltX.eqv (F64.ofInt 0)) &&
                       decide (s.DeltY.eqv (F64.ofInt 0))) ∧ sts ≠ [] then
    [⟨"stations_need_calibration", "Station.DeltX/DeltY", 0,
      "All Material Stack coordinates are zero. You will need to calibrate feeder positions on the machine before running."⟩]
  else []

/-- Out-of-sequence warnings for component row numbers. -/
def valWarnsCompNoSeq (comps : List XComponent) : List DPVValidationError :=
  (comps.enum.map (fun p =>
    if p.2.No ≠ Int.ofNat p.1 then
      [⟨"component_no_sequence", "EComponent.No.", Int.ofNat p.1,
        "Component No. " ++ strOfInt p.2.No ++ " should be " ++ strOfNat p.1 ++
        " (will be renumbered on export)"⟩]
    else [])).flatten

/-- Preferred-head errors for components. -/
def valErrsCompPHead (comps : List XComponent) : List DPVValidationError :=
  (comps.enum.map (fun p =>
    if p.2.PHead ≠ 1 ∧ p.2.PHead ≠ 2 then
      [⟨"invalid_phead", "EComponent.PHead", Int.ofNat p.1,
        "Component PHead " ++ strOfInt p.2.PHead ++ " must be 1 or 2"⟩]
    else [])).flatten

/-- Orphan-reference errors: a component whose STNo matches no active
station ID. -/
def valErrsOrphan (sts : List XStation) (comps : List XComponent) :
    List DPVValidationError :=
  (comps.enum.map (fun p =>
    if !(sts.any (fun s => s.ID == p.2.STNo)) then
      [⟨"orphan_component", "EComponent.STNo.", Int.ofNat p.1,
        "Component STNo. " ++ strOfInt p.2.STNo ++ " references non-existent Station ID"⟩]
    else [])).flatten

/-- ID-to-status map over a station list (stationStatusMap builders of both
validation and generation). -/
def buildStationStatusMap (sts : List XStation) : List (Int × Int) :=
  sts.foldl (fun m s => goInsert m s.ID s.Status) []

/-- Vision-flag mismatch warnings (auto-fixed at export, warned here). -/
def valWarnsSkipMismatch (sts : List XStation) (comps : List XComponent) :
    List DPVValidationError :=
  let statusMap := buildStationStatusMap sts
  (comps.enum.map (fun p =>
    match goFind statusMap p.2.STNo with
    | none => []
    | some st =>
      if Int.land st 4 ≠ 0 ∧ Int.land p.2.Skip 4 = 0 then
        [⟨"skip_status_mismatch", "EComponent.Skip", Int.ofNat p.1,
          "Component Skip=" ++ strOfInt p.2.Skip ++
          " will be updated to include vision flag from Station " ++
          strOfInt p.2.STNo ++ " (Status=" ++ strOfInt st ++ ")"⟩]
      else [])).flatten

/-- Negative-coordinate warnings for components. -/
def valWarnsNegCoords (comps : List XComponent) : List DPVValidationError :=
  (comps.enum.map (fun p =>
    if F64.lt p.2.DeltX (F64.ofInt 0) ∨ F64.lt p.2.DeltY (F64.ofInt 0) then
      [⟨"negative_coordinates", "EComponent.DeltX/DeltY", Int.ofNat p.1,
        "Component has negative coordinates (" ++ strOfF2 p.2.DeltX ++ ", " ++
        strOfF2 p.2.DeltY ++ ") - all positions should be positive"⟩]
    else [])).flatten

/-- Rotation range warnings for components. -/
def valWarnsAngle (comps : List XComponent) : List DPVValidationError :=
  (comps.enum.map (fun p =>
    if F64.lt p.2.Angle (F64.ofInt (-180)) ∨ F64.lt (F64.ofInt 180) p.2.Angle then
      [⟨"angle_out_of_range", "EComponent.Angle", Int.ofNat p.1,
        "Component Angle " ++ strOfF2 p.2.Angle ++ " should be between -180 and 180"⟩]
    else [])).flatten

/-- Speed range errors for components. -/
def valErrsCompSpeed (comps : List XComponent) : List DPVValidationError :=
  (comps.enum.map (fun p =>
    if p.2.Speed ≠ 0 ∧ p.2.Speed < 50 then
      [⟨"invalid_component_speed", "EComponent.Speed", Int.ofNat p.1,
        "Component Speed " ++ strOfInt p.2.Speed ++
        " is invalid (must be 0 for 100%, or 50-100)"⟩]
    else [])).flatten

/-- Known-firmware-bug warning when exactly one component is active. -/
def valWarnsSingle (comps : List XComponent) : List DPVValidationError :=
  if comps.length = 1 then
    [⟨"single_component", "EComponent", 0,
      "Only 1 component defined - machine requires at least 2 components for LR fiducial calibration to work (known bug)"⟩]
  else []

/-- Height-mismatch warnings: the inner loop stops at the first station
whose ID matches and whose height differs. -/
def valWarnsHeightMismatch (sts : List XStation) (comps : List XComponent) :
    List DPVValidationError :=
  (comps.enum.map (fun p =>
    match sts.find? (fun s => s.ID == p.2.STNo && !(decide (p.2.Height.eqv s.Height))) with
    | some s =>
      [⟨"height_mismatch", "EComponent.Height", Int.ofNat p.1,
        "Component Height " ++ strOfF2 p.2.Height ++ " differs from Station " ++
        strOfInt s.ID ++ " Height " ++ strOfF2 s.Height⟩]
    | none => [])).flatten

/-- Largest offset-shifted component coordinate along one axis, starting
from zero as the Go loop does. -/
def maxShifted (sel : XComponent → F64) (offc : F64) (comps : List XComponent) : F64 :=
  comps.foldl (fun mx c =>
    let x := (sel c).add offc
    if F64.lt mx x then x else mx) (F64.ofInt 0)

/-- PCB travel-limit warnings (limits 345mm by 355mm). -/
def valWarnsPCB (xf : XFile) (comps : List XComponent) : List DPVValidationError :=
  let maxX := maxShifted (fun c => c.DeltX) xf.GlobalOffset.X comps
  let maxY := maxShifted (fun c => c.DeltY) xf.GlobalOffset.Y comps
  (if F64.lt (F64.ofInt 345) maxX then
    [⟨"pcb_size_x", "EComponent.DeltX", 0,
      "Component X position " ++ strOfF2 maxX ++
      "mm exceeds PCB max width of 345mm (CHM-T48VB limit)"⟩]
   else [])
  ++ (if F64.lt (F64.ofInt 355) maxY then
    [⟨"pcb_size_y", "EComponent.DeltY", 0,
      "Component Y position " ++ strOfF2 maxY ++
      "mm exceeds PCB max length of 355mm (CHM-T48VB limit)"⟩]
   else [])

/-- Panel_Array errors: the table is required, and the first row must have
positive replication counts. -/
def valErrsPanel (pa : List PanelArrayRow) : List DPVValidationError :=
  match pa with
  | [] =>
    [⟨"missing_panel_array", "Panel_Array", 0,
      "Panel_Array table is required - machine won't allow PCB calibration without it"⟩]
  | p :: _ =>
    if p.NumX < 1 ∨ p.NumY < 1 then
      [⟨"invalid_panel_array", "Panel_Array.NumX/NumY", 0,
        "Panel_Array NumX (" ++ strOfInt p.NumX ++ ") and NumY (" ++ strOfInt p.NumY ++
        ") must be at least 1"⟩]
    else []

/-- Missing-filename error. -/
def valErrsFilename (filename : String) : List DPVValidationError :=
  if filename = "" then
    [⟨"missing_filename", "FILE", 0, "Output filename is required"⟩]
  else []

/-- Extension warning for a non-empty filename that does not end in .dpv
(case-insensitively). -/
def valWarnsFilename (filename : String) : List DPVValidationError :=
  if filename ≠ "" ∧ ¬ (".dpv".data.isSuffixOf (lowerS filename.data)) then
    [⟨"filename_extension", "FILE", 0,
      "Filename '" ++ filename ++ "' should have .dpv extension"⟩]
  else []

/-- Model of ValidateDPV: the rule battery in source order over the active
subsets.  The source appends each error and simultaneously clears Valid, so
the final Valid flag is exactly the emptiness of the error list. -/
def validateDPV (xf : XFile) (filename : String) : DPVValidationResult :=
  let sts := activeStations xf
  let comps := activeComponents xf
  let errs :=
    valErrsStationIDs sts ++ valErrsStationStatus sts ++ valErrsStationSpeed sts ++
    valErrsStationPHead sts ++ valErrsThreshold sts ++ valErrsStationHeight sts ++
    valErrsCompPHead comps ++ valErrsOrphan sts comps ++ valErrsCompSpeed comps ++
    valErrsPanel xf.PanelArray ++ valErrsFilename filename
  let warns :=
    valWarnsStationUndef sts ++ valWarnsStationNoSeq sts ++ valWarnsFeedRates sts ++
    valWarnsCalib sts ++ valWarnsCompNoSeq comps ++ valWarnsSkipMismatch sts comps ++
    valWarnsNegCoords comps ++ valWarnsAngle comps ++ valWarnsSingle comps ++
    valWarnsHeightMismatch sts comps ++ valWarnsPCB xf comps ++ valWarnsFilename filename
  ⟨errs.isEmpty, errs, warns⟩

/-- Wall-clock instant embedded in the generated job-file header (the
explicit stand-in for time.Now). -/
structure NowT where
  year : Int
  month : Nat
  day : Nat
  hour : Nat
  minute : Nat
  second : Nat
deriving DecidableEq, Repr

/-- Two-digit zero-padded string (fmt %02d). -/
def pad2S (n : Nat) : String := ⟨pad2 n⟩

/-- Model of dpv.go csvEscape (same body as stackCsvEscape). -/
def csvEscape (l : Str) : Str :=
  if l.any (fun c => c = ',' || c = '"' || c = '\r' || c = '\n') then
    '"' :: l.foldr (fun c acc => if c = '"' then '"' :: '"' :: acc else c :: acc) ['"']
  else l

/-- Stations the job file keeps: active and referenced by an active
component (unreferenced feeders are dropped from the job file). -/
def genStations (xf : XFile) : List XStation :=
  xf.Stations.filter (fun s => !s.DNP && (activeComponents xf).any (fun c => c.STNo == s.ID))

/-- One generated Station line of the job file (no PHead column). -/
def dpvStationLine (n : Nat) (s : XStation) : Str :=
  joinComma ["Station".data, natStr n, intStr s.ID, fmt2 s.DeltX, fmt2 s.DeltY,
    intStr s.FeedRates, csvEscape s.Note.data, fmt2 s.Height, intStr s.Speed,
    intStr s.Status, intStr s.NPixSizeX, intStr s.NPixSizeY, fmt2 s.HeightTake,
    intStr s.DelayTake, intStr s.NPullStripSpeed, intStr s.NThreshold,
    intStr s.NVisualRadio]

/-- Auto-fixed Skip flags written for a component: the stored flags with the
referenced station's vision bit (4) and vacuum bit (2) forced on. -/
def ecSkip (statusMap : List (Int × Int)) (c : XComponent) : Int :=
  match goFind statusMap c.STNo with
  | none => c.Skip
  | some st =>
    let s1 := if Int.land st 4 ≠ 0 ∧ Int.land c.Skip 4 = 0 then Int.lor c.Skip 4 else c.Skip
    if Int.land st 2 ≠ 0 ∧ Int.land s1 2 = 0 then Int.lor s1 2 else s1

/-- One generated EComponent line: position shifted by the global offset
and Skip auto-fixed from the referenced station status. -/
def dpvCompLine (off : GlobalOffset) (statusMap : List (Int × Int)) (n : Nat)
    (c : XComponent) : Str :=
  joinComma ["EComponent".data, natStr n, intStr c.ID, intStr c.PHead, intStr c.STNo,
    fmt2 (c.DeltX.add off.X), fmt2 (c.DeltY.add off.Y), fmt2 c.Angle, fmt2 c.Height,
    intStr (ecSkip statusMap c), intStr c.Speed, csvEscape c.Explain.data,
    csvEscape c.Note.data, intStr c.Delay]

/-- Lines of the generated job file after a passing validation, in source
order and without endings (blank entries are the section separators). -/
def dpvBodyLines (now : NowT) (xf : XFile) (filename : String) : List Str :=
  ["separated".data,
   ("FILE," ++ filename).data,
   ("PCBFILE," ++ xf.OriginalPOS).data,
   ("DATE," ++ strOfInt now.year ++ "/" ++ pad2S now.month ++ "/" ++ pad2S now.day).data,
   ("TIME," ++ pad2S now.hour ++ ":" ++ pad2S now.minute ++ ":" ++ pad2S now.second).data,
   "PANELYPE,1".data,
   [],
   "Table,No.,ID,DeltX,DeltY,FeedRates,Note,Height,Speed,Status,nPixSizeX,nPixSizeY,HeightTake,DelayTake,nPullStripSpeed,nThreshold,nVisualRadio".data]
  ++ (genStations xf).enum.map (fun p => dpvStationLine p.1 p.2)
  ++ [[], "Table,No.,ID,IntervalX,IntervalY,NumX,NumY".data]
  ++ xf.PanelArray.enum.map (fun p =>
       joinComma ["Panel_Array".data, natStr p.1, intStr p.2.ID, fmt2 p.2.IntervalX,
         fmt2 p.2.IntervalY, intStr p.2.NumX, intStr p.2.NumY])
  ++ [[], "Table,No.,ID,DeltX,DeltY".data]
  ++ xf.PanelCoord.enum.map (fun p =>
       joinComma ["Panel_Coord".data, natStr p.1, intStr p.2.ID, fmt2 p.2.DeltX,
         fmt2 p.2.DeltY])
  ++ [[], "Table,No.,ID,PHead,STNo.,DeltX,DeltY,Angle,Height,Skip,Speed,Explain,Note,Delay".data]
  ++ (activeComponents xf).enum.map (fun p =>
       dpvCompLine xf.GlobalOffset (buildStationStatusMap (genStations xf)) p.1 p.2)
  ++ [[], "Table,No.,ID,CenterX,CenterY,IntervalX,IntervalY,NumX,NumY,Start".data,
      [], "Table,No.,nType,nAlg,nFinished".data, "PcbCalib,0,0,0,0".data,
      [], "Table,No.,ID,offsetX,offsetY,Note,Model,Type,DevX,DevY".data,
      "CalibPoint,0,1,0,0,,0,0,0,0".data, "CalibPoint,1,2,0,0,,0,0,0,0".data,
      "CalibPoint,2,3,0,0,,0,0,0,0".data,
      [], "Table,No.,PCBX1,PCBY1,PCBX2,PCBY2,PCBX3,PCBY3,SMTX1,SMTY1,SMTX2,SMTY2,SMTX3,SMTY3,DeltaAngle".data,
      "CalibFator,0,0,0,0,0,0,0,0,0,0,0,0,0,0".data]

/-- Generated job-file text after a passing validation. -/
def dpvBody (now : NowT) (xf : XFile) (filename : String) : String :=
  ⟨crlfJoin (dpvBodyLines now xf filename)⟩

/-- Model of GenerateDPV with the final state of the model it was handed
made explicit: the source only reads the model, so the returned model is
the argument itself. -/
def generateDPVFull (now : NowT) (xf : XFile) (filename : String) :
    Except String String × XFile :=
  let validation := validateDPV xf filename
  if !validation.Valid then
    (.error ("DPV validation failed:\n" ++
             String.intercalate "\n" (validation.Errors.map (fun e => e.Message))), xf)
  else (.ok (dpvBody now xf filename), xf)

/-- Generated text or validation failure of GenerateDPV. -/
def generateDPV (now : NowT) (xf : XFile) (filename : String) : Except String String :=
  (generateDPVFull now xf filename).1

/-- Claim-side matcher reading C1 literally: the position of the last
existing feeder whose note equals the incoming note, with no restriction
on empty notes. -/
def lastMatchIdxLit (orig : List XStation) (note : String) : Option Nat :=
  ((orig.enum.filter (fun p => p.2.Note == note)).map (fun p => p.1)).getLast?

/-- Amended matcher: empty notes never participate in matching. -/
def lastMatchIdx (orig : List XStation) (note : String) : Option Nat :=
  if note = "" then none else lastMatchIdxLit orig note

/-- Claim-side maximum existing feeder ID (floor zero). -/
def specMaxID (fs : List XStation) : Int := (fs.map (fun s => s.ID)).foldr max 0

/-- Claim-side replacement: the incoming feeder replaces the entry at the
matched position entirely, except that its ID (and, in the
configuration-backup variant, its No) is preserved. -/
def specReplace (preserveNo : Bool) (fs : List XStation) (j : Nat) (inc : XStation) :
    List XStation :=
  let old := fs.getD j inc
  fs.set j (if preserveNo then { inc with ID := old.ID, No := old.No }
            else { inc with ID := old.ID })

/-- Claim-side append: a fresh ID of maximum-plus-one and a No equal to the
feeder count at the time of the append. -/
def specAppend (fs : List XStation) (inc : XStation) : List XStation :=
  fs ++ [{ inc with ID := specMaxID fs + 1, No := Int.ofNat fs.length }]

/-- Claim-side merge: fold the incoming feeders over the existing list,
matching each against the notes of the feeders existing at call time. -/
def specMergeFeeders (matchIdx : List XStation → String → Option Nat)
    (preserveNo : Bool) (orig : List XStation) (incoming : List XStation) :
    List XStation :=
  incoming.foldl (fun fs inc =>
    match matchIdx orig inc.Note with
    | some j => specReplace preserveNo fs j inc
    | none => specAppend fs inc) orig

/-- Claim-side note-to-ID map over the resulting feeders (amended: empty
notes are not keys), read at a value label. -/
def specNoteToID (fs : List XStation) (v : String) : Option Int :=
  if v = "" then none
  else ((fs.filter (fun s => s.Note == v)).getLast?).map (fun s => s.ID)

/-- Claim-side rederivation: every placement whose value label is a key of
the note-to-ID map gets its feeder reference overwritten with the mapped
ID. -/
def specRederive (fs : List XStation) (comps : List XComponent) : List XComponent :=
  comps.map (fun c =>
    match specNoteToID fs c.Explain with
    | some i => { c with STNo := i }
    | none => c)

/-- The model with the global offset pushed into every stored placement
position and then cleared (the claim-side device for: the offset is applied
to every position at export time only). -/
def applyGlobalOffset (xf : XFile) : XFile :=
  { xf with
    Components := xf.Components.map (fun c =>
      { c with DeltX := c.DeltX.add xf.GlobalOffset.X,
               DeltY := c.DeltY.add xf.GlobalOffset.Y }),
    GlobalOffset := ⟨F64.ofInt 0, F64.ofInt 0⟩ }

/-- The model with every stored feeder seqNo remapped (the claim-side
device for: row numbering is independent of the stored seqNo). -/
def setStationNos (f : Int → Int) (xf : XFile) : XFile :=
  { xf with Stations := xf.Stations.map (fun s => { s with No := f s.No }) }

/-- Resolved whitespace-format header of a text: what the headerLine
variable of parseKiCadFormat holds (empty when no comment line exists). -/
def resolvedKiCadHeader (content : String) : Str :=
  match findKiCadHeader (kicadLines content) with
  | some p => p.2
  | none => []

/-- Field agreement the feeder-backup round trip claims: same note, id,
position offset and status flags (positions compared as values). -/
def stackRoundTripMatch (st s : XStation) : Prop :=
  st.Note = s.Note ∧ st.ID = s.ID ∧ st.DeltX.eqv s.DeltX ∧ st.DeltY.eqv s.DeltY ∧
  st.Status = s.Status

/-- A note that survives the stack-file text round trip: it is unchanged by
trimming and contains no line-break characters (commas and quotes are fine,
the CSV escaping covers them). -/
def cleanNote (s : String) : Prop :=
  trimCh s.data = s.data ∧ ¬ s.data.contains '\n' ∧ ¬ s.data.contains '\r'

/-- A float value exactly representable with two decimals (and a well-formed
positive denominator), so that the two-decimal export loses nothing. -/
def twoDecimal (q : F64) : Prop :=
  0 < q.den ∧ q.num * 100 % q.den = 0

/-- Test fixture: a feeder with the given ID and note and default fields. -/
def mkStation (id : Int) (note : String) : XStation :=
  { No := 0, ID := id, DeltX := F64.ofInt 0, DeltY := F64.ofInt 0, FeedRates := 4,
    Note := note, Height := ⟨5, 10⟩, Speed := 0, Status := 4, NPixSizeX := 0,
    NPixSizeY := 0, HeightTake := F64.ofInt 0, DelayTake := 10, NPullStripSpeed := 85,
    NThreshold := 110, NVisualRadio := 200, Select := false, PHead := 1, DNP := false }

/-- Test fixture: a placement referencing the given feeder with default
fields. -/
def mkComp (id stno : Int) (explain : String) : XComponent :=
  { No := 0, ID := id, PHead := 1, STNo := stno, DeltX := F64.ofInt 1,
    DeltY := F64.ofInt 2, Angle := F64.ofInt 0, Height := ⟨5, 10⟩, Skip := 0,
    Speed := 0, Explain := explain, Note := "", Delay := 0, Select := false,
    DNP := false }









/-- Test fixture for the import with only empty value labels. -/
def c10Pos : POSData :=
  ⟨["Ref", "Val"],
   [{ Ref := "R1", Val := "", Package := "", PosX := F64.ofInt 1, PosY := F64.ofInt 2,
      Rot := F64.ofInt 0, Side := "" }]⟩

/-- Test fixture: a skipped feeder stored before an exported one. -/
def c7Model : XFile :=
  { newXFile 0 with Stations := [{ mkStation 1 "a" with DNP := true }, mkStation 2 "b"] }

/-- Test fixture: a model whose single active feeder carries the reserved
ID 150 while meeting every other per-feeder constraint. -/
def c8Model : XFile := { newXFile 0 with Stations := [mkStation 150 "10k"] }

/-- Test fixture: a valid model with a vision-and-vacuum feeder and one
placement with clear skip flags. -/
def c3Model : XFile :=
  { newXFile 0 with Stations := [{ mkStation 1 "10k" with Status := 6 }],
                    Components := [mkComp 1 1 "10k"] }

/-- Test fixture: a model whose only feeder carries an empty note. -/
def c1Model : XFile := { newXFile 0 with Stations := [mkStation 1 ""] }

/-- Test fixture: a single incoming feeder, also with an empty note. -/
def c1Incoming : List XStation := [mkStation 7 ""]

/-- Feeder with its seqNo cleared: the device for comparing merge results
up to row numbering. -/
def sansNo (s : XStation) : XStation := { s with No := 0 }

/-- Feeder with seqNo and ID cleared: agreement on every other field. -/
def coreSt (s : XStation) : XStation := { s with No := 0, ID := 0 }

/-- The last incoming feeder carrying a given note. -/
def lastNote (ss : List XStation) (n : String) : Option XStation :=
  (ss.filter (fun s => s.Note == n)).getLast?

/-- The note stored at a position of a feeder list. -/
def noteAt (L : List XStation) (q : Nat) : Option String :=
  (L[q]?).map (fun s => s.Note)

/-- One claim-side merge step against a fixed match base. -/
def specStep (M : List XStation) (fs : List XStation) (inc : XStation) : List XStation :=
  match lastMatchIdx M inc.Note with
  | some j => specReplace false fs j inc
  | none => specAppend fs inc

/-- The header fields of the generated stack table, as the CSV reader
returns them. -/
def stackHeaderFields : List Str :=
  ["Table".data, "No.".data, "ID".data, "PHead".data, "DeltX".data, "DeltY".data,
   "FeedRates".data, "Note".data, "Height".data, "Speed".data, "Status".data,
   "nPixSizeX".data, "nPixSizeY".data, "HeightTake".data, "DelayTake".data,
   "nPullStripSpeed".data, "nThreshold".data, "nVisualRadio".data]

/-- The raw field values of one generated Station row, before CSV escaping:
what the CSV reader recovers from the generated line. -/
def stackFieldsRaw (n : Nat) (s : XStation) : List Str :=
  ["Station".data, natStr n, intStr s.ID, intStr s.PHead, fmt2 s.DeltX, fmt2 s.DeltY,
   intStr s.FeedRates, s.Note.data, fmt2 s.Height, intStr s.Speed, intStr s.Status,
   intStr s.NPixSizeX, intStr s.NPixSizeY, fmt2 s.HeightTake, intStr s.DelayTake,
   intStr s.NPullStripSpeed, intStr s.NThreshold, intStr s.NVisualRadio]

/-- Test fixture: a feeder whose offset is not a two-decimal value. -/
def c4Model : XFile :=
  { newXFile 0 with Stations := [{ mkStation 1 "10k" with DeltX := ⟨1, 1000⟩ }] }

/-- The feeder list that parsing the generated export of c4Model yields. -/
def c4Parsed : List XStation :=
  [{ No := 0, ID := 1, DeltX := ⟨0, 100⟩, DeltY := ⟨0, 100⟩, FeedRates := 4,
     Note := "10k", Height := ⟨50, 100⟩, Speed := 0, Status := 4, NPixSizeX := 0,
     NPixSizeY := 0, HeightTake := ⟨0, 100⟩, DelayTake := 10, NPullStripSpeed := 85,
     NThreshold := 110, NVisualRadio := 200, Select := false, PHead := 1, DNP := false }]

/-- Test fixture: a model with one clean two-decimal feeder. -/
def c4WitModel : XFile := { newXFile 0 with Stations := [mkStation 3 "10k"] }

/-- The digit-accumulation step of allDigitsVal, named for reasoning. -/
def advStep (acc : Option Nat) (c : Char) : Option Nat :=
  match acc, digitVal c with
  | some a, some d => some (a * 10 + d)
  | _, _ => none

instance (s : String) : Decidable (cleanNote s) := by
  unfold cleanNote
  infer_instance

instance (q : F64) : Decidable (twoDecimal q) := by
  unfold twoDecimal
  infer_instance

instance {ε α : Type} [DecidableEq ε] [DecidableEq α] : DecidableEq (Except ε α) :=
  fun a b =>
    match a, b with
    | .ok x, .ok y =>
      if h : x = y then isTrue (by rw [h]) else isFalse (fun hc => h (Except.ok.inj hc))
    | .error x, .error y =>
      if h : x = y then isTrue (by rw [h]) else isFalse (fun hc => h (Except.error.inj hc))
    | .ok _, .error _ => isFalse (fun hc => Except.noConfusion hc)
    | .error _, .ok _ => isFalse (fun hc => Except.noConfusion hc)

/- Theorems and supporting lemmas follow; all definitions are above. -/

theorem enumFrom_filter_map_fst {α : Type} (p : α → Bool) (d : α) :
    ∀ (l : List α) (n : Nat),
      ((List.enumFrom n l).filter (fun q => p q.2)).map Prod.fst =
        (List.range' n l.length).filter (fun i => p (l.getD (i - n) d)) := by
  intro l
  induction l with
  | nil => intro n; simp
  | cons a t ih =>
    intro n
    rw [List.enumFrom_cons, List.length_cons, List.range'_succ]
    have htail : (List.range' (n + 1) t.length).filter
        (fun i => p ((a :: t).getD (i - n) d)) =
        (List.range' (n + 1) t.length).filter (fun i => p (t.getD (i - (n + 1)) d)) := by
      apply List.filter_congr
      intro i hi
      have hge : n + 1 ≤ i := by
        have := List.mem_range'_1.mp hi
        omega
      have hidx : i - n = (i - (n + 1)) + 1 := by omega
      rw [hidx, List.getD_cons_succ]
    rw [List.filter_cons, List.filter_cons]
    have hcondR : p ((a :: t).getD (n - n) d) = p a := by
      rw [Nat.sub_self, List.getD_cons_zero]
    cases hpa : p a with
    | true =>
      rw [hcondR, hpa]
      rw [if_pos (rfl : (true : Bool) = true), if_pos (rfl : (true : Bool) = true),
          List.map_cons]
      rw [htail]
      exact congrArg (fun tl => n :: tl) (ih (n + 1))
    | false =>
      rw [hcondR, hpa]
      rw [if_neg (show ¬ ((false : Bool) = true) by simp),
          if_neg (show ¬ ((false : Bool) = true) by simp)]
      rw [htail]
      exact ih (n + 1)

theorem stackDataRows_fst (xf : XFile) :
    (stackDataRows xf).map Prod.fst =
      (List.range xf.Stations.length).filter
        (fun i => !(xf.Stations.getD i (mkStation 0 "")).DNP) := by
  have h := enumFrom_filter_map_fst (fun s => !s.DNP) (mkStation 0 "") xf.Stations 0
  simpa [stackDataRows, List.enum_eq_enumFrom, List.range_eq_range'] using h

theorem filter_map_length {α β : Type} (g : α → β) (p : β → Bool) (l : List α) :
    ((l.map g).filter p).length = (l.filter (fun a => p (g a))).length := by
  rw [List.filter_map, List.length_map]
  rfl

/-- C7 counterexample: with a skipped feeder stored first, the .stack
generator's data-row numbers are not the contiguous 0-based sequence the
claim states (the single exported row is numbered 1). -/
theorem c7_counterexample :
    (stackDataRows c7Model).map Prod.fst ≠ List.range ((stackDataRows c7Model).length) := by
  decide

/-- C7 (amended): the .stacks generator renumbers its data rows 0..N-1 over
the N exported feeders, while the .stack generator numbers each exported
feeder with its 0-based index in the full stored list (leaving gaps where
skipped feeders are interleaved); both numberings are independent of the
stored seqNo values. -/
theorem c7_row_numbering (xf : XFile) (f : Int → Int) :
    (stacksFileDataRows xf).map Prod.fst =
      List.range ((xf.Stations.filter (fun s => !s.DNP)).length) ∧
    (stackDataRows xf).map Prod.fst =
      (List.range xf.Stations.length).filter
        (fun i => !(xf.Stations.getD i (mkStation 0 "")).DNP) ∧
    (stackDataRows (setStationNos f xf)).map Prod.fst = (stackDataRows xf).map Prod.fst ∧
    (stacksFileDataRows (setStationNos f xf)).map Prod.fst =
      (stacksFileDataRows xf).map Prod.fst := by
  refine ⟨?_, stackDataRows_fst xf, ?_, ?_⟩
  · simp [stacksFileDataRows, List.enum_map_fst]
  · simp only [setStationNos, stackDataRows]
    rw [List.enum_map, List.filter_map, List.map_map]
    have h1 : xf.Stations.enum.filter
        (((fun p : Nat × XStation => !p.2.DNP)) ∘
          Prod.map id (fun s => { s with No := f s.No })) =
        xf.Stations.enum.filter (fun p => !p.2.DNP) :=
      List.filter_congr (fun q _ => rfl)
    rw [h1]
    have h2 : (Prod.fst ∘ Prod.map (id : Nat → Nat)
        (fun s : XStation => { s with No := f s.No })) = Prod.fst :=
      funext (fun q => rfl)
    rw [h2]
  · simp only [stacksFileDataRows, setStationNos]
    rw [List.enum_map_fst, List.enum_map_fst, List.filter_map, List.length_map]
    have h1 : xf.Stations.filter
        (((fun s : XStation => !s.DNP)) ∘ (fun s => { s with No := f s.No })) =
        xf.Stations.filter (fun s => !s.DNP) :=
      List.filter_congr (fun q _ => rfl)
    rw [h1]

theorem posValsStep_allEmpty (rows : List POSRow) :
    ∀ (acc : List (String × Int) × List String),
      (∀ r ∈ rows, r.Val = "") → rows.foldl posValsStep acc = acc := by
  induction rows with
  | nil => intro acc _; rfl
  | cons r rs ih =>
    intro acc hh
    rw [List.foldl_cons]
    have hr : r.Val = "" := hh r (List.mem_cons_self _ _)
    have hstep : posValsStep acc r = acc := by
      unfold posValsStep
      rw [if_neg]
      simp [hr]
    rw [hstep]
    exact ih acc (fun x hx => hh x (List.mem_cons_of_mem _ hx))

/-- C10: a source row whose value label is empty synthesizes no feeder, yet
the placement built from it keeps the default feeder reference 1; hence
an import in which every row has an empty value label yields no feeders while
every placement references feeder 1. -/
theorem c10_empty_value_labels (pos : POSData) (filename : String) (now : Int)
    (h : ∀ r ∈ pos.Rows, r.Val = "") :
    (convertPOSToXFile pos filename now).Stations = [] ∧
    (convertPOSToXFile pos filename now).Components.length = pos.Rows.length ∧
    ∀ c ∈ (convertPOSToXFile pos filename now).Components, c.STNo = 1 := by
  have hfold := posValsStep_allEmpty pos.Rows ([], []) h
  refine ⟨?_, ?_, ?_⟩
  · simp [convertPOSToXFile, hfold]
  · simp [convertPOSToXFile, List.enum_length]
  · intro c hc
    simp only [convertPOSToXFile, hfold] at hc
    simp only [List.mem_map] at hc
    obtain ⟨p, _, hp⟩ := hc
    subst hp
    simp [goFind]

theorem c10_witness :
    (∀ r ∈ c10Pos.Rows, r.Val = "") ∧
    ((convertPOSToXFile c10Pos "board.pos" 0).Stations = [] ∧
     (convertPOSToXFile c10Pos "board.pos" 0).Components.length = c10Pos.Rows.length ∧
     ∀ c ∈ (convertPOSToXFile c10Pos "board.pos" 0).Components, c.STNo = 1) :=
  ⟨by decide, c10_empty_value_labels c10Pos "board.pos" 0 (by decide)⟩

/-- C2: generation re-runs validation first and returns the aggregated
error messages with no output text when validation fails, and the complete
body with no error when it passes; there is no partial-output case. -/
theorem c2_generate_gated_on_validation (now : NowT) (xf : XFile) (filename : String) :
    generateDPV now xf filename =
      if (validateDPV xf filename).Valid then Except.ok (dpvBody now xf filename)
      else Except.error ("DPV validation failed:\n" ++
        String.intercalate "\n" ((validateDPV xf filename).Errors.map (fun e => e.Message))) := by
  unfold generateDPV generateDPVFull
  cases h : (validateDPV xf filename).Valid <;> simp [h]

theorem dropWhile_cons_head {α : Type} (p : α → Bool) :
    ∀ (l : List α) (h : α) (t : List α), l.dropWhile p = h :: t → p h = false := by
  intro l
  induction l with
  | nil => intro h t hx; simp at hx
  | cons a l ih =>
    intro h t hx
    rw [List.dropWhile_cons] at hx
    by_cases hp : p a = true
    · rw [if_pos hp] at hx
      exact ih h t hx
    · rw [if_neg hp] at hx
      cases hx
      simpa using hp

theorem trim_all_space_nil (l : Str) (h : ∀ c ∈ trimCh l, isSpaceCh c = true) :
    trimCh l = [] := by
  unfold trimCh at h ⊢
  cases hu : (l.dropWhile isSpaceCh).reverse.dropWhile isSpaceCh with
  | nil => simp
  | cons a t =>
    have ha : isSpaceCh a = false := dropWhile_cons_head _ _ _ _ hu
    have hmem : a ∈ ((l.dropWhile isSpaceCh).reverse.dropWhile isSpaceCh).reverse := by
      rw [hu]; simp
    have := h a hmem
    rw [ha] at this
    cases this

theorem splitWS_trim_ne (y : Str) (h : trimCh y ≠ []) : splitWS (trimCh y) ≠ [] := by
  have hdw : (trimCh y).dropWhile isSpaceCh ≠ [] := by
    intro hx
    exact h (trim_all_space_nil y (List.dropWhile_eq_nil_iff.mp hx))
  unfold splitWS
  cases hl : trimCh y with
  | nil => exact absurd hl h
  | cons a t =>
    rw [← hl]
    unfold splitWSF
    rw [hl]
    simp only []
    rw [if_neg (by rw [← hl]; exact hdw)]
    simp

theorem findKiCadHeader_trim (lines : List Str) (pr : Nat × Str)
    (h : findKiCadHeader lines = some pr) : ∃ y, pr.2 = trimCh y := by
  unfold findKiCadHeader at h
  cases h1 : (lines.enum.filter (fun p =>
      "#".data.isPrefixOf (trimCh p.2) &&
      containsSub (lowerS (hashContent p.2)) "ref".data)).head? with
  | some q =>
    rw [h1] at h
    cases h
    unfold hashContent
    exact ⟨_, rfl⟩
  | none =>
    rw [h1] at h
    cases h2 : (lines.enum.filter (fun p => "#".data.isPrefixOf (trimCh p.2))).head? with
    | some q =>
      rw [h2] at h
      cases h
      unfold hashContent
      exact ⟨_, rfl⟩
    | none =>
      rw [h2] at h
      cases h

/-- C9: the whitespace sub-format importer fails exactly when the resolved
comment-prefixed header is absent (empty) or lacks a reference-designator
or a value column under the case-insensitive synonym map; with a resolved
header carrying both columns it succeeds on any data rows. -/
theorem c9_kicad_failure_modes (content : String) :
    (parseKiCadFormat content).isOk = true ↔
      (resolvedKiCadHeader content ≠ [] ∧
       (goFind (buildColumnMap (splitWS (resolvedKiCadHeader content))) "ref").isSome ∧
       (goFind (buildColumnMap (splitWS (resolvedKiCadHeader content))) "val").isSome) := by
  unfold parseKiCadFormat resolvedKiCadHeader
  cases hf : findKiCadHeader (kicadLines content) with
  | none =>
    simp only [hf]
    simp [Except.isOk, Except.toBool]
  | some pr =>
    obtain ⟨hidx, hdr⟩ := pr
    simp only [hf]
    by_cases h0 : hdr = []
    · subst h0
      simp [Except.isOk, Except.toBool]
    · have hy2 : ∃ y, hdr = trimCh y := by
        obtain ⟨y, hy⟩ := findKiCadHeader_trim _ _ hf
        exact ⟨y, hy⟩
      obtain ⟨y, hy⟩ := hy2
      have hsne : splitWS hdr ≠ [] := by
        rw [hy]
        exact splitWS_trim_ne y (hy ▸ h0)
      rcases href : goFind (buildColumnMap (splitWS hdr)) "ref" with _ | r
      · simp [href, h0, hsne, Except.isOk, Except.toBool]
      · rcases hval : goFind (buildColumnMap (splitWS hdr)) "val" with _ | v
        · simp [href, hval, h0, hsne, Except.isOk, Except.toBool]
        · simp [href, hval, h0, hsne, Except.isOk, Except.toBool]

/-- C8: a model whose only active feeder has the reserved ID 150 and meets
every other per-feeder constraint, with no active placements, the default
panel tables and a filename with the expected extension, validates to
exactly one error, the reserved-ID finding, with valid false. -/
theorem c8_reserved_id_single_error (xf : XFile) (s : XStation) (filename : String)
    (hs : xf.Stations.filter (fun t => !t.DNP) = [s])
    (hid : s.ID = 150)
    (hstat : 0 ≤ s.Status ∧ s.Status ≤ 15)
    (hspeed : s.Speed = 0 ∨ 50 ≤ s.Speed)
    (hph : s.PHead = 1 ∨ s.PHead = 2)
    (hth : s.NThreshold = 0 ∨ (1 ≤ s.NThreshold ∧ s.NThreshold ≤ 256))
    (hh1 : ¬ F64.lt (F64.ofInt 5) s.Height)
    (hh2 : ¬ F64.lt s.Height (F64.ofInt 0))
    (hc : xf.Components.filter (fun c => !c.DNP) = [])
    (hpa : xf.PanelArray = [⟨0, 1, F64.ofInt 0, F64.ofInt 0, 1, 1⟩])
    (hpc : xf.PanelCoord = [⟨0, 1, F64.ofInt 0, F64.ofInt 0⟩])
    (hfn : ".dpv".data.isSuffixOf (lowerS filename.data) = true) :
    (validateDPV xf filename).Errors.length = 1 ∧
    (validateDPV xf filename).Errors.map (fun e => e.Etype) = ["reserved_station_id"] ∧
    (validateDPV xf filename).Valid = false := by
  have hsts : activeStations xf = [s] := by unfold activeStations; exact hs
  have hcomps : activeComponents xf = [] := by unfold activeComponents; exact hc
  have hnefn : filename ≠ "" := by
    intro h
    rw [h] at hfn
    exact absurd hfn (by decide)
  have e1 : valErrsStationIDs [s] =
      [⟨"reserved_station_id", "Station.ID", 0,
        "Station ID " ++ strOfInt s.ID ++
        " is reserved (IDs >= 100 are machine-reserved and will cause head crashes)"⟩] := by
    unfold valErrsStationIDs
    simp only [List.enum, List.enumFrom, List.map, List.take, List.flatten]
    rw [if_neg (by simp)]
    rw [if_pos (by omega)]
    simp
  have e2 : valErrsStationStatus [s] = [] := by
    unfold valErrsStationStatus
    simp only [List.enum, List.enumFrom, List.map, List.flatten]
    rw [if_neg (by omega)]
    simp
  have e3 : valErrsStationSpeed [s] = [] := by
    unfold valErrsStationSpeed
    simp only [List.enum, List.enumFrom, List.map, List.flatten]
    rw [if_neg (by omega)]
    simp
  have e4 : valErrsStationPHead [s] = [] := by
    unfold valErrsStationPHead
    simp only [List.enum, List.enumFrom, List.map, List.flatten]
    rw [if_neg (by omega)]
    simp
  have e5 : valErrsThreshold [s] = [] := by
    unfold valErrsThreshold
    simp only [List.enum, List.enumFrom, List.map, List.flatten]
    rw [if_neg (by omega)]
    simp
  have e6 : valErrsStationHeight [s] = [] := by
    unfold valErrsStationHeight
    simp only [List.enum, List.enumFrom, List.map, List.flatten]
    rw [if_neg hh1, if_neg hh2]
    simp
  have e7 : valErrsPanel xf.PanelArray = [] := by
    rw [hpa]
    simp [valErrsPanel]
  have e8 : valErrsFilename filename = [] := by
    unfold valErrsFilename
    rw [if_neg hnefn]
  have e9 : valErrsCompPHead [] = [] := rfl
  have e10 : valErrsOrphan [s] [] = [] := rfl
  have e11 : valErrsCompSpeed [] = [] := rfl
  simp only [validateDPV]
  rw [hsts, hcomps, e1, e2, e3, e4, e5, e6, e9, e10, e11, e7, e8]
  simp

theorem c8_witness :
    (validateDPV c8Model "job.dpv").Errors.length = 1 ∧
    (validateDPV c8Model "job.dpv").Errors.map (fun e => e.Etype) = ["reserved_station_id"] ∧
    (validateDPV c8Model "job.dpv").Valid = false :=
  c8_reserved_id_single_error c8Model (mkStation 150 "10k") "job.dpv"
    (by decide) (by decide) (by decide) (by decide) (by decide) (by decide)
    (by decide) (by decide) (by decide) (by decide) (by decide) (by decide)

theorem nat_testBit_pow (b i : Nat) : (2 ^ b).testBit i = decide (b = i) :=
  Nat.testBit_two_pow

theorem nat_or_pow_self {n : Nat} (b : Nat) (h : n.testBit b = true) : n ||| 2 ^ b = n := by
  apply Nat.eq_of_testBit_eq
  intro i
  rw [Nat.testBit_lor, nat_testBit_pow]
  by_cases hi : b = i
  · subst hi; simp [h]
  · simp [hi]

theorem nat_and_pow_nz {n : Nat} (b : Nat) (h : n &&& 2 ^ b ≠ 0) : n.testBit b = true := by
  by_contra hb
  apply h
  apply Nat.eq_of_testBit_eq
  intro i
  rw [Nat.testBit_land, nat_testBit_pow, Nat.zero_testBit]
  by_cases hi : b = i
  · subst hi
    simp [Bool.not_eq_true] at hb
    simp [hb]
  · simp [hi]

theorem nat_ldiff_pow_nz {n : Nat} (b : Nat) (h : (2 ^ b).ldiff n ≠ 0) :
    n.testBit b = false := by
  by_contra hb
  apply h
  apply Nat.eq_of_testBit_eq
  intro i
  rw [Nat.testBit_ldiff, nat_testBit_pow, Nat.zero_testBit]
  simp only [Bool.not_eq_false] at hb
  by_cases hi : b = i
  · subst hi; simp [hb]
  · simp [hi]

theorem nat_ldiff_pow_self {n : Nat} (b : Nat) (h : n.testBit b = false) :
    n.ldiff (2 ^ b) = n := by
  apply Nat.eq_of_testBit_eq
  intro i
  rw [Nat.testBit_ldiff, nat_testBit_pow]
  by_cases hi : b = i
  · subst hi; simp [h]
  · simp [hi]

theorem int_lor_zero (x : Int) : Int.lor x 0 = x := by
  cases x with
  | ofNat m =>
    show Int.ofNat (m ||| 0) = Int.ofNat m
    congr 1
    apply Nat.eq_of_testBit_eq
    intro i
    rw [Nat.testBit_lor, Nat.zero_testBit]
    simp
  | negSucc m =>
    show Int.negSucc (m.ldiff 0) = Int.negSucc m
    congr 1
    apply Nat.eq_of_testBit_eq
    intro i
    rw [Nat.testBit_ldiff, Nat.zero_testBit]
    simp

theorem int_lor_pow_self (x : Int) (b : Nat)
    (h : Int.land x (Int.ofNat (2 ^ b)) ≠ 0) : Int.lor x (Int.ofNat (2 ^ b)) = x := by
  cases x with
  | ofNat m =>
    have hm : m &&& 2 ^ b ≠ 0 := by
      intro h0
      apply h
      show Int.ofNat (m &&& 2 ^ b) = 0
      rw [h0]
      rfl
    show Int.ofNat (m ||| 2 ^ b) = Int.ofNat m
    rw [nat_or_pow_self b (nat_and_pow_nz b hm)]
  | negSucc m =>
    have hm : (2 ^ b).ldiff m ≠ 0 := by
      intro h0
      apply h
      have e : Int.land (Int.negSucc m) (Int.ofNat (2 ^ b)) = Int.ofNat ((2 ^ b).ldiff m) := rfl
      rw [e, h0]
      rfl
    have e2 : Int.lor (Int.negSucc m) (Int.ofNat (2 ^ b)) = Int.negSucc (m.ldiff (2 ^ b)) := rfl
    rw [e2, nat_ldiff_pow_self b (nat_ldiff_pow_nz b hm)]

theorem int_and2_lor4 (x : Int) : Int.land (Int.lor x 4) 2 = Int.land x 2 := by
  have h4 : (4 : Int) = Int.ofNat (2 ^ 2) := rfl
  have h2 : (2 : Int) = Int.ofNat (2 ^ 1) := rfl
  cases x with
  | ofNat m =>
    show Int.ofNat ((m ||| 2 ^ 2) &&& 2 ^ 1) = Int.ofNat (m &&& 2 ^ 1)
    congr 1
    apply Nat.eq_of_testBit_eq
    intro i
    rw [Nat.testBit_land, Nat.testBit_lor, Nat.testBit_land, nat_testBit_pow, nat_testBit_pow]
    by_cases hi : 1 = i
    · subst hi; simp
    · simp [hi]
  | negSucc m =>
    have e1 : Int.land (Int.lor (Int.negSucc m) 4) 2 =
        Int.ofNat ((2 ^ 1).ldiff (m.ldiff (2 ^ 2))) := rfl
    have e2 : Int.land (Int.negSucc m) 2 = Int.ofNat ((2 ^ 1).ldiff m) := rfl
    rw [e1, e2]
    congr 1
    apply Nat.eq_of_testBit_eq
    intro i
    rw [Nat.testBit_ldiff, Nat.testBit_ldiff, Nat.testBit_ldiff, nat_testBit_pow,
        nat_testBit_pow]
    by_cases hi : 1 = i
    · subst hi; simp
    · simp [hi]

theorem int_absorb2 (x : Int) (a b : Nat) :
    Int.land x (Int.lor (Int.lor x (Int.ofNat a)) (Int.ofNat b)) = x := by
  cases x with
  | ofNat m =>
    show Int.ofNat (m &&& ((m ||| a) ||| b)) = Int.ofNat m
    congr 1
    apply Nat.eq_of_testBit_eq
    intro i
    rw [Nat.testBit_land, Nat.testBit_lor, Nat.testBit_lor]
    cases m.testBit i <;> simp
  | negSucc m =>
    show Int.negSucc (m ||| ((m.ldiff a).ldiff b)) = Int.negSucc m
    congr 1
    apply Nat.eq_of_testBit_eq
    intro i
    rw [Nat.testBit_lor, Nat.testBit_ldiff, Nat.testBit_ldiff]
    cases m.testBit i <;> simp

theorem int_lor4_self (x : Int) (h : Int.land x 4 ≠ 0) : Int.lor x 4 = x :=
  int_lor_pow_self x 2 h

theorem int_lor2_self (x : Int) (h : Int.land x 2 ≠ 0) : Int.lor x 2 = x :=
  int_lor_pow_self x 1 h

theorem step_or (st x mask : Int)
    (hself : Int.land x mask ≠ 0 → Int.lor x mask = x) :
    (if Int.land st mask ≠ 0 ∧ Int.land x mask = 0 then Int.lor x mask else x)
      = Int.lor x (if Int.land st mask ≠ 0 then mask else 0) := by
  by_cases hm : Int.land st mask ≠ 0
  · by_cases hs : Int.land x mask = 0
    · rw [if_pos ⟨hm, hs⟩, if_pos hm]
    · rw [if_neg (fun hc => hs hc.2), if_pos hm, hself hs]
  · rw [if_neg (fun hc => hm hc.1), if_neg hm, int_lor_zero]

theorem ecSkip_eq (statusMap : List (Int × Int)) (c : XComponent) (st : Int)
    (h : goFind statusMap c.STNo = some st) :
    ecSkip statusMap c =
      Int.lor (Int.lor c.Skip (if Int.land st 4 ≠ 0 then 4 else 0))
              (if Int.land st 2 ≠ 0 then 2 else 0) := by
  simp only [ecSkip, h]
  rw [step_or st c.Skip 4 (int_lor4_self c.Skip)]
  rw [step_or st _ 2 (int_lor2_self _)]

theorem foldl_append_singleton {α β : Type} (g : α → β) :
    ∀ (l : List α) (acc : List β), l.foldl (fun m x => m ++ [g x]) acc = acc ++ l.map g := by
  intro l
  induction l with
  | nil => intro acc; simp
  | cons a t ih =>
    intro acc
    rw [List.foldl_cons, ih]
    simp

theorem buildStationStatusMap_eq (sts : List XStation) :
    buildStationStatusMap sts = sts.map (fun s => (s.ID, s.Status)) := by
  unfold buildStationStatusMap goInsert
  exact foldl_append_singleton (fun s => (s.ID, s.Status)) sts []

theorem rule_entry_nil {α : Type} (f : α → List DPVValidationError) (l : List α)
    (h : (l.map f).flatten = []) : ∀ x ∈ l, f x = [] := by
  intro x hx
  exact List.flatten_eq_nil_iff.mp h (f x) (List.mem_map_of_mem f hx)

theorem validateDPV_errors_eq (xf : XFile) (filename : String) :
    (validateDPV xf filename).Errors =
      valErrsStationIDs (activeStations xf) ++ valErrsStationStatus (activeStations xf) ++
      valErrsStationSpeed (activeStations xf) ++ valErrsStationPHead (activeStations xf) ++
      valErrsThreshold (activeStations xf) ++ valErrsStationHeight (activeStations xf) ++
      valErrsCompPHead (activeComponents xf) ++
      valErrsOrphan (activeStations xf) (activeComponents xf) ++
      valErrsCompSpeed (activeComponents xf) ++ valErrsPanel xf.PanelArray ++
      valErrsFilename filename := rfl

theorem validateDPV_valid_empty (xf : XFile) (filename : String)
    (h : (validateDPV xf filename).Valid = true) :
    valErrsStationIDs (activeStations xf) = [] ∧
    valErrsStationStatus (activeStations xf) = [] ∧
    valErrsStationSpeed (activeStations xf) = [] ∧
    valErrsStationPHead (activeStations xf) = [] ∧
    valErrsThreshold (activeStations xf) = [] ∧
    valErrsStationHeight (activeStations xf) = [] ∧
    valErrsCompPHead (activeComponents xf) = [] ∧
    valErrsOrphan (activeStations xf) (activeComponents xf) = [] ∧
    valErrsCompSpeed (activeComponents xf) = [] ∧
    valErrsPanel xf.PanelArray = [] ∧
    valErrsFilename filename = [] := by
  have hv : (validateDPV xf filename).Valid = ((validateDPV xf filename).Errors).isEmpty := rfl
  rw [hv, List.isEmpty_iff, validateDPV_errors_eq] at h
  simp only [List.append_eq_nil] at h
  tauto

theorem stationIDs_pairwise (sts : List XStation) (h : valErrsStationIDs sts = []) :
    sts.Pairwise (fun a b => a.ID ≠ b.ID) := by
  rw [List.pairwise_iff_getElem]
  intro i j hi hj hij
  have hjl : j < sts.enum.length := by simpa [List.enum_length] using hj
  have hje : sts.enum[j] = (j, sts[j]) := List.getElem_enum _ _ _
  have hmem : (j, sts[j]) ∈ sts.enum := hje ▸ List.getElem_mem hjl
  have hentry := rule_entry_nil _ _ h (j, sts[j]) hmem
  have h1 : ((sts.take j).any (fun t => t.ID == sts[j].ID)) = false := by
    by_contra hb
    rw [Bool.not_eq_false] at hb
    simp [hb] at hentry
  have hit : i < (sts.take j).length := by
    simp only [List.length_take]
    omega
  have hmt : sts[i] ∈ sts.take j := by
    have he : (sts.take j)[i] = sts[i] := List.getElem_take _
    exact he ▸ List.getElem_mem hit
  intro heq
  have : (sts.take j).any (fun t => t.ID == sts[j].ID) = true :=
    List.any_eq_true.mpr ⟨sts[i], hmt, by simp [heq]⟩
  rw [h1] at this
  cases this

theorem orphan_empty_ref (sts : List XStation) (comps : List XComponent)
    (h : valErrsOrphan sts comps = []) : ∀ c ∈ comps, ∃ s ∈ sts, s.ID = c.STNo := by
  intro c hc
  obtain ⟨i, hi, hgi⟩ := List.mem_iff_getElem.mp hc
  have hil : i < comps.enum.length := by simpa [List.enum_length] using hi
  have he : comps.enum[i] = (i, comps[i]) := List.getElem_enum _ _ _
  rw [hgi] at he
  have hmem : (i, c) ∈ comps.enum := he ▸ List.getElem_mem hil
  unfold valErrsOrphan at h
  have hentry := rule_entry_nil _ _ h (i, c) hmem
  by_cases hany : sts.any (fun s => s.ID == c.STNo) = true
  · obtain ⟨s, hsmem, hseq⟩ := List.any_eq_true.mp hany
    exact ⟨s, hsmem, by simpa using hseq⟩
  · exfalso
    have hx : sts.any (fun s => s.ID == c.STNo) = false := by
      cases hh : sts.any (fun s => s.ID == c.STNo)
      · rfl
      · exact absurd hh hany
    have hb : (!(sts.any (fun s => s.ID == c.STNo))) = true := by rw [hx]; rfl
    simp only [hb, if_pos] at hentry
    simp at hentry

theorem filter_id_singleton :
    ∀ (l : List XStation), l.Pairwise (fun a b => a.ID ≠ b.ID) →
      ∀ s ∈ l, l.filter (fun t => t.ID == s.ID) = [s] := by
  intro l
  induction l with
  | nil => intro _ s hs; cases hs
  | cons a t ih =>
    intro hp s hs
    rw [List.pairwise_cons] at hp
    rcases List.mem_cons.mp hs with rfl | hst
    · rw [List.filter_cons, if_pos (by simp)]
      have ht : t.filter (fun x => x.ID == s.ID) = [] := by
        rw [List.filter_eq_nil_iff]
        intro x hx
        have := hp.1 x hx
        simp
        omega
      rw [ht]
    · have hne : a.ID ≠ s.ID := hp.1 s hst
      rw [List.filter_cons, if_neg (by simp [hne])]
      exact ih hp.2 s hst

theorem goFind_status (sts : List XStation)
    (hnd : sts.Pairwise (fun a b => a.ID ≠ b.ID)) (s : XStation) (hs : s ∈ sts) :
    goFind (buildStationStatusMap sts) s.ID = some s.Status := by
  rw [buildStationStatusMap_eq]
  unfold goFind
  rw [List.filter_map]
  have hcomp : sts.filter
      ((fun p : Int × Int => decide (p.1 = s.ID)) ∘ (fun t => (t.ID, t.Status)))
      = sts.filter (fun t => t.ID == s.ID) := by
    apply List.filter_congr
    intro t _
    by_cases hh : t.ID = s.ID <;> simp [hh, Function.comp]
  rw [hcomp, filter_id_singleton sts hnd s hs]
  simp

theorem genStations_sublist (xf : XFile) :
    (genStations xf).Sublist (activeStations xf) := by
  unfold genStations activeStations
  apply List.monotone_filter_right
  intro a ha
  rw [Bool.and_eq_true] at ha
  exact ha.1

/-- C3: in a model that validates, the skip flags written for every active
placement are the stored flags with the referenced feeder's vision bit (4)
and vacuum bit (2) forced on; every stored bit survives (generation only
sets bits, never clears them). -/
theorem c3_autofix_sets_bits_only (xf : XFile) (filename : String)
    (hv : (validateDPV xf filename).Valid = true) :
    ∀ c ∈ activeComponents xf, ∃ s ∈ genStations xf, s.ID = c.STNo ∧
      ecSkip (buildStationStatusMap (genStations xf)) c =
        Int.lor (Int.lor c.Skip (if Int.land s.Status 4 ≠ 0 then 4 else 0))
                (if Int.land s.Status 2 ≠ 0 then 2 else 0) ∧
      Int.land c.Skip (ecSkip (buildStationStatusMap (genStations xf)) c) = c.Skip := by
  intro c hc
  obtain ⟨hdup, _, _, _, _, _, _, horph, _, _, _⟩ := validateDPV_valid_empty xf filename hv
  obtain ⟨s, hsmem, hsid⟩ := orphan_empty_ref _ _ horph c hc
  have hsmemf : s ∈ xf.Stations.filter (fun t => !t.DNP) := hsmem
  have hsgen : s ∈ genStations xf := by
    unfold genStations
    rw [List.mem_filter]
    have h1 := List.mem_filter.mp hsmemf
    refine ⟨h1.1, ?_⟩
    rw [Bool.and_eq_true]
    exact ⟨h1.2, List.any_eq_true.mpr ⟨c, hc, by simp [hsid]⟩⟩
  have hnd : (genStations xf).Pairwise (fun a b => a.ID ≠ b.ID) :=
    List.Pairwise.sublist (genStations_sublist xf) (stationIDs_pairwise _ hdup)
  have hfind : goFind (buildStationStatusMap (genStations xf)) c.STNo = some s.Status := by
    rw [← hsid]
    exact goFind_status _ hnd s hsgen
  refine ⟨s, hsgen, hsid, ecSkip_eq _ c s.Status hfind, ?_⟩
  rw [ecSkip_eq _ c s.Status hfind]
  by_cases h4 : Int.land s.Status 4 ≠ 0 <;> by_cases h2 : Int.land s.Status 2 ≠ 0
  · rw [if_pos h4, if_pos h2]
    exact int_absorb2 c.Skip 4 2
  · rw [if_pos h4, if_neg h2]
    exact int_absorb2 c.Skip 4 0
  · rw [if_neg h4, if_pos h2]
    exact int_absorb2 c.Skip 0 2
  · rw [if_neg h4, if_neg h2]
    exact int_absorb2 c.Skip 0 0

theorem c3_witness :
    ∃ s ∈ genStations c3Model, s.ID = (mkComp 1 1 "10k").STNo ∧
      ecSkip (buildStationStatusMap (genStations c3Model)) (mkComp 1 1 "10k") =
        Int.lor (Int.lor (mkComp 1 1 "10k").Skip
                  (if Int.land s.Status 4 ≠ 0 then 4 else 0))
                (if Int.land s.Status 2 ≠ 0 then 2 else 0) ∧
      Int.land (mkComp 1 1 "10k").Skip
          (ecSkip (buildStationStatusMap (genStations c3Model)) (mkComp 1 1 "10k")) =
        (mkComp 1 1 "10k").Skip :=
  c3_autofix_sets_bits_only c3Model "job.dpv" (by decide) (mkComp 1 1 "10k") (by decide)

theorem f64_add_zero (q : F64) : q.add (F64.ofInt 0) = q := by
  cases q with
  | mk n d => simp [F64.add, F64.ofInt]

theorem shift_components (xf : XFile) :
    activeComponents (applyGlobalOffset xf) =
      (activeComponents xf).map (fun c =>
        { c with DeltX := c.DeltX.add xf.GlobalOffset.X,
                 DeltY := c.DeltY.add xf.GlobalOffset.Y }) := by
  simp only [activeComponents, applyGlobalOffset]
  rw [List.filter_map]
  rfl

theorem genStations_shift (xf : XFile) :
    genStations (applyGlobalOffset xf) = genStations xf := by
  simp only [genStations]
  have hs : (applyGlobalOffset xf).Stations = xf.Stations := rfl
  rw [hs]
  apply List.filter_congr
  intro s _
  rw [shift_components, List.any_map]
  rfl

theorem valErrsCompPHead_shift (xf : XFile) :
    valErrsCompPHead ((activeComponents xf).map (fun c =>
      { c with DeltX := c.DeltX.add xf.GlobalOffset.X,
               DeltY := c.DeltY.add xf.GlobalOffset.Y })) =
    valErrsCompPHead (activeComponents xf) := by
  unfold valErrsCompPHead
  rw [List.enum_map, List.map_map]
  rfl

theorem valErrsOrphan_shift (xf : XFile) (sts : List XStation) :
    valErrsOrphan sts ((activeComponents xf).map (fun c =>
      { c with DeltX := c.DeltX.add xf.GlobalOffset.X,
               DeltY := c.DeltY.add xf.GlobalOffset.Y })) =
    valErrsOrphan sts (activeComponents xf) := by
  unfold valErrsOrphan
  rw [List.enum_map, List.map_map]
  rfl

theorem valErrsCompSpeed_shift (xf : XFile) :
    valErrsCompSpeed ((activeComponents xf).map (fun c =>
      { c with DeltX := c.DeltX.add xf.GlobalOffset.X,
               DeltY := c.DeltY.add xf.GlobalOffset.Y })) =
    valErrsCompSpeed (activeComponents xf) := by
  unfold valErrsCompSpeed
  rw [List.enum_map, List.map_map]
  rfl

theorem validate_shift_errors (xf : XFile) (filename : String) :
    (validateDPV (applyGlobalOffset xf) filename).Errors =
      (validateDPV xf filename).Errors := by
  rw [validateDPV_errors_eq, validateDPV_errors_eq]
  have hsts : activeStations (applyGlobalOffset xf) = activeStations xf := rfl
  have hpa : (applyGlobalOffset xf).PanelArray = xf.PanelArray := rfl
  rw [hsts, hpa, shift_components, valErrsCompPHead_shift, valErrsOrphan_shift,
      valErrsCompSpeed_shift]

theorem validateDPV_valid_eq_isEmpty (xf : XFile) (filename : String) :
    (validateDPV xf filename).Valid = ((validateDPV xf filename).Errors).isEmpty := rfl

theorem validate_shift_valid (xf : XFile) (filename : String) :
    (validateDPV (applyGlobalOffset xf) filename).Valid =
      (validateDPV xf filename).Valid := by
  rw [validateDPV_valid_eq_isEmpty, validateDPV_valid_eq_isEmpty, validate_shift_errors]

theorem dpvCompLine_shift (off : GlobalOffset) (m : List (Int × Int)) (n : Nat)
    (c : XComponent) :
    dpvCompLine ⟨F64.ofInt 0, F64.ofInt 0⟩ m n
      { c with DeltX := c.DeltX.add off.X, DeltY := c.DeltY.add off.Y } =
    dpvCompLine off m n c := by
  simp only [dpvCompLine, f64_add_zero]
  rfl

theorem dpvBodyLines_shift (now : NowT) (xf : XFile) (filename : String) :
    dpvBodyLines now (applyGlobalOffset xf) filename = dpvBodyLines now xf filename := by
  unfold dpvBodyLines
  have hop : (applyGlobalOffset xf).OriginalPOS = xf.OriginalPOS := rfl
  have hpa : (applyGlobalOffset xf).PanelArray = xf.PanelArray := rfl
  have hpc : (applyGlobalOffset xf).PanelCoord = xf.PanelCoord := rfl
  have hoff : (applyGlobalOffset xf).GlobalOffset = ⟨F64.ofInt 0, F64.ofInt 0⟩ := rfl
  rw [hop, hpa, hpc, hoff, genStations_shift, shift_components]
  have hec : (((activeComponents xf).map (fun c =>
      { c with DeltX := c.DeltX.add xf.GlobalOffset.X,
               DeltY := c.DeltY.add xf.GlobalOffset.Y })).enum).map (fun p =>
        dpvCompLine ⟨F64.ofInt 0, F64.ofInt 0⟩
          (buildStationStatusMap (genStations xf)) p.1 p.2) =
      ((activeComponents xf).enum).map (fun p =>
        dpvCompLine xf.GlobalOffset (buildStationStatusMap (genStations xf)) p.1 p.2) := by
    rw [List.enum_map, List.map_map]
    apply List.map_congr_left
    intro p _
    exact dpvCompLine_shift xf.GlobalOffset (buildStationStatusMap (genStations xf)) p.1 p.2
  rw [hec]

/-- C6: the global offset is applied at export time only (pre-shifting all
stored placement positions and clearing the offset yields the identical
generated file, valid or not), and generation hands back the model it was
given unchanged. -/
theorem c6_offset_export_only (now : NowT) (xf : XFile) (filename : String) :
    generateDPV now (applyGlobalOffset xf) filename = generateDPV now xf filename ∧
    (generateDPVFull now xf filename).2 = xf := by
  constructor
  · simp only [generateDPV, generateDPVFull]
    rw [validate_shift_valid]
    cases hV : (validateDPV xf filename).Valid
    · simp only [hV, Bool.not_false, if_pos]
      rw [validate_shift_errors]
    · simp only [hV, Bool.not_true]
      rw [if_neg (by simp), if_neg (by simp)]
      unfold dpvBody
      rw [dpvBodyLines_shift]
  · simp only [generateDPVFull]
    cases hV : (validateDPV xf filename).Valid <;> simp

theorem goInsert_fold {α β : Type} (key : α → String) (val : α → β) (l : List α) :
    ∀ m : List (String × β),
      l.foldl (fun m a => if key a ≠ "" then goInsert m (key a) (val a) else m) m =
        m ++ (l.filter (fun a => key a ≠ "")).map (fun a => (key a, val a)) := by
  induction l with
  | nil => intro m; simp
  | cons a t ih =>
    intro m
    rw [List.foldl_cons]
    by_cases h : key a = ""
    · have h1 : (if key a ≠ "" then goInsert m (key a) (val a) else m) = m :=
        if_neg (not_not_intro h)
      have h2 : (a :: t).filter (fun a => key a ≠ "") = t.filter (fun a => key a ≠ "") := by
        simp [List.filter_cons, h]
      rw [h1, h2]
      exact ih m
    · have h1 : (if key a ≠ "" then goInsert m (key a) (val a) else m) =
          m ++ [(key a, val a)] := if_pos h
      have h2 : (a :: t).filter (fun a => key a ≠ "") =
          a :: t.filter (fun a => key a ≠ "") := by
        simp [List.filter_cons, h]
      rw [h1, h2, List.map_cons, ih (m ++ [(key a, val a)])]
      simp [List.append_assoc]

theorem buildNoteToIdx_eq (sts : List XStation) :
    buildNoteToIdx sts =
      (sts.enum.filter (fun p => p.2.Note ≠ "")).map (fun p => (p.2.Note, p.1)) := by
  have h := goInsert_fold (fun p : Nat × XStation => p.2.Note) (fun p => p.1) sts.enum []
  simpa [buildNoteToIdx] using h

theorem buildNoteToID_eq (sts : List XStation) :
    buildNoteToID sts =
      (sts.filter (fun s => s.Note ≠ "")).map (fun s => (s.Note, s.ID)) := by
  have h := goInsert_fold (fun s : XStation => s.Note) (fun s => s.ID) sts []
  simpa [buildNoteToID] using h

theorem goFind_built {α β : Type} (key : α → String) (val : α → β) (l : List α)
    (k : String) :
    goFind ((l.filter (fun a => key a ≠ "")).map (fun a => (key a, val a))) k =
      if k = "" then none
      else Option.map val ((l.filter (fun a => key a == k)).getLast?) := by
  unfold goFind
  rw [List.filter_map, List.getLast?_map, Option.map_map, List.filter_filter]
  by_cases hk : k = ""
  · rw [if_pos hk]
    have hc : ∀ x ∈ l,
        (((fun p : String × β => decide (p.1 = k)) ∘ (fun a => (key a, val a))) x &&
          decide (key x ≠ "")) = false := by
      intro x hx
      subst hk
      by_cases hx2 : key x = "" <;> simp [Function.comp, hx2]
    rw [List.filter_congr hc, List.filter_false]
    rfl
  · rw [if_neg hk]
    have hc : ∀ x ∈ l,
        (((fun p : String × β => decide (p.1 = k)) ∘ (fun a => (key a, val a))) x &&
          decide (key x ≠ "")) = (key x == k) := by
      intro x hx
      by_cases hx2 : key x = k
      · simp [Function.comp, hx2, hk]
      · simp [Function.comp, hx2]
    rw [List.filter_congr hc]
    have hv : ((fun p : String × β => p.2) ∘ fun a => (key a, val a)) = val := rfl
    rw [hv]

theorem goFind_noteToIdx (sts : List XStation) (note : String) :
    goFind (buildNoteToIdx sts) note = lastMatchIdx sts note := by
  have h1 : goFind (buildNoteToIdx sts) note =
      if note = "" then none
      else Option.map (fun p : Nat × XStation => p.1)
        ((sts.enum.filter (fun p => p.2.Note == note)).getLast?) := by
    rw [buildNoteToIdx_eq]
    exact goFind_built (fun p : Nat × XStation => p.2.Note) (fun p => p.1) sts.enum note
  rw [h1]
  unfold lastMatchIdx lastMatchIdxLit
  by_cases hk : note = ""
  · rw [if_pos hk, if_pos hk]
  · rw [if_neg hk, if_neg hk, List.getLast?_map]

theorem goFind_noteToID (sts : List XStation) (v : String) :
    goFind (buildNoteToID sts) v = specNoteToID sts v := by
  have h1 : goFind (buildNoteToID sts) v =
      if v = "" then none
      else Option.map (fun s : XStation => s.ID)
        ((sts.filter (fun s => s.Note == v)).getLast?) := by
    rw [buildNoteToID_eq]
    exact goFind_built (fun s : XStation => s.Note) (fun s => s.ID) sts v
  rw [h1]
  unfold specNoteToID
  by_cases hk : v = ""
  · rw [if_pos hk]
  · rw [if_neg hk]

theorem rederiveComponents_eq (sts : List XStation) (comps : List XComponent) :
    rederiveComponents sts comps = specRederive sts comps := by
  simp only [rederiveComponents, specRederive, goFind_noteToID]

theorem foldr_max_nonneg (l : List Int) : 0 ≤ l.foldr max 0 := by
  induction l with
  | nil => simp
  | cons x t ih =>
    rw [List.foldr_cons]
    omega

theorem maxID_fold (sts : List XStation) :
    ∀ a : Int, 0 ≤ a →
      sts.foldl (fun mx s => if s.ID > mx then s.ID else mx) a =
        max a ((sts.map (fun s => s.ID)).foldr max 0) := by
  induction sts with
  | nil =>
    intro a ha
    simp only [List.foldl_nil, List.map_nil, List.foldr_nil]
    omega
  | cons s t ih =>
    intro a ha
    rw [List.foldl_cons]
    have h1 : (if s.ID > a then s.ID else a) = max a s.ID := by split <;> omega
    rw [h1, ih (max a s.ID) (by omega), List.map_cons, List.foldr_cons, max_assoc]

theorem stationMaxID_eq (sts : List XStation) : stationMaxID sts = specMaxID sts := by
  unfold stationMaxID specMaxID
  rw [maxID_fold sts 0 le_rfl]
  have h := foldr_max_nonneg (sts.map (fun s => s.ID))
  omega

theorem mergeFold_eq (nIdx : List (String × Nat)) (pNo : Bool) (stations : List XStation) :
    ∀ (fs : List XStation) (m a : Int),
      (stations.foldl (mergeStep nIdx pNo) (fs, m, a)).1 =
        stations.foldl (fun fs inc =>
          match goFind nIdx inc.Note with
          | some j => specReplace pNo fs j inc
          | none => specAppend fs inc) fs := by
  induction stations with
  | nil => intro fs m a; rfl
  | cons s t ih =>
    intro fs m a
    rw [List.foldl_cons, List.foldl_cons]
    cases hg : goFind nIdx s.Note with
    | some j =>
      have e1 : mergeStep nIdx pNo (fs, m, a) s = (specReplace pNo fs j s, m + 1, a) := by
        unfold mergeStep
        rw [hg]
        rfl
      rw [e1]
      simp only [hg]
      exact ih _ _ _
    | none =>
      have e1 : mergeStep nIdx pNo (fs, m, a) s =
          (fs ++ [{ s with ID := stationMaxID fs + 1, No := Int.ofNat fs.length }],
            m, a + 1) := by
        unfold mergeStep
        rw [hg]
      rw [e1, stationMaxID_eq]
      simp only [hg]
      exact ih _ _ _

/-- C1 (amended): both merge variants match each incoming feeder against the
last existing feeder with the same non-empty note — feeders with empty
notes never participate in matching — replacing the matched entry with ID
(and, for the configuration-backup variant, No) preserved, appending
unmatched feeders with ID = max existing ID + 1 and No = the feeder count
at the time of the append; afterwards every placement whose value label is
a non-empty key of the note-to-ID map over the resulting feeders has its
STNo overwritten with the mapped ID. -/
theorem c1_merge_by_note (xf : XFile) (stations : List XStation) (filename : String) :
    ((mergeStationsIntoXFile xf stations filename).1.Stations =
        specMergeFeeders lastMatchIdx false xf.Stations stations ∧
      (mergeStationsIntoXFile xf stations filename).1.Components =
        specRederive (specMergeFeeders lastMatchIdx false xf.Stations stations)
          xf.Components) ∧
    ((mergeStacksStations xf stations).1.Stations =
        specMergeFeeders lastMatchIdx true xf.Stations stations ∧
      (mergeStacksStations xf stations).1.Components =
        specRederive (specMergeFeeders lastMatchIdx true xf.Stations stations)
          xf.Components) := by
  have hfold : ∀ pNo : Bool,
      (stations.foldl (mergeStep (buildNoteToIdx xf.Stations) pNo) (xf.Stations, 0, 0)).1 =
        specMergeFeeders lastMatchIdx pNo xf.Stations stations := by
    intro pNo
    rw [mergeFold_eq]
    unfold specMergeFeeders
    have hstep : ∀ note, goFind (buildNoteToIdx xf.Stations) note =
        lastMatchIdx xf.Stations note :=
      fun note => goFind_noteToIdx xf.Stations note
    simp only [hstep]
  refine ⟨⟨?_, ?_⟩, ?_, ?_⟩
  · show (stations.foldl (mergeStep (buildNoteToIdx xf.Stations) false)
      (xf.Stations, 0, 0)).1 = _
    exact hfold false
  · show rederiveComponents
      (stations.foldl (mergeStep (buildNoteToIdx xf.Stations) false)
        (xf.Stations, 0, 0)).1 xf.Components = _
    rw [hfold false, rederiveComponents_eq]
  · show (stations.foldl (mergeStep (buildNoteToIdx xf.Stations) true)
      (xf.Stations, 0, 0)).1 = _
    exact hfold true
  · show rederiveComponents
      (stations.foldl (mergeStep (buildNoteToIdx xf.Stations) true)
        (xf.Stations, 0, 0)).1 xf.Components = _
    rw [hfold true, rederiveComponents_eq]

/-- C1 counterexample: read literally — an incoming feeder whose note
equals an existing feeder's note replaces it, with no restriction on empty
notes — the claim fails: merging one empty-note feeder into a model whose
only feeder also has an empty note appends a second feeder, while the
literal reading keeps a single replaced feeder. -/
theorem c1_counterexample :
    (mergeStationsIntoXFile c1Model c1Incoming "a.stack").1.Stations.length = 2 ∧
    (specMergeFeeders lastMatchIdxLit false c1Model.Stations c1Incoming).length = 1 := by
  decide

theorem lmiLit_append (L : List XStation) (s : XStation) (n : String) :
    lastMatchIdxLit (L ++ [s]) n =
      if s.Note == n then some L.length else lastMatchIdxLit L n := by
  unfold lastMatchIdxLit
  rw [List.enum_append]
  have h1 : List.enumFrom L.length [s] = [(L.length, s)] := rfl
  rw [h1, List.filter_append, List.map_append]
  cases hs : (s.Note == n) with
  | true =>
    have h2 : List.filter (fun p => p.2.Note == n) [(L.length, s)] = [(L.length, s)] := by
      simp [List.filter_cons, hs]
    rw [h2]
    simp [List.getLast?_concat]
  | false =>
    have h2 : List.filter (fun p => p.2.Note == n) [(L.length, s)] = [] := by
      simp [List.filter_cons, hs]
    rw [h2]
    simp

theorem lmiLit_some_iff (L : List XStation) (n : String) (j : Nat) :
    lastMatchIdxLit L n = some j ↔
      (noteAt L j = some n ∧ ∀ q, j < q → noteAt L q ≠ some n) := by
  induction L using List.reverseRecOn with
  | nil => simp [lastMatchIdxLit, noteAt]
  | append_singleton L s ih =>
    rw [lmiLit_append]
    by_cases hs : s.Note = n
    · rw [if_pos (by simp [hs])]
      constructor
      · intro h
        injection h with h
        subst h
        refine ⟨?_, ?_⟩
        · simp [noteAt, List.getElem?_concat_length, hs]
        · intro q hq
          have hn : (L ++ [s])[q]? = none := by
            rw [List.getElem?_eq_none_iff, List.length_append, List.length_singleton]
            simpa using hq
          simp [noteAt, hn]
      · rintro ⟨h1, h2⟩
        rcases lt_trichotomy j L.length with hlt | heq | hgt
        · exact absurd (by simp [noteAt, List.getElem?_concat_length, hs]) (h2 L.length hlt)
        · rw [heq]
        · exfalso
          have hn : (L ++ [s])[j]? = none := by
            rw [List.getElem?_eq_none_iff, List.length_append, List.length_singleton]
            omega
          rw [noteAt, hn] at h1
          simp at h1
    · rw [if_neg (by simp [hs]), ih]
      constructor
      · rintro ⟨h1, h2⟩
        have hj : j < L.length := by
          by_contra hle
          push_neg at hle
          have hn : L[j]? = none := by rw [List.getElem?_eq_none_iff]; omega
          rw [noteAt, hn] at h1
          simp at h1
        refine ⟨?_, ?_⟩
        · rw [noteAt, List.getElem?_append, if_pos hj]
          exact h1
        · intro q hq
          rcases lt_trichotomy q L.length with hq2 | hq2 | hq2
          · have h3 := h2 q hq
            rw [noteAt] at h3 ⊢
            rw [List.getElem?_append, if_pos hq2]
            exact h3
          · subst hq2
            rw [noteAt, List.getElem?_concat_length]
            simp [hs]
          · have hn : (L ++ [s])[q]? = none := by
              rw [List.getElem?_eq_none_iff, List.length_append, List.length_singleton]
              omega
            rw [noteAt, hn]
            simp
      · rintro ⟨h1, h2⟩
        have hj : j < L.length := by
          rcases lt_trichotomy j L.length with hlt | heq | hgt
          · exact hlt
          · exfalso
            subst heq
            rw [noteAt, List.getElem?_concat_length] at h1
            injection h1 with h1
            exact hs h1
          · exfalso
            have hn : (L ++ [s])[j]? = none := by
              rw [List.getElem?_eq_none_iff, List.length_append, List.length_singleton]
              omega
            rw [noteAt, hn] at h1
            simp at h1
        refine ⟨?_, ?_⟩
        · rw [noteAt, List.getElem?_append, if_pos hj] at h1
          exact h1
        · intro q hq
          have h3 := h2 q hq
          by_cases hq2 : q < L.length
          · rw [noteAt, List.getElem?_append, if_pos hq2] at h3
            exact h3
          · have hn : L[q]? = none := by rw [List.getElem?_eq_none_iff]; omega
            rw [noteAt, hn]
            simp

theorem lmiLit_none_iff (L : List XStation) (n : String) :
    lastMatchIdxLit L n = none ↔ ∀ q, noteAt L q ≠ some n := by
  induction L using List.reverseRecOn with
  | nil => simp [lastMatchIdxLit, noteAt]
  | append_singleton L s ih =>
    rw [lmiLit_append]
    by_cases hs : s.Note = n
    · rw [if_pos (by simp [hs])]
      constructor
      · intro h
        cases h
      · intro h
        exact absurd (by simp [noteAt, List.getElem?_concat_length, hs])
          (h L.length)
    · rw [if_neg (by simp [hs]), ih]
      constructor
      · intro h q
        by_cases hq : q < L.length
        · have h3 := h q
          rw [noteAt] at h3 ⊢
          rw [List.getElem?_append, if_pos hq]
          exact h3
        · by_cases hq2 : q = L.length
          · subst hq2
            rw [noteAt, List.getElem?_concat_length]
            simp [hs]
          · have hn : (L ++ [s])[q]? = none := by
              rw [List.getElem?_eq_none_iff, List.length_append, List.length_singleton]
              omega
            rw [noteAt, hn]
            simp
      · intro h q
        have h3 := h q
        by_cases hq : q < L.length
        · rw [noteAt, List.getElem?_append, if_pos hq] at h3
          exact h3
        · have hn : L[q]? = none := by rw [List.getElem?_eq_none_iff]; omega
          rw [noteAt, hn]
          simp

theorem lmi_some_iff (L : List XStation) (n : String) (j : Nat) (hn : n ≠ "") :
    lastMatchIdx L n = some j ↔
      (noteAt L j = some n ∧ ∀ q, j < q → noteAt L q ≠ some n) := by
  unfold lastMatchIdx
  rw [if_neg hn]
  exact lmiLit_some_iff L n j

theorem lmi_none_iff (L : List XStation) (n : String) (hn : n ≠ "") :
    lastMatchIdx L n = none ↔ ∀ q, noteAt L q ≠ some n := by
  unfold lastMatchIdx
  rw [if_neg hn]
  exact lmiLit_none_iff L n

theorem lmi_ne_empty (L : List XStation) (n : String) (j : Nat)
    (h : lastMatchIdx L n = some j) : n ≠ "" := by
  intro hn
  subst hn
  unfold lastMatchIdx at h
  simp at h

theorem noteAt_lt (L : List XStation) (q : Nat) (n : String)
    (h : noteAt L q = some n) : q < L.length := by
  by_contra hle
  push_neg at hle
  have hn : L[q]? = none := by rw [List.getElem?_eq_none_iff]; omega
  rw [noteAt, hn] at h
  simp at h

theorem lmi_lt (L : List XStation) (n : String) (j : Nat)
    (h : lastMatchIdx L n = some j) : j < L.length := by
  have hn := lmi_ne_empty L n j h
  exact noteAt_lt L j n ((lmi_some_iff L n j hn).mp h).1

theorem lmi_note (L : List XStation) (n : String) (j : Nat)
    (h : lastMatchIdx L n = some j) : noteAt L j = some n := by
  have hn := lmi_ne_empty L n j h
  exact ((lmi_some_iff L n j hn).mp h).1

theorem lmi_ge (L : List XStation) (n : String) (j q : Nat)
    (hj : lastMatchIdx L n = some j) (hq : noteAt L q = some n) : q ≤ j := by
  have hn := lmi_ne_empty L n j hj
  rcases (lmi_some_iff L n j hn).mp hj with ⟨h1, h2⟩
  by_contra hlt
  push_neg at hlt
  exact h2 q hlt hq

theorem lmi_exists (L : List XStation) (n : String) (q : Nat) (hn : n ≠ "")
    (h : noteAt L q = some n) : ∃ j, lastMatchIdx L n = some j := by
  cases hj : lastMatchIdx L n with
  | some j => exact ⟨j, rfl⟩
  | none => exact absurd h ((lmi_none_iff L n hn).mp hj q)

theorem lmi_layout (L₁ L₂ : List XStation) (hN : ∀ q, noteAt L₁ q = noteAt L₂ q)
    (n : String) : lastMatchIdx L₁ n = lastMatchIdx L₂ n := by
  by_cases hn : n = ""
  · subst hn
    unfold lastMatchIdx
    simp
  · cases h2 : lastMatchIdx L₂ n with
    | some j =>
      rcases (lmi_some_iff L₂ n j hn).mp h2 with ⟨a, b⟩
      exact (lmi_some_iff L₁ n j hn).mpr
        ⟨by rw [hN j]; exact a, fun q hq => by rw [hN q]; exact b q hq⟩
    | none =>
      exact (lmi_none_iff L₁ n hn).mpr (fun q => by rw [hN q]; exact (lmi_none_iff L₂ n hn).mp h2 q)

theorem lmi_append_hit (L : List XStation) (s : XStation) (hs : s.Note ≠ "") :
    lastMatchIdx (L ++ [s]) s.Note = some L.length := by
  unfold lastMatchIdx
  rw [if_neg hs, lmiLit_append]
  simp

theorem lmi_append_miss (L : List XStation) (s : XStation) (n : String)
    (hs : s.Note ≠ n) : lastMatchIdx (L ++ [s]) n = lastMatchIdx L n := by
  by_cases hn : n = ""
  · subst hn
    unfold lastMatchIdx
    simp
  · unfold lastMatchIdx
    rw [if_neg hn, if_neg hn, lmiLit_append, if_neg (by simp [hs])]

theorem lastNote_append_hit (ss : List XStation) (z : XStation) :
    lastNote (ss ++ [z]) z.Note = some z := by
  unfold lastNote
  rw [List.filter_append]
  have h1 : List.filter (fun s => s.Note == z.Note) [z] = [z] := by simp
  rw [h1, List.getLast?_concat]

theorem lastNote_append_miss (ss : List XStation) (z : XStation) (n : String)
    (h : z.Note ≠ n) : lastNote (ss ++ [z]) n = lastNote ss n := by
  unfold lastNote
  rw [List.filter_append]
  have h1 : List.filter (fun s => s.Note == n) [z] = [] := by simp [h]
  rw [h1, List.append_nil]

theorem lastNote_cons_of_mem (inc : XStation) (ss : List XStation) (s0 : XStation)
    (h : s0 ∈ ss) : lastNote (inc :: ss) s0.Note = lastNote ss s0.Note := by
  unfold lastNote
  rw [List.filter_cons]
  have hne : ss.filter (fun s => s.Note == s0.Note) ≠ [] :=
    List.ne_nil_of_mem (List.mem_filter.mpr ⟨h, by simp⟩)
  obtain ⟨b, t, hbt⟩ : ∃ b t, ss.filter (fun s => s.Note == s0.Note) = b :: t := by
    cases hF : ss.filter (fun s => s.Note == s0.Note) with
    | nil => exact absurd hF hne
    | cons b t => exact ⟨b, t, rfl⟩
  rw [hbt]
  split
  · rw [List.getLast?_cons_cons]
  · rfl

theorem lastNote_isSome (inc : XStation) (ss : List XStation) (h : inc ∈ ss) :
    ∃ incL, lastNote ss inc.Note = some incL := by
  have hne : ss.filter (fun s => s.Note == inc.Note) ≠ [] :=
    List.ne_nil_of_mem (List.mem_filter.mpr ⟨h, by simp⟩)
  unfold lastNote
  cases hL : (ss.filter (fun s => s.Note == inc.Note)).getLast? with
  | none => exact absurd (List.getLast?_eq_none_iff.mp hL) hne
  | some y => exact ⟨y, rfl⟩

theorem coreSt_set_id (z : XStation) (i : Int) : coreSt { z with ID := i } = coreSt z := rfl

theorem coreSt_set_idno (z : XStation) (i m : Int) :
    coreSt { z with ID := i, No := m } = coreSt z := rfl

theorem specMerge_append_step (fs0 ss : List XStation) (z : XStation) :
    specMergeFeeders lastMatchIdx false fs0 (ss ++ [z]) =
      specStep fs0 (specMergeFeeders lastMatchIdx false fs0 ss) z := by
  unfold specMergeFeeders
  rw [List.foldl_append]
  rfl

theorem layoutStep (fs0 ss : List XStation) (z : XStation) (F : List XStation)
    (hα : fs0.length ≤ F.length)
    (hβ : ∀ q, q < fs0.length → noteAt F q = noteAt fs0 q)
    (hγ : ∀ q s, fs0.length ≤ q → F[q]? = some s → lastMatchIdx fs0 s.Note = none)
    (hδ : ∀ n incL, n ≠ "" → lastNote ss n = some incL →
      ∃ j, lastMatchIdx F n = some j ∧ (F[j]?).map coreSt = some (coreSt incL)) :
    fs0.length ≤ (specStep fs0 F z).length ∧
    (∀ q, q < fs0.length → noteAt (specStep fs0 F z) q = noteAt fs0 q) ∧
    (∀ q s, fs0.length ≤ q → (specStep fs0 F z)[q]? = some s →
      lastMatchIdx fs0 s.Note = none) ∧
    (∀ n incL, n ≠ "" → lastNote (ss ++ [z]) n = some incL →
      ∃ j, lastMatchIdx (specStep fs0 F z) n = some j ∧
        ((specStep fs0 F z)[j]?).map coreSt = some (coreSt incL)) := by
  cases hz : lastMatchIdx fs0 z.Note with
  | some p =>
    have hzne : z.Note ≠ "" := lmi_ne_empty fs0 z.Note p hz
    have hplt : p < fs0.length := lmi_lt fs0 z.Note p hz
    have hpltF : p < F.length := lt_of_lt_of_le hplt hα
    have hs : specStep fs0 F z = F.set p { z with ID := (F.getD p z).ID } := by
      unfold specStep
      rw [hz]
      rfl
    rw [hs]
    have hset_p : (F.set p { z with ID := (F.getD p z).ID })[p]? =
        some { z with ID := (F.getD p z).ID } := by
      rw [List.getElem?_set, if_pos rfl, if_pos hpltF]
    have hset_ne : ∀ q, q ≠ p →
        (F.set p { z with ID := (F.getD p z).ID })[q]? = F[q]? := by
      intro q hq
      exact List.getElem?_set_ne (fun h => hq h.symm)
    have hnote0 : noteAt fs0 p = some z.Note := lmi_note fs0 z.Note p hz
    have hnoteF : noteAt F p = some z.Note := by rw [hβ p hplt]; exact hnote0
    have hlay : ∀ q, noteAt (F.set p { z with ID := (F.getD p z).ID }) q = noteAt F q := by
      intro q
      by_cases hq : q = p
      · subst hq
        rw [noteAt, hset_p, hnoteF]
        rfl
      · rw [noteAt, hset_ne q hq]
        rfl
    have hlmi : ∀ m, lastMatchIdx (F.set p { z with ID := (F.getD p z).ID }) m =
        lastMatchIdx F m := lmi_layout _ F hlay
    refine ⟨?_, ?_, ?_, ?_⟩
    · rw [List.length_set]
      exact hα
    · intro q hq
      rw [hlay q]
      exact hβ q hq
    · intro q s hq hsome
      have hqp : q ≠ p := by omega
      rw [hset_ne q hqp] at hsome
      exact hγ q s hq hsome
    · intro n incL hn hlast
      by_cases hnz : z.Note = n
      · subst hnz
        rw [lastNote_append_hit] at hlast
        injection hlast with hlast
        subst hlast
        obtain ⟨j0, hj0⟩ := lmi_exists F z.Note p hzne hnoteF
        have hj0p : j0 = p := by
          have hge : p ≤ j0 := lmi_ge F z.Note j0 p hj0 hnoteF
          have hnoteFj : noteAt F j0 = some z.Note := lmi_note F z.Note j0 hj0
          have hle : j0 ≤ p := by
            by_cases hcase : j0 < fs0.length
            · have h4 : noteAt fs0 j0 = some z.Note := by
                rw [← hβ j0 hcase]
                exact hnoteFj
              exact lmi_ge fs0 z.Note p j0 hz h4
            · exfalso
              push_neg at hcase
              obtain ⟨s, hsF, hsnote⟩ : ∃ s, F[j0]? = some s ∧ s.Note = z.Note := by
                rw [noteAt] at hnoteFj
                cases hFj : F[j0]? with
                | none =>
                  rw [hFj] at hnoteFj
                  simp at hnoteFj
                | some s =>
                  rw [hFj] at hnoteFj
                  simp at hnoteFj
                  exact ⟨s, rfl, hnoteFj⟩
              have hnone := hγ j0 s hcase hsF
              rw [hsnote, hz] at hnone
              simp at hnone
          omega
        rw [hj0p] at hj0
        refine ⟨p, ?_, ?_⟩
        · rw [hlmi]
          exact hj0
        · rw [hset_p]
          simp [coreSt_set_id]
      · rw [lastNote_append_miss ss z n hnz] at hlast
        obtain ⟨j, hj, hcont⟩ := hδ n incL hn hlast
        have hjp : j ≠ p := by
          intro he
          have h1 : noteAt F j = some n := lmi_note F n j hj
          rw [he] at h1
          have h2 := hnoteF.symm.trans h1
          injection h2 with h2
          exact hnz h2
        refine ⟨j, ?_, ?_⟩
        · rw [hlmi]
          exact hj
        · rw [hset_ne j hjp]
          exact hcont
  | none =>
    have hs : specStep fs0 F z =
        F ++ [{ z with ID := specMaxID F + 1, No := Int.ofNat F.length }] := by
      unfold specStep
      rw [hz]
      rfl
    rw [hs]
    have happ_lt : ∀ q, q < F.length →
        (F ++ [{ z with ID := specMaxID F + 1, No := Int.ofNat F.length }])[q]? =
          F[q]? := by
      intro q hq
      rw [List.getElem?_append, if_pos hq]
    refine ⟨?_, ?_, ?_, ?_⟩
    · rw [List.length_append, List.length_singleton]
      omega
    · intro q hq
      rw [noteAt, happ_lt q (lt_of_lt_of_le hq hα)]
      exact hβ q hq
    · intro q s hq hsome
      rcases lt_trichotomy q F.length with hcase | hcase | hcase
      · rw [happ_lt q hcase] at hsome
        exact hγ q s hq hsome
      · rw [hcase, List.getElem?_concat_length] at hsome
        injection hsome with hsome
        subst hsome
        exact hz
      · rcases List.getElem?_eq_some.mp hsome with ⟨hlt, _⟩
        rw [List.length_append, List.length_singleton] at hlt
        omega
    · intro n incL hn hlast
      by_cases hnz : z.Note = n
      · subst hnz
        rw [lastNote_append_hit] at hlast
        injection hlast with hlast
        subst hlast
        refine ⟨F.length, ?_, ?_⟩
        · exact lmi_append_hit F _ hn
        · rw [List.getElem?_concat_length]
          simp [coreSt_set_idno]
      · rw [lastNote_append_miss ss z n hnz] at hlast
        obtain ⟨j, hj, hcont⟩ := hδ n incL hn hlast
        have hjlt : j < F.length := lmi_lt F n j hj
        refine ⟨j, ?_, ?_⟩
        · rw [lmi_append_miss F { z with ID := specMaxID F + 1, No := Int.ofNat F.length } n hnz]
          exact hj
        · rw [happ_lt j hjlt]
          exact hcont

theorem firstMergeLayout (fs0 ss : List XStation) :
    fs0.length ≤ (specMergeFeeders lastMatchIdx false fs0 ss).length ∧
    (∀ q, q < fs0.length →
      noteAt (specMergeFeeders lastMatchIdx false fs0 ss) q = noteAt fs0 q) ∧
    (∀ q s, fs0.length ≤ q →
      (specMergeFeeders lastMatchIdx false fs0 ss)[q]? = some s →
      lastMatchIdx fs0 s.Note = none) ∧
    (∀ n incL, n ≠ "" → lastNote ss n = some incL →
      ∃ j, lastMatchIdx (specMergeFeeders lastMatchIdx false fs0 ss) n = some j ∧
        ((specMergeFeeders lastMatchIdx false fs0 ss)[j]?).map coreSt =
          some (coreSt incL)) := by
  induction ss using List.reverseRecOn with
  | nil =>
    refine ⟨le_rfl, fun q hq => rfl, ?_, ?_⟩
    · intro q s hq hsome
      have hnone : (specMergeFeeders lastMatchIdx false fs0 [])[q]? = none := by
        rw [List.getElem?_eq_none_iff]
        exact hq
      rw [hnone] at hsome
      simp at hsome
    · intro n incL hn hlast
      exfalso
      unfold lastNote at hlast
      simp at hlast
  | append_singleton ss z ih =>
    obtain ⟨ihα, ihβ, ihγ, ihδ⟩ := ih
    rw [specMerge_append_step]
    exact layoutStep fs0 ss z (specMergeFeeders lastMatchIdx false fs0 ss) ihα ihβ ihγ ihδ

theorem sansNo_eq_of (a b : XStation) (hc : coreSt a = coreSt b) (hi : a.ID = b.ID) :
    sansNo a = sansNo b := by
  have ha : sansNo a = { coreSt a with ID := a.ID } := rfl
  have hb : sansNo b = { coreSt b with ID := b.ID } := rfl
  rw [ha, hb, hc, hi]

theorem secondMergeFold (M : List XStation) (ss : List XStation) :
    ∀ gs : List XStation,
      gs.length = M.length →
      (∀ q : Nat, (gs[q]?).map (fun s : XStation => s.ID) = (M[q]?).map (fun s : XStation => s.ID)) →
      (∀ q : Nat, (∀ inc ∈ ss, lastMatchIdx M inc.Note ≠ some q) →
        (gs[q]?).map coreSt = (M[q]?).map coreSt) →
      (∀ inc ∈ ss, ∃ j, lastMatchIdx M inc.Note = some j ∧
        ∃ incL, lastNote ss inc.Note = some incL ∧
          (M[j]?).map coreSt = some (coreSt incL)) →
      (ss.foldl (specStep M) gs).length = M.length ∧
      (∀ q : Nat, ((ss.foldl (specStep M) gs)[q]?).map (fun s : XStation => s.ID) =
        (M[q]?).map (fun s : XStation => s.ID)) ∧
      (∀ q : Nat, ((ss.foldl (specStep M) gs)[q]?).map coreSt = (M[q]?).map coreSt) := by
  induction ss with
  | nil =>
    intro gs hlen hids hcore hmatch
    simp only [List.foldl_nil]
    exact ⟨hlen, hids, fun q =>
      hcore q (fun inc hinc => absurd hinc (List.not_mem_nil inc))⟩
  | cons inc ss ih =>
    intro gs hlen hids hcore hmatch
    obtain ⟨j, hj, incL, hincL, hML⟩ := hmatch inc (List.mem_cons_self inc ss)
    have hjlt : j < M.length := lmi_lt M inc.Note j hj
    have hjgs : j < gs.length := by omega
    rw [List.foldl_cons]
    have hstep : specStep M gs inc = gs.set j { inc with ID := (gs.getD j inc).ID } := by
      unfold specStep
      rw [hj]
      rfl
    rw [hstep]
    obtain ⟨m, hm⟩ : ∃ m, M[j]? = some m := by
      cases hM : M[j]? with
      | none =>
        rw [List.getElem?_eq_none_iff] at hM
        omega
      | some m => exact ⟨m, rfl⟩
    obtain ⟨g, hg⟩ : ∃ g, gs[j]? = some g := by
      cases hG : gs[j]? with
      | none =>
        rw [List.getElem?_eq_none_iff] at hG
        omega
      | some g => exact ⟨g, rfl⟩
    have hgid : g.ID = m.ID := by
      have h1 := hids j
      rw [hm, hg] at h1
      simpa using h1
    have hwrite : gs.getD j inc = g := by
      rw [List.getD_eq_getElem?_getD, hg]
      rfl
    have hlen2 : (gs.set j { inc with ID := (gs.getD j inc).ID }).length = M.length := by
      rw [List.length_set]
      exact hlen
    have hids2 : ∀ q : Nat, ((gs.set j { inc with ID := (gs.getD j inc).ID })[q]?).map
        (fun s : XStation => s.ID) = (M[q]?).map (fun s : XStation => s.ID) := by
      intro q
      by_cases hq : q = j
      · subst hq
        rw [List.getElem?_set, if_pos rfl, if_pos hjgs, hm, hwrite]
        simp [hgid]
      · rw [List.getElem?_set_ne (fun h => hq h.symm)]
        exact hids q
    have hcore2 : ∀ q : Nat, (∀ inc' ∈ ss, lastMatchIdx M inc'.Note ≠ some q) →
        ((gs.set j { inc with ID := (gs.getD j inc).ID })[q]?).map coreSt =
          (M[q]?).map coreSt := by
      intro q hq
      by_cases hqj : q = j
      · subst hqj
        have hnone : ∀ inc' ∈ ss, inc'.Note ≠ inc.Note := by
          intro inc' hmem heq
          exact hq inc' hmem (by rw [heq]; exact hj)
        have hLN : lastNote (inc :: ss) inc.Note = some inc := by
          unfold lastNote
          rw [List.filter_cons]
          have h1 : (inc.Note == inc.Note) = true := by simp
          rw [if_pos h1]
          have h2 : ss.filter (fun s => s.Note == inc.Note) = [] := by
            rw [List.filter_eq_nil_iff]
            intro s hs
            simp [hnone s hs]
          rw [h2]
          rfl
        have hinceq : incL = inc := by
          have h3 := hincL.symm.trans hLN
          injection h3
        rw [List.getElem?_set, if_pos rfl, if_pos hjgs, hm]
        rw [hm] at hML
        rw [hML, hinceq]
        rfl
      · rw [List.getElem?_set_ne (fun h => hqj h.symm)]
        apply hcore
        intro inc' hmem'
        rcases List.mem_cons.mp hmem' with h | h
        · subst h
          rw [hj]
          intro hcontra
          injection hcontra with hc
          exact hqj hc.symm
        · exact hq inc' h
    have hmatch2 : ∀ inc' ∈ ss, ∃ j', lastMatchIdx M inc'.Note = some j' ∧
        ∃ incL', lastNote ss inc'.Note = some incL' ∧
          (M[j']?).map coreSt = some (coreSt incL') := by
      intro inc' hmem
      obtain ⟨j', hj', incL', hincL', hML'⟩ := hmatch inc' (List.mem_cons_of_mem inc hmem)
      rw [lastNote_cons_of_mem inc ss inc' hmem] at hincL'
      exact ⟨j', hj', incL', hincL', hML'⟩
    exact ih (gs.set j { inc with ID := (gs.getD j inc).ID }) hlen2 hids2 hcore2 hmatch2

theorem mergeStations_stations (xf : XFile) (ss : List XStation) (fn : String) :
    (mergeStationsIntoXFile xf ss fn).1.Stations =
      specMergeFeeders lastMatchIdx false xf.Stations ss := by
  show (ss.foldl (mergeStep (buildNoteToIdx xf.Stations) false) (xf.Stations, 0, 0)).1 = _
  rw [mergeFold_eq]
  unfold specMergeFeeders
  have hstep : ∀ note, goFind (buildNoteToIdx xf.Stations) note =
      lastMatchIdx xf.Stations note :=
    fun note => goFind_noteToIdx xf.Stations note
  simp only [hstep]

theorem secondMergeNoop (fs0 ss : List XStation) (h : ∀ s ∈ ss, s.Note ≠ "") :
    ∀ Mo : List XStation, Mo = specMergeFeeders lastMatchIdx false fs0 ss →
      (specMergeFeeders lastMatchIdx false Mo ss).length = Mo.length ∧
      (specMergeFeeders lastMatchIdx false Mo ss).map sansNo = Mo.map sansNo := by
  intro Mo hMo
  obtain ⟨hα, hβ, hγ, hδ⟩ := firstMergeLayout fs0 ss
  rw [← hMo] at hδ
  have hmatch : ∀ inc ∈ ss, ∃ j, lastMatchIdx Mo inc.Note = some j ∧
      ∃ incL, lastNote ss inc.Note = some incL ∧
        (Mo[j]?).map coreSt = some (coreSt incL) := by
    intro inc hmem
    obtain ⟨incL, hincL⟩ := lastNote_isSome inc ss hmem
    obtain ⟨j, hj, hcont⟩ := hδ inc.Note incL (h inc hmem) hincL
    exact ⟨j, hj, incL, hincL, hcont⟩
  obtain ⟨hlen, hids, hcore⟩ :=
    secondMergeFold Mo ss Mo rfl (fun q => rfl) (fun q _ => rfl) hmatch
  have hconv : specMergeFeeders lastMatchIdx false Mo ss = ss.foldl (specStep Mo) Mo := rfl
  refine ⟨?_, ?_⟩
  · rw [hconv]
    exact hlen
  · rw [hconv]
    apply List.ext_getElem?
    intro q
    rw [List.getElem?_map, List.getElem?_map]
    have hC := hcore q
    have hI := hids q
    cases hR : (ss.foldl (specStep Mo) Mo)[q]? with
    | none =>
      rw [hR] at hC
      cases hM : Mo[q]? with
      | none => rfl
      | some m2 =>
        rw [hM] at hC
        simp at hC
    | some r =>
      rw [hR] at hC hI
      cases hM : Mo[q]? with
      | none =>
        rw [hM] at hC
        simp at hC
      | some m2 =>
        rw [hM] at hC hI
        simp at hC hI
        simp [sansNo_eq_of r m2 hC hI]

/-- C5 (amended): merging the same feeder list twice yields the same feeder
list as merging it once, provided every incoming feeder has a non-empty
note (the second merge matches every incoming feeder by note and appends
nothing), up to the seqNo field: a feeder appended by the first merge has
its seqNo reset to the incoming feeder's own seqNo by the second merge,
and every other field of every feeder is unchanged. -/
theorem c5_merge_idempotent (xf : XFile) (ss : List XStation) (fn : String)
    (h : ∀ s ∈ ss, s.Note ≠ "") :
    (mergeStationsIntoXFile (mergeStationsIntoXFile xf ss fn).1 ss fn).1.Stations.length =
      (mergeStationsIntoXFile xf ss fn).1.Stations.length ∧
    (mergeStationsIntoXFile (mergeStationsIntoXFile xf ss fn).1 ss fn).1.Stations.map sansNo =
      (mergeStationsIntoXFile xf ss fn).1.Stations.map sansNo := by
  have h1 : (mergeStationsIntoXFile xf ss fn).1.Stations =
      specMergeFeeders lastMatchIdx false xf.Stations ss := mergeStations_stations xf ss fn
  have h2 : (mergeStationsIntoXFile (mergeStationsIntoXFile xf ss fn).1 ss fn).1.Stations =
      specMergeFeeders lastMatchIdx false
        (specMergeFeeders lastMatchIdx false xf.Stations ss) ss := by
    rw [mergeStations_stations, h1]
  obtain ⟨hlen, hmap⟩ := secondMergeNoop xf.Stations ss h
    (specMergeFeeders lastMatchIdx false xf.Stations ss) rfl
  constructor
  · rw [h2, h1, hlen]
  · rw [h2, h1, hmap]

/-- C5 counterexample: with an empty-note incoming feeder the claim fails —
the second merge appends the feeder again instead of updating in place, so
merging twice yields two feeders where merging once yields one. -/
theorem c5_counterexample :
    (mergeStationsIntoXFile (mergeStationsIntoXFile (newXFile 0) [mkStation 7 ""] "f").1
        [mkStation 7 ""] "f").1.Stations.length = 2 ∧
    (mergeStationsIntoXFile (newXFile 0) [mkStation 7 ""] "f").1.Stations.length = 1 := by
  decide

/-- Witness: the amended idempotence theorem evaluated on a concrete
single-feeder merge with a non-empty note. -/
theorem c5_witness :
    (∀ s ∈ [mkStation 7 "10k"], s.Note ≠ "") ∧
    ((mergeStationsIntoXFile (mergeStationsIntoXFile (newXFile 0) [mkStation 7 "10k"] "f").1
        [mkStation 7 "10k"] "f").1.Stations.length =
      (mergeStationsIntoXFile (newXFile 0) [mkStation 7 "10k"] "f").1.Stations.length ∧
    (mergeStationsIntoXFile (mergeStationsIntoXFile (newXFile 0) [mkStation 7 "10k"] "f").1
        [mkStation 7 "10k"] "f").1.Stations.map sansNo =
      (mergeStationsIntoXFile (newXFile 0) [mkStation 7 "10k"] "f").1.Stations.map sansNo) :=
  ⟨by decide, c5_merge_idempotent (newXFile 0) [mkStation 7 "10k"] "f" (by decide)⟩

theorem digitChar_bounds (d : Nat) (h : d < 10) :
    '0' ≤ digitChar d ∧ digitChar d ≤ '9' := by
  unfold digitChar
  interval_cases d <;> decide

theorem natDigitsRev_digits (f : Nat) :
    ∀ m c, c ∈ natDigitsRev f m → '0' ≤ c ∧ c ≤ '9' := by
  induction f with
  | zero => intro m c hc; cases hc
  | succ f ih =>
    intro m c hc
    unfold natDigitsRev at hc
    by_cases hm : m = 0
    · rw [if_pos hm] at hc
      cases hc
    · rw [if_neg hm] at hc
      rcases List.mem_cons.mp hc with h | h
      · subst h
        exact digitChar_bounds (m % 10) (Nat.mod_lt m (by omega))
      · exact ih (m / 10) c h

theorem natStr_digits (n : Nat) : ∀ c ∈ natStr n, '0' ≤ c ∧ c ≤ '9' := by
  intro c hc
  unfold natStr at hc
  by_cases hn : n = 0
  · rw [if_pos hn] at hc
    rcases List.mem_singleton.mp hc with h
    subst h
    exact ⟨le_refl _, by decide⟩
  · rw [if_neg hn] at hc
    exact natDigitsRev_digits (n + 1) n c (List.mem_reverse.mp hc)

theorem intStr_chars (i : Int) : ∀ c ∈ intStr i, ('0' ≤ c ∧ c ≤ '9') ∨ c = '-' := by
  intro c hc
  unfold intStr at hc
  by_cases hi : i < 0
  · rw [if_pos hi] at hc
    rcases List.mem_cons.mp hc with h | h
    · exact Or.inr h
    · exact Or.inl (natStr_digits i.natAbs c h)
  · rw [if_neg hi] at hc
    exact Or.inl (natStr_digits i.natAbs c hc)

theorem pad2_digits (n : Nat) : ∀ c ∈ pad2 n, '0' ≤ c ∧ c ≤ '9' := by
  intro c hc
  unfold pad2 at hc
  by_cases hn : n < 10
  · rw [if_pos hn] at hc
    rcases List.mem_cons.mp hc with h | h
    · subst h
      exact ⟨le_refl _, by decide⟩
    · exact natStr_digits n c h
  · rw [if_neg hn] at hc
    exact natStr_digits n c hc

theorem fmt2_chars (q : F64) :
    ∀ c ∈ fmt2 q, ('0' ≤ c ∧ c ≤ '9') ∨ c = '-' ∨ c = '.' := by
  intro c hc
  unfold fmt2 at hc
  rcases List.mem_append.mp hc with h | h
  · rcases List.mem_append.mp h with h2 | h2
    · by_cases hq : q.num < 0
      · rw [if_pos hq] at h2
        rcases List.mem_singleton.mp h2 with h3
        exact Or.inr (Or.inl h3)
      · rw [if_neg hq] at h2
        cases h2
    · exact Or.inl (natStr_digits _ c h2)
  · rcases List.mem_cons.mp h with h2 | h2
    · exact Or.inr (Or.inr h2)
    · exact Or.inl (pad2_digits _ c h2)

theorem digit_not_special (c : Char) (h1 : '0' ≤ c) (h2 : c ≤ '9') :
    c ≠ ',' ∧ c ≠ '"' ∧ c ≠ '\r' ∧ c ≠ '\n' ∧ isSpaceCh c = false := by
  have k1 : c ≠ ',' := fun he => absurd h1 (by rw [he]; decide)
  have k2 : c ≠ '"' := fun he => absurd h1 (by rw [he]; decide)
  have k3 : c ≠ '\r' := fun he => absurd h1 (by rw [he]; decide)
  have k4 : c ≠ '\n' := fun he => absurd h1 (by rw [he]; decide)
  have k5 : c ≠ ' ' := fun he => absurd h1 (by rw [he]; decide)
  have k6 : c ≠ '\t' := fun he => absurd h1 (by rw [he]; decide)
  have k7 : c ≠ Char.ofNat 11 := fun he => absurd h1 (by rw [he]; decide)
  have k8 : c ≠ Char.ofNat 12 := fun he => absurd h1 (by rw [he]; decide)
  refine ⟨k1, k2, k3, k4, ?_⟩
  simp [isSpaceCh, k3, k4, k5, k6, k7, k8]

theorem minus_not_special :
    ('-' : Char) ≠ ',' ∧ ('-' : Char) ≠ '"' ∧ ('-' : Char) ≠ '\r' ∧
      ('-' : Char) ≠ '\n' ∧ isSpaceCh '-' = false := by
  refine ⟨by decide, by decide, by decide, by decide, by decide⟩

theorem dot_not_special :
    ('.' : Char) ≠ ',' ∧ ('.' : Char) ≠ '"' ∧ ('.' : Char) ≠ '\r' ∧
      ('.' : Char) ≠ '\n' ∧ isSpaceCh '.' = false := by
  refine ⟨by decide, by decide, by decide, by decide, by decide⟩

theorem numChar_not_special (c : Char)
    (h : ('0' ≤ c ∧ c ≤ '9') ∨ c = '-' ∨ c = '.') :
    c ≠ ',' ∧ c ≠ '"' ∧ c ≠ '\r' ∧ c ≠ '\n' ∧ isSpaceCh c = false := by
  rcases h with ⟨h1, h2⟩ | h | h
  · exact digit_not_special c h1 h2
  · subst h
    exact minus_not_special
  · subst h
    exact dot_not_special

theorem escape_fold_mem (l : Str) (c : Char)
    (h : c ∈ l.foldr (fun c acc => if c = '"' then '"' :: '"' :: acc else c :: acc) ['"']) :
    c = '"' ∨ c ∈ l := by
  induction l with
  | nil => exact Or.inl (List.mem_singleton.mp h)
  | cons a t ih =>
    rw [List.foldr_cons] at h
    by_cases ha : a = '"'
    · rw [if_pos ha] at h
      rcases List.mem_cons.mp h with h2 | h2
      · exact Or.inl h2
      · rcases List.mem_cons.mp h2 with h3 | h3
        · exact Or.inl h3
        · rcases ih h3 with h4 | h4
          · exact Or.inl h4
          · exact Or.inr (List.mem_cons_of_mem a h4)
    · rw [if_neg ha] at h
      rcases List.mem_cons.mp h with h2 | h2
      · exact Or.inr (by rw [h2]; exact List.mem_cons_self a t)
      · rcases ih h2 with h4 | h4
        · exact Or.inl h4
        · exact Or.inr (List.mem_cons_of_mem a h4)

theorem escape_mem (l : Str) (c : Char) (hc : c ∈ stackCsvEscape l) :
    c = '"' ∨ c ∈ l := by
  unfold stackCsvEscape at hc
  by_cases hq : l.any (fun c => c = ',' || c = '"' || c = '\r' || c = '\n')
  · rw [if_pos hq] at hc
    rcases List.mem_cons.mp hc with h | h
    · exact Or.inl h
    · exact escape_fold_mem l c h
  · rw [if_neg hq] at hc
    exact Or.inr hc

theorem joinComma_cons₂ (f g : Str) (t : List Str) :
    joinComma (f :: g :: t) = f ++ ',' :: joinComma (g :: t) := rfl

theorem joinComma_mem (fs : List Str) (c : Char) (hc : c ∈ joinComma fs) :
    c = ',' ∨ ∃ f ∈ fs, c ∈ f := by
  induction fs with
  | nil => cases hc
  | cons f t ih =>
    cases t with
    | nil =>
      refine Or.inr ⟨f, List.mem_singleton.mpr rfl, ?_⟩
      have h : joinComma [f] = f := by simp [joinComma, List.intersperse]
      rw [h] at hc
      exact hc
    | cons g t2 =>
      rw [joinComma_cons₂] at hc
      rcases List.mem_append.mp hc with h | h
      · exact Or.inr ⟨f, List.mem_cons_self f _, h⟩
      · rcases List.mem_cons.mp h with h2 | h2
        · exact Or.inl h2
        · rcases ih h2 with h3 | ⟨f2, hf2, hcf2⟩
          · exact Or.inl h3
          · exact Or.inr ⟨f2, List.mem_cons_of_mem f hf2, hcf2⟩

theorem trimCh_noop (l : Str)
    (h1 : ∀ c, l.head? = some c → isSpaceCh c = false)
    (h2 : ∀ c, l.getLast? = some c → isSpaceCh c = false) : trimCh l = l := by
  unfold trimCh
  have hd : l.dropWhile isSpaceCh = l := by
    cases l with
    | nil => rfl
    | cons a t =>
      rw [List.dropWhile_cons, h1 a rfl]
      simp
  rw [hd]
  have hr : l.reverse.dropWhile isSpaceCh = l.reverse := by
    cases hrev : l.reverse with
    | nil => rfl
    | cons a t =>
      have hla : l.getLast? = some a := by
        rw [← List.head?_reverse, hrev]
        rfl
      rw [List.dropWhile_cons, h2 a hla]
      simp
  rw [hr, List.reverse_reverse]

theorem allDigitsVal_eq (l : Str) : allDigitsVal l = l.foldl advStep (some 0) := rfl

theorem advStep_none_digit (a : Nat) (c : Char) (hd : digitVal c = none) :
    advStep (some a) c = none := by
  unfold advStep
  rw [hd]

theorem advStep_none (c : Char) : advStep none c = none := by
  unfold advStep
  cases digitVal c <;> rfl

theorem advStep_some (a : Nat) (c : Char) (d : Nat) (hd : digitVal c = some d) :
    advStep (some a) c = some (a * 10 + d) := by
  unfold advStep
  rw [hd]

theorem adv_foldl_none (l : Str) : l.foldl advStep none = none := by
  induction l with
  | nil => rfl
  | cons c r ih => rw [List.foldl_cons, advStep_none, ih]

theorem adv_foldl (l : Str) : ∀ a : Nat,
    l.foldl advStep (some a) = (allDigitsVal l).map (fun v => a * 10 ^ l.length + v) := by
  induction l with
  | nil =>
    intro a
    simp [allDigitsVal]
  | cons c r ih =>
    intro a
    rw [List.foldl_cons]
    have hadv : allDigitsVal (c :: r) = r.foldl advStep (advStep (some 0) c) := by
      rw [allDigitsVal_eq, List.foldl_cons]
    rw [hadv]
    cases hd : digitVal c with
    | none =>
      rw [advStep_none_digit a c hd, advStep_none_digit 0 c hd, adv_foldl_none]
      rfl
    | some d =>
      rw [advStep_some a c d hd, advStep_some 0 c d hd, ih, ih]
      cases hr : allDigitsVal r with
      | none => rfl
      | some v =>
        simp only [Option.map_some']
        congr 1
        have hz : (0 : Nat) * 10 + d = d := by omega
        rw [hz]
        have hlen : (c :: r).length = r.length + 1 := rfl
        rw [hlen]
        ring

theorem adv_append (x y : Str) (u : Nat) (hx : allDigitsVal x = some u) :
    allDigitsVal (x ++ y) = (allDigitsVal y).map (fun v => u * 10 ^ y.length + v) := by
  rw [allDigitsVal_eq, List.foldl_append, ← allDigitsVal_eq, hx]
  exact adv_foldl y u

theorem digitVal_digitChar (d : Nat) (h : d < 10) : digitVal (digitChar d) = some d := by
  unfold digitChar
  interval_cases d <;> decide

theorem natDigitsRev_val (f : Nat) :
    ∀ n, n < f → allDigitsVal ((natDigitsRev f n).reverse) = some n := by
  induction f with
  | zero =>
    intro n hn
    omega
  | succ f ih =>
    intro n hn
    unfold natDigitsRev
    by_cases h0 : n = 0
    · rw [if_pos h0, h0]
      rfl
    · rw [if_neg h0, List.reverse_cons]
      have hdiv : n / 10 < f := by omega
      rw [adv_append _ _ (n / 10) (ih (n / 10) hdiv)]
      have h1 : allDigitsVal [digitChar (n % 10)] = some (n % 10) := by
        rw [allDigitsVal_eq]
        have h2 : List.foldl advStep (some 0) [digitChar (n % 10)] =
            advStep (some 0) (digitChar (n % 10)) := rfl
        rw [h2, advStep_some 0 _ (n % 10) (digitVal_digitChar (n % 10) (by omega))]
        norm_num
      rw [h1]
      simp only [Option.map_some', List.length_singleton]
      congr 1
      omega

theorem natStr_val (n : Nat) : allDigitsVal (natStr n) = some n := by
  unfold natStr
  by_cases h0 : n = 0
  · rw [if_pos h0, h0]
    decide
  · rw [if_neg h0]
    exact natDigitsRev_val (n + 1) n (by omega)

theorem natStr_ne_nil (n : Nat) : natStr n ≠ [] := by
  unfold natStr
  by_cases h0 : n = 0
  · rw [if_pos h0]
    simp
  · rw [if_neg h0]
    simp only [ne_eq, List.reverse_eq_nil_iff]
    unfold natDigitsRev
    rw [if_neg h0]
    simp

theorem atoiCh_not_sign (c : Char) (l : Str) (h1 : ¬ c = '+') (h2 : ¬ c = '-') :
    atoiCh (c :: l) = (allDigitsVal (c :: l)).map Int.ofNat := by
  unfold atoiCh
  split
  · rename_i heq
    cases heq
  · rename_i heq
    injection heq with he1 he2
    exact absurd he1 h1
  · rename_i heq
    injection heq with he1 he2
    exact absurd he1 h2
  · rfl

theorem digit_ne_plus (c : Char) (h : '0' ≤ c ∧ c ≤ '9') : ¬ c = '+' :=
  fun he => absurd h.1 (by rw [he]; decide)

theorem digit_ne_minus (c : Char) (h : '0' ≤ c ∧ c ≤ '9') : ¬ c = '-' :=
  fun he => absurd h.1 (by rw [he]; decide)

theorem atoiCh_natStr (n : Nat) : atoiCh (natStr n) = some (Int.ofNat n) := by
  cases hns : natStr n with
  | nil => exact absurd hns (natStr_ne_nil n)
  | cons c r =>
    have hcd : '0' ≤ c ∧ c ≤ '9' :=
      natStr_digits n c (by rw [hns]; exact List.mem_cons_self c r)
    rw [atoiCh_not_sign c r (digit_ne_plus c hcd) (digit_ne_minus c hcd), ← hns,
      natStr_val]
    rfl

theorem atoiCh_intStr (i : Int) : atoiCh (intStr i) = some i := by
  unfold intStr
  by_cases hi : i < 0
  · rw [if_pos hi]
    unfold atoiCh
    split
    · rename_i heq
      cases heq
    · rename_i heq
      injection heq with he1 he2
      cases he1
    · rename_i rest heq
      injection heq with he1 he2
      rw [if_neg (by rw [← he2]; exact natStr_ne_nil i.natAbs), ← he2, natStr_val]
      simp only [Option.map_some']
      congr 1
      simp only [Int.ofNat_eq_coe]
      omega
    · rename_i hne1 hne2 hne3
      exact absurd rfl (hne3 (natStr i.natAbs))
  · rw [if_neg hi, atoiCh_natStr]
    congr 1
    simp only [Int.ofNat_eq_coe]
    omega

theorem natDigitsRev_zero (f : Nat) : natDigitsRev (f + 1) 0 = [] := by
  unfold natDigitsRev
  rw [if_pos rfl]

theorem natStr_len_lt10 (n : Nat) (h : n < 10) : (natStr n).length = 1 := by
  unfold natStr
  by_cases h0 : n = 0
  · rw [if_pos h0]
    rfl
  · rw [if_neg h0]
    rw [List.length_reverse]
    unfold natDigitsRev
    rw [if_neg h0]
    obtain ⟨f, rfl⟩ : ∃ f, n = f + 1 := ⟨n - 1, by omega⟩
    have hd : (f + 1) / 10 = 0 := by omega
    rw [hd, natDigitsRev_zero]
    rfl

theorem natStr_len_ge10 (n : Nat) (h1 : 10 ≤ n) (h2 : n < 100) :
    (natStr n).length = 2 := by
  unfold natStr
  rw [if_neg (by omega), List.length_reverse]
  unfold natDigitsRev
  rw [if_neg (by omega)]
  obtain ⟨f, rfl⟩ : ∃ f, n = f + 1 := ⟨n - 1, by omega⟩
  unfold natDigitsRev
  rw [if_neg (by omega)]
  obtain ⟨g, hg⟩ : ∃ g, f = g + 1 := ⟨f - 1, by omega⟩
  rw [hg]
  have hd : (g + 1 + 1) / 10 / 10 = 0 := by omega
  rw [hd, natDigitsRev_zero]
  rfl

theorem pad2_length (b : Nat) (h : b < 100) : (pad2 b).length = 2 := by
  unfold pad2
  by_cases hb : b < 10
  · rw [if_pos hb]
    rw [List.length_cons, natStr_len_lt10 b hb]
  · rw [if_neg hb]
    exact natStr_len_ge10 b (by omega) h

theorem pad2_val (b : Nat) : allDigitsVal (pad2 b) = some b := by
  unfold pad2
  by_cases hb : b < 10
  · rw [if_pos hb]
    have h1 : allDigitsVal ('0' :: natStr b) =
        (natStr b).foldl advStep (advStep (some 0) '0') := by
      rw [allDigitsVal_eq, List.foldl_cons]
    have h2 : advStep (some 0) '0' = some 0 := by decide
    rw [h1, h2, adv_foldl, natStr_val]
    simp
  · rw [if_neg hb]
    exact natStr_val b

theorem pad2_digits_isSome (b : Nat) : ∀ c ∈ pad2 b, (digitVal c).isSome = true := by
  intro c hc
  obtain ⟨h1, h2⟩ := pad2_digits b c hc
  unfold digitVal
  rw [if_pos ⟨h1, h2⟩]
  rfl

theorem natStr_digits_isSome (n : Nat) : ∀ c ∈ natStr n, (digitVal c).isSome = true := by
  intro c hc
  obtain ⟨h1, h2⟩ := natStr_digits n c hc
  unfold digitVal
  rw [if_pos ⟨h1, h2⟩]
  rfl

theorem takeWhile_all (p : Char → Bool) (d : Str) (hd : ∀ c ∈ d, p c = true) :
    ∀ l : Str, (d ++ l).takeWhile p = d ++ l.takeWhile p := by
  induction d with
  | nil => intro l; rfl
  | cons a t ih =>
    intro l
    rw [List.cons_append, List.takeWhile_cons, hd a (List.mem_cons_self a t)]
    simp only [if_true]
    rw [ih (fun c hc => hd c (List.mem_cons_of_mem a hc)) l]
    rfl

theorem dropWhile_all (p : Char → Bool) (d : Str) (hd : ∀ c ∈ d, p c = true) :
    ∀ l : Str, (d ++ l).dropWhile p = l.dropWhile p := by
  induction d with
  | nil => intro l; rfl
  | cons a t ih =>
    intro l
    rw [List.cons_append, List.dropWhile_cons, hd a (List.mem_cons_self a t)]
    simp only [if_true]
    exact ih (fun c hc => hd c (List.mem_cons_of_mem a hc)) l

theorem span_loop_eq (p : Char → Bool) :
    ∀ (l acc : Str), List.span.loop p l acc =
      (acc.reverse ++ l.takeWhile p, l.dropWhile p) := by
  intro l
  induction l with
  | nil =>
    intro acc
    simp [List.span.loop, List.takeWhile, List.dropWhile]
  | cons a t ih =>
    intro acc
    rw [List.span.loop, List.takeWhile_cons, List.dropWhile_cons]
    by_cases hp : p a
    · rw [hp]
      simp only [if_true]
      rw [ih (a :: acc)]
      simp
    · rw [Bool.not_eq_true] at hp
      rw [hp]
      simp

theorem span_eq (p : Char → Bool) (l : Str) :
    l.span p = (l.takeWhile p, l.dropWhile p) := by
  rw [List.span, span_loop_eq]
  rfl

theorem span_digits_stop (d : Str) (hd : ∀ c ∈ d, (digitVal c).isSome = true)
    (x : Char) (hx : (digitVal x).isSome = false) (r : Str) :
    (d ++ x :: r).span (fun c => (digitVal c).isSome) = (d, x :: r) := by
  rw [span_eq, takeWhile_all _ d hd, dropWhile_all _ d hd, List.takeWhile_cons,
    List.dropWhile_cons, hx]
  simp

theorem span_digits_all (d : Str) (hd : ∀ c ∈ d, (digitVal c).isSome = true) :
    d.span (fun c => (digitVal c).isSome) = (d, []) := by
  have h := span_digits_stop d hd
  rw [span_eq]
  have h1 : d.takeWhile (fun c => (digitVal c).isSome) = d := by
    have := takeWhile_all (fun c => (digitVal c).isSome) d hd []
    simpa using this
  have h2 : d.dropWhile (fun c => (digitVal c).isSome) = [] := by
    have := dropWhile_all (fun c => (digitVal c).isSome) d hd []
    simpa using this
  rw [h1, h2]

theorem parseFloatCore_shape (neg : Bool) (a b : Nat) (hb : b < 100) :
    parseFloatCore neg (natStr a ++ '.' :: pad2 b) =
      some ⟨if neg then -(Int.ofNat (a * 100 + b)) else Int.ofNat (a * 100 + b), 100⟩ := by
  have hsp : (natStr a ++ '.' :: pad2 b).span (fun c => (digitVal c).isSome) =
      (natStr a, '.' :: pad2 b) :=
    span_digits_stop (natStr a) (natStr_digits_isSome a) '.' (by decide) (pad2 b)
  have hfs : fracSplit ('.' :: pad2 b) = (pad2 b, []) := by
    have h1 : fracSplit ('.' :: pad2 b) =
        (pad2 b).span (fun c => (digitVal c).isSome) := rfl
    rw [h1, span_digits_all (pad2 b) (pad2_digits_isSome b)]
  simp only [parseFloatCore, hsp, hfs]
  rw [if_neg (fun hc => natStr_ne_nil a hc.1)]
  have hexp : parseExpPart [] = some 0 := rfl
  simp only [hexp]
  have hmant : allDigitsVal (natStr a ++ pad2 b) = some (a * 100 + b) := by
    rw [adv_append (natStr a) (pad2 b) a (natStr_val a), pad2_val, pad2_length b hb]
    simp
  simp only [hmant, pad2_length b hb]
  rw [if_pos (le_refl (0 : Int))]
  norm_num [Option.getD]

theorem parseFloatCore_shape_neg (a b : Nat) (hb : b < 100) :
    parseFloatCore true (natStr a ++ '.' :: pad2 b) =
      some ⟨-(Int.ofNat (a * 100 + b)), 100⟩ := by
  rw [parseFloatCore_shape true a b hb]
  simp

theorem parseFloatCore_shape_pos (a b : Nat) (hb : b < 100) :
    parseFloatCore false (natStr a ++ '.' :: pad2 b) =
      some ⟨Int.ofNat (a * 100 + b), 100⟩ := by
  rw [parseFloatCore_shape false a b hb]
  simp

theorem parseFloatCh_digit_head (c : Char) (l : Str) (h1 : ¬ c = '+') (h2 : ¬ c = '-') :
    parseFloatCh (c :: l) = parseFloatCore false (c :: l) := by
  unfold parseFloatCh
  split
  · rename_i heq
    injection heq with he1 he2
    exact absurd he1 h1
  · rename_i heq
    injection heq with he1 he2
    exact absurd he1 h2
  · rfl

theorem parseFloatCh_minus (l : Str) : parseFloatCh ('-' :: l) = parseFloatCore true l := rfl

theorem fmt2_twoDecimal (q : F64) (h : twoDecimal q) :
    fmt2 q = (if q.num < 0 then ['-'] else []) ++
      natStr ((q.num * 100 / q.den).natAbs / 100) ++
      '.' :: pad2 ((q.num * 100 / q.den).natAbs % 100) := by
  obtain ⟨hden, hmod⟩ := h
  have hdvd : q.den ∣ q.num * 100 := Int.dvd_of_emod_eq_zero hmod
  have hk : q.num * 100 / q.den * q.den = q.num * 100 := Int.ediv_mul_cancel hdvd
  have hsc : q.num.natAbs * 100 = (q.num * 100 / q.den).natAbs * q.den.natAbs := by
    have h1 : (q.num * 100).natAbs = q.num.natAbs * 100 := by
      rw [Int.natAbs_mul]
      rfl
    calc q.num.natAbs * 100 = (q.num * 100).natAbs := h1.symm
      _ = (q.num * 100 / q.den * q.den).natAbs := by rw [hk]
      _ = (q.num * 100 / q.den).natAbs * q.den.natAbs := Int.natAbs_mul _ _
  have hdpos : 0 < q.den.natAbs := Int.natAbs_pos.mpr (by omega)
  simp only [fmt2]
  have e1 : q.num.natAbs * 100 / q.den.natAbs = (q.num * 100 / q.den).natAbs := by
    rw [hsc, Nat.mul_div_cancel _ hdpos]
  have e2 : q.num.natAbs * 100 % q.den.natAbs = 0 := by
    rw [hsc, Nat.mul_mod_left]
  rw [e2, e1]
  have hif : (if 2 * 0 < q.den.natAbs then (q.num * 100 / q.den).natAbs
      else if q.den.natAbs < 2 * 0 then (q.num * 100 / q.den).natAbs + 1
      else if (q.num * 100 / q.den).natAbs % 2 = 0 then (q.num * 100 / q.den).natAbs
      else (q.num * 100 / q.den).natAbs + 1) = (q.num * 100 / q.den).natAbs := by
    rw [if_pos (by omega)]
  rw [hif]

theorem parseFloat_fmt2 (q : F64) (h : twoDecimal q) :
    parseFloatCh (fmt2 q) = some ⟨q.num * 100 / q.den, 100⟩ := by
  have hden := h.1
  have hdvd : q.den ∣ q.num * 100 := Int.dvd_of_emod_eq_zero h.2
  have hkden : q.num * 100 / q.den * q.den = q.num * 100 := Int.ediv_mul_cancel hdvd
  rw [fmt2_twoDecimal q h]
  by_cases hneg : q.num < 0
  · rw [if_pos hneg, List.singleton_append, List.cons_append, parseFloatCh_minus,
      parseFloatCore_shape_neg _ _ (by omega)]
    congr 2
    have hklt : q.num * 100 / q.den < 0 := by
      apply Int.ediv_neg' (by omega) hden
    have habs : (q.num * 100 / q.den).natAbs / 100 * 100 +
        (q.num * 100 / q.den).natAbs % 100 = (q.num * 100 / q.den).natAbs := by
      omega
    rw [habs]
    simp only [Int.ofNat_eq_coe]
    omega
  · rw [if_neg hneg, List.nil_append]
    have hkge : 0 ≤ q.num * 100 / q.den := Int.ediv_nonneg (by omega) (by omega)
    cases hns : natStr ((q.num * 100 / q.den).natAbs / 100) with
    | nil => exact absurd hns (natStr_ne_nil _)
    | cons c r =>
      have hcd : '0' ≤ c ∧ c ≤ '9' :=
        natStr_digits _ c (by rw [hns]; exact List.mem_cons_self c r)
      rw [List.cons_append, parseFloatCh_digit_head c _ (digit_ne_plus c hcd)
        (digit_ne_minus c hcd), ← List.cons_append, ← hns,
        parseFloatCore_shape_pos _ _ (by omega)]
      congr 2
      have habs : (q.num * 100 / q.den).natAbs / 100 * 100 +
          (q.num * 100 / q.den).natAbs % 100 = (q.num * 100 / q.den).natAbs := by
        omega
      rw [habs]
      simp only [Int.ofNat_eq_coe]
      omega

theorem fmt2_roundtrip_eqv (q : F64) (h : twoDecimal q) :
    F64.eqv ⟨q.num * 100 / q.den, 100⟩ q := by
  unfold F64.eqv
  have hdvd : q.den ∣ q.num * 100 := Int.dvd_of_emod_eq_zero h.2
  have hk : q.num * 100 / q.den * q.den = q.num * 100 := Int.ediv_mul_cancel hdvd
  simpa using hk

theorem csvRun_fieldStart_nil (cur : Str) (done : List Str) :
    csvRun .fieldStart cur done [] = some (done.reverse ++ [[]]) := rfl

theorem csvRun_fieldStart_cons (cur : Str) (done : List Str) (c : Char) (rest : Str) :
    csvRun .fieldStart cur done (c :: rest) =
      if c = '"' then csvRun .quoted cur done rest
      else if c = ',' then csvRun .fieldStart [] ([] :: done) rest
      else csvRun .plain [c] done rest := rfl

theorem csvRun_plain_nil (cur : Str) (done : List Str) :
    csvRun .plain cur done [] = some (done.reverse ++ [cur.reverse]) := rfl

theorem csvRun_plain_cons (cur : Str) (done : List Str) (c : Char) (rest : Str) :
    csvRun .plain cur done (c :: rest) =
      if c = ',' then csvRun .fieldStart [] (cur.reverse :: done) rest
      else if c = '"' then none
      else csvRun .plain (c :: cur) done rest := rfl

theorem csvRun_quoted_nil (cur : Str) (done : List Str) :
    csvRun .quoted cur done [] = none := rfl

theorem csvRun_quoted_cons (cur : Str) (done : List Str) (c : Char) (rest : Str) :
    csvRun .quoted cur done (c :: rest) =
      if c = '"' then csvRun .afterQuote cur done rest
      else csvRun .quoted (c :: cur) done rest := rfl

theorem csvRun_afterQuote_nil (cur : Str) (done : List Str) :
    csvRun .afterQuote cur done [] = some (done.reverse ++ [cur.reverse]) := rfl

theorem csvRun_afterQuote_cons (cur : Str) (done : List Str) (c : Char) (rest : Str) :
    csvRun .afterQuote cur done (c :: rest) =
      if c = '"' then csvRun .quoted ('"' :: cur) done rest
      else if c = ',' then csvRun .fieldStart [] (cur.reverse :: done) rest
      else none := rfl

theorem csvRun_plain_step (c : Char) (hc1 : ¬ c = ',') (hc2 : ¬ c = '"')
    (cur : Str) (done : List Str) (rest : Str) :
    csvRun .plain cur done (c :: rest) = csvRun .plain (c :: cur) done rest := by
  rw [csvRun_plain_cons, if_neg hc1, if_neg hc2]

theorem csvRun_plain_comma (g : Str) (hg : ∀ c ∈ g, ¬ c = ',' ∧ ¬ c = '"') :
    ∀ (cur : Str) (done : List Str) (rest : Str),
      csvRun .plain cur done (g ++ ',' :: rest) =
        csvRun .fieldStart [] ((cur.reverse ++ g) :: done) rest := by
  induction g with
  | nil =>
    intro cur done rest
    have h : csvRun .plain cur done (',' :: rest) =
        csvRun .fieldStart [] (cur.reverse :: done) rest := by
      rw [csvRun_plain_cons, if_pos rfl]
    rw [List.nil_append, h, List.append_nil]
  | cons c g ih =>
    intro cur done rest
    obtain ⟨hc1, hc2⟩ := hg c (List.mem_cons_self c g)
    rw [List.cons_append, csvRun_plain_step c hc1 hc2,
      ih (fun c hc => hg c (List.mem_cons_of_mem _ hc))]
    simp

theorem csvRun_plain_end (g : Str) (hg : ∀ c ∈ g, ¬ c = ',' ∧ ¬ c = '"') :
    ∀ (cur : Str) (done : List Str),
      csvRun .plain cur done g = some (done.reverse ++ [cur.reverse ++ g]) := by
  induction g with
  | nil =>
    intro cur done
    rw [csvRun_plain_nil]
    simp
  | cons c g ih =>
    intro cur done
    obtain ⟨hc1, hc2⟩ := hg c (List.mem_cons_self c g)
    rw [csvRun_plain_step c hc1 hc2,
      ih (fun c hc => hg c (List.mem_cons_of_mem _ hc))]
    simp

theorem escFold_append (l : Str) (A t : Str) :
    l.foldr (fun c acc => if c = '"' then '"' :: '"' :: acc else c :: acc) A ++ t =
      l.foldr (fun c acc => if c = '"' then '"' :: '"' :: acc else c :: acc) (A ++ t) := by
  induction l with
  | nil => rfl
  | cons c g ih =>
    rw [List.foldr_cons, List.foldr_cons]
    by_cases hc : c = '"'
    · rw [if_pos hc, if_pos hc, List.cons_append, List.cons_append, ih]
    · rw [if_neg hc, if_neg hc, List.cons_append, ih]

theorem csvRun_quoted_scan (l : Str) :
    ∀ (cur : Str) (done : List Str) (tail : Str),
      csvRun .quoted cur done
        (l.foldr (fun c acc => if c = '"' then '"' :: '"' :: acc else c :: acc)
          ('"' :: tail)) =
        csvRun .afterQuote (l.reverse ++ cur) done tail := by
  induction l with
  | nil =>
    intro cur done tail
    rw [List.foldr_nil, csvRun_quoted_cons, if_pos rfl]
    simp
  | cons c g ih =>
    intro cur done tail
    rw [List.foldr_cons]
    by_cases hc : c = '"'
    · rw [if_pos hc, csvRun_quoted_cons, if_pos rfl, csvRun_afterQuote_cons, if_pos rfl,
        ih ('"' :: cur) done tail]
      rw [List.reverse_cons, List.append_assoc, hc]
      rfl
    · rw [if_neg hc, csvRun_quoted_cons, if_neg hc, ih (c :: cur) done tail,
        List.reverse_cons, List.append_assoc]
      rfl

theorem csvChainClean (f : Str) (hf : ∀ c ∈ f, ¬ c = ',' ∧ ¬ c = '"')
    (done : List Str) (rest : Str) :
    csvRun .fieldStart [] done (f ++ ',' :: rest) =
      csvRun .fieldStart [] (f :: done) rest := by
  cases f with
  | nil =>
    rw [List.nil_append, csvRun_fieldStart_cons, if_neg (by decide), if_pos rfl]
  | cons c g =>
    obtain ⟨hc1, hc2⟩ := hf c (List.mem_cons_self c g)
    rw [List.cons_append, csvRun_fieldStart_cons, if_neg hc2, if_neg hc1,
      csvRun_plain_comma g (fun c hc => hf c (List.mem_cons_of_mem _ hc))]
    rfl

theorem csvChainCleanEnd (f : Str) (hf : ∀ c ∈ f, ¬ c = ',' ∧ ¬ c = '"')
    (done : List Str) :
    csvRun .fieldStart [] done f = some (done.reverse ++ [f]) := by
  cases f with
  | nil => rw [csvRun_fieldStart_nil]
  | cons c g =>
    obtain ⟨hc1, hc2⟩ := hf c (List.mem_cons_self c g)
    rw [csvRun_fieldStart_cons, if_neg hc2, if_neg hc1,
      csvRun_plain_end g (fun c hc => hf c (List.mem_cons_of_mem _ hc))]
    rfl

theorem csvChainNote (w : Str) (done : List Str) (rest : Str) :
    csvRun .fieldStart [] done (stackCsvEscape w ++ ',' :: rest) =
      csvRun .fieldStart [] (w :: done) rest := by
  unfold stackCsvEscape
  by_cases hq : w.any (fun c => c = ',' || c = '"' || c = '\r' || c = '\n')
  · rw [if_pos hq, List.cons_append, csvRun_fieldStart_cons, if_pos rfl,
      escFold_append, List.singleton_append, csvRun_quoted_scan w [] done (',' :: rest),
      csvRun_afterQuote_cons, if_neg (by decide), if_pos rfl]
    simp
  · rw [if_neg hq]
    have hclean : ∀ c ∈ w, ¬ c = ',' ∧ ¬ c = '"' := by
      intro c hc
      rw [Bool.not_eq_true, List.any_eq_false] at hq
      have h2 := hq c hc
      constructor
      · intro he
        rw [he] at h2
        simp at h2
      · intro he
        rw [he] at h2
        simp at h2
    exact csvChainClean w hclean done rest

theorem joinComma_single (f : Str) : joinComma [f] = f := by
  simp [joinComma, List.intersperse]

theorem natStr_clean (n : Nat) : ∀ c ∈ natStr n, ¬ c = ',' ∧ ¬ c = '"' := by
  intro c hc
  obtain ⟨h1, h2⟩ := natStr_digits n c hc
  obtain ⟨k1, k2, _⟩ := digit_not_special c h1 h2
  exact ⟨k1, k2⟩

theorem intStr_clean (i : Int) : ∀ c ∈ intStr i, ¬ c = ',' ∧ ¬ c = '"' := by
  intro c hc
  rcases intStr_chars i c hc with ⟨h1, h2⟩ | h
  · obtain ⟨k1, k2, _⟩ := digit_not_special c h1 h2
    exact ⟨k1, k2⟩
  · subst h
    exact ⟨by decide, by decide⟩

theorem fmt2_clean (q : F64) : ∀ c ∈ fmt2 q, ¬ c = ',' ∧ ¬ c = '"' := by
  intro c hc
  rcases fmt2_chars q c hc with ⟨h1, h2⟩ | h | h
  · obtain ⟨k1, k2, _⟩ := digit_not_special c h1 h2
    exact ⟨k1, k2⟩
  · subst h
    exact ⟨by decide, by decide⟩
  · subst h
    exact ⟨by decide, by decide⟩

theorem stationField_clean : ∀ c ∈ "Station".data, ¬ c = ',' ∧ ¬ c = '"' := by decide

theorem csv_station_row (n : Nat) (s : XStation) :
    csvParseLine (stackStationLine n s) = some (stackFieldsRaw n s) := by
  unfold csvParseLine stackStationLine stackStationFields
  simp only [joinComma_cons₂, joinComma_single]
  rw [csvChainClean _ stationField_clean,
      csvChainClean _ (natStr_clean n),
      csvChainClean _ (intStr_clean s.ID),
      csvChainClean _ (intStr_clean s.PHead),
      csvChainClean _ (fmt2_clean s.DeltX),
      csvChainClean _ (fmt2_clean s.DeltY),
      csvChainClean _ (intStr_clean s.FeedRates),
      csvChainNote s.Note.data,
      csvChainClean _ (fmt2_clean s.Height),
      csvChainClean _ (intStr_clean s.Speed),
      csvChainClean _ (intStr_clean s.Status),
      csvChainClean _ (intStr_clean s.NPixSizeX),
      csvChainClean _ (intStr_clean s.NPixSizeY),
      csvChainClean _ (fmt2_clean s.HeightTake),
      csvChainClean _ (intStr_clean s.DelayTake),
      csvChainClean _ (intStr_clean s.NPullStripSpeed),
      csvChainClean _ (intStr_clean s.NThreshold),
      csvChainCleanEnd _ (intStr_clean s.NVisualRadio)]
  rfl

theorem intStr_ne_nil (i : Int) : intStr i ≠ [] := by
  unfold intStr
  by_cases hi : i < 0
  · rw [if_pos hi]
    simp
  · rw [if_neg hi]
    exact natStr_ne_nil i.natAbs

theorem natStr_getLast_digit (n : Nat) :
    ∃ c, (natStr n).getLast? = some c ∧ '0' ≤ c ∧ c ≤ '9' := by
  have hne := natStr_ne_nil n
  rw [List.getLast?_eq_getLast _ hne]
  exact ⟨_, rfl, natStr_digits n _ (List.getLast_mem hne)⟩

theorem intStr_getLast_digit (i : Int) :
    ∃ c, (intStr i).getLast? = some c ∧ '0' ≤ c ∧ c ≤ '9' := by
  unfold intStr
  by_cases hi : i < 0
  · rw [if_pos hi]
    obtain ⟨c, hc, hd⟩ := natStr_getLast_digit i.natAbs
    refine ⟨c, ?_, hd⟩
    cases hns : natStr i.natAbs with
    | nil => exact absurd hns (natStr_ne_nil i.natAbs)
    | cons b u =>
      rw [List.getLast?_cons_cons, ← hns]
      exact hc
  · rw [if_neg hi]
    exact natStr_getLast_digit i.natAbs

theorem joinComma_getLast (fs : List Str) (g : Str) (hg : g ≠ []) :
    (joinComma (fs ++ [g])).getLast? = g.getLast? := by
  induction fs with
  | nil =>
    rw [List.nil_append, joinComma_single]
  | cons f t ih =>
    obtain ⟨c0, hc0⟩ : ∃ c0, g.getLast? = some c0 := by
      cases hgl : g.getLast? with
      | none => exact absurd (List.getLast?_eq_none_iff.mp hgl) hg
      | some c0 => exact ⟨c0, rfl⟩
    cases htu : t ++ [g] with
    | nil => exact absurd htu (by simp)
    | cons b u =>
      rw [List.cons_append, htu, joinComma_cons₂, ← htu, List.getLast?_append]
      have hXne : joinComma (t ++ [g]) ≠ [] := by
        intro hXnil
        rw [hXnil] at ih
        rw [← ih] at hc0
        cases hc0
      obtain ⟨b2, u2, hbu⟩ : ∃ b2 u2, joinComma (t ++ [g]) = b2 :: u2 := by
        cases hX : joinComma (t ++ [g]) with
        | nil => exact absurd hX hXne
        | cons b2 u2 => exact ⟨b2, u2, rfl⟩
      rw [hbu, List.getLast?_cons_cons, ← hbu, ih, hc0]
      rfl

theorem stationLine_split (n : Nat) (s : XStation) :
    stackStationLine n s =
      joinComma (["Station".data, natStr n, intStr s.ID, intStr s.PHead, fmt2 s.DeltX,
        fmt2 s.DeltY, intStr s.FeedRates, stackCsvEscape s.Note.data, fmt2 s.Height,
        intStr s.Speed, intStr s.Status, intStr s.NPixSizeX, intStr s.NPixSizeY,
        fmt2 s.HeightTake, intStr s.DelayTake, intStr s.NPullStripSpeed,
        intStr s.NThreshold] ++ [intStr s.NVisualRadio]) := rfl

theorem trim_stationLine (n : Nat) (s : XStation) :
    trimCh (stackStationLine n s) = stackStationLine n s := by
  apply trimCh_noop
  · intro c hc
    have hh : (stackStationLine n s).head? = some 'S' := rfl
    rw [hh] at hc
    injection hc with hc
    subst hc
    decide
  · intro c hc
    rw [stationLine_split, joinComma_getLast _ _ (intStr_ne_nil s.NVisualRadio)] at hc
    obtain ⟨c2, hc2, hd1, hd2⟩ := intStr_getLast_digit s.NVisualRadio
    rw [hc2] at hc
    injection hc with hc
    subst hc
    exact (digit_not_special c2 hd1 hd2).2.2.2.2

theorem not_contains_ne (l : Str) (x c : Char) (h : ¬ l.contains x = true) (hc : c ∈ l) :
    ¬ c = x := fun he => h (List.elem_iff.mpr (he ▸ hc))

theorem stationLine_chars (n : Nat) (s : XStation) (hnote : cleanNote s.Note) :
    ∀ c ∈ stackStationLine n s, ¬ c = '\r' ∧ ¬ c = '\n' := by
  intro c hc
  unfold stackStationLine stackStationFields at hc
  rcases joinComma_mem _ c hc with h | ⟨f, hf, hcf⟩
  · subst h
    exact ⟨by decide, by decide⟩
  · have hnum : (('0' ≤ c ∧ c ≤ '9') ∨ c = '-' ∨ c = '.') → ¬ c = '\r' ∧ ¬ c = '\n' := by
      intro hg
      obtain ⟨_, _, k3, k4, _⟩ := numChar_not_special c hg
      exact ⟨k3, k4⟩
    fin_cases hf
    · exact ⟨fun he => by subst he; revert hcf; decide,
        fun he => by subst he; revert hcf; decide⟩
    · exact hnum (Or.inl (natStr_digits n c hcf))
    · rcases intStr_chars _ c hcf with h | h
      · exact hnum (Or.inl h)
      · exact hnum (Or.inr (Or.inl h))
    · rcases intStr_chars _ c hcf with h | h
      · exact hnum (Or.inl h)
      · exact hnum (Or.inr (Or.inl h))
    · exact hnum (fmt2_chars _ c hcf)
    · exact hnum (fmt2_chars _ c hcf)
    · rcases intStr_chars _ c hcf with h | h
      · exact hnum (Or.inl h)
      · exact hnum (Or.inr (Or.inl h))
    · rcases escape_mem _ c hcf with h | h
      · subst h
        exact ⟨by decide, by decide⟩
      · exact ⟨not_contains_ne _ _ _ hnote.2.2 h, not_contains_ne _ _ _ hnote.2.1 h⟩
    · exact hnum (fmt2_chars _ c hcf)
    · rcases intStr_chars _ c hcf with h | h
      · exact hnum (Or.inl h)
      · exact hnum (Or.inr (Or.inl h))
    · rcases intStr_chars _ c hcf with h | h
      · exact hnum (Or.inl h)
      · exact hnum (Or.inr (Or.inl h))
    · rcases intStr_chars _ c hcf with h | h
      · exact hnum (Or.inl h)
      · exact hnum (Or.inr (Or.inl h))
    · rcases intStr_chars _ c hcf with h | h
      · exact hnum (Or.inl h)
      · exact hnum (Or.inr (Or.inl h))
    · exact hnum (fmt2_chars _ c hcf)
    · rcases intStr_chars _ c hcf with h | h
      · exact hnum (Or.inl h)
      · exact hnum (Or.inr (Or.inl h))
    · rcases intStr_chars _ c hcf with h | h
      · exact hnum (Or.inl h)
      · exact hnum (Or.inr (Or.inl h))
    · rcases intStr_chars _ c hcf with h | h
      · exact hnum (Or.inl h)
      · exact hnum (Or.inr (Or.inl h))
    · rcases intStr_chars _ c hcf with h | h
      · exact hnum (Or.inl h)
      · exact hnum (Or.inr (Or.inl h))

theorem skip_prefixes_station (R : Str) :
    stackSkipPrefixes.any
      (fun p => p.isPrefixOf ('s' :: 't' :: 'a' :: 't' :: 'i' :: 'o' :: 'n' :: ',' :: R)) =
      false := by
  simp [stackSkipPrefixes, List.isPrefixOf]

theorem stationLine_not_skipped (n : Nat) (s : XStation) :
    stackSkipPrefixes.any
      (fun p => p.isPrefixOf (lowerS (stackStationLine n s))) = false := by
  obtain ⟨R, hR⟩ : ∃ R, lowerS (stackStationLine n s) =
      's' :: 't' :: 'a' :: 't' :: 'i' :: 'o' :: 'n' :: ',' :: R := ⟨_, rfl⟩
  rw [hR]
  exact skip_prefixes_station R

theorem containsSub_of_prefix (hay sub : Str) (h : sub.isPrefixOf hay = true) :
    containsSub hay sub = true := by
  unfold containsSub
  rw [List.any_eq_true]
  exact ⟨0, List.mem_range.mpr (by omega), by rw [List.drop_zero]; exact h⟩

theorem isPrefixOf_append_self (l t : Str) : l.isPrefixOf (l ++ t) = true := by
  rw [List.isPrefixOf_iff_prefix]
  exact List.prefix_append l t

theorem splitCh_cons (c a : Char) (rest : Str) :
    splitCh c (a :: rest) =
      if a = c then [] :: splitCh c rest
      else match splitCh c rest with
        | [] => [[a]]
        | h :: t => (a :: h) :: t := rfl

theorem splitCh_append_nl (l : Str) (hl : ∀ c ∈ l, ¬ c = '\n') :
    ∀ r : Str, splitCh '\n' (l ++ '\n' :: r) = l :: splitCh '\n' r := by
  induction l with
  | nil =>
    intro r
    rw [List.nil_append, splitCh_cons, if_pos rfl]
  | cons c g ih =>
    intro r
    rw [List.cons_append, splitCh_cons, if_neg (hl c (List.mem_cons_self c g)),
      ih (fun c hc => hl c (List.mem_cons_of_mem _ hc)) r]

theorem splitNl_join (ls : List Str) (h : ∀ l ∈ ls, ∀ c ∈ l, ¬ c = '\n') :
    splitCh '\n' ((ls.map (fun l => l ++ ['\n'])).flatten) = ls ++ [[]] := by
  induction ls with
  | nil => rfl
  | cons l t ih =>
    rw [List.map_cons, List.flatten_cons, List.append_assoc, List.singleton_append,
      splitCh_append_nl l (h l (List.mem_cons_self l t)),
      ih (fun l2 hl2 => h l2 (List.mem_cons_of_mem _ hl2))]
    rfl

theorem filter_crlf (ls : List Str) (h : ∀ l ∈ ls, ∀ c ∈ l, ¬ c = '\r') :
    (crlfJoin ls).filter (fun c => c ≠ '\r') = (ls.map (fun l => l ++ ['\n'])).flatten := by
  induction ls with
  | nil => rfl
  | cons l t ih =>
    unfold crlfJoin at ih ⊢
    rw [List.map_cons, List.flatten_cons, List.filter_append,
      ih (fun l2 hl2 => h l2 (List.mem_cons_of_mem _ hl2)), List.filter_append,
      List.map_cons, List.flatten_cons]
    congr 1
    have h1 : List.filter (fun c => c ≠ '\r') l = l := by
      rw [List.filter_eq_self]
      intro a ha
      simpa using h l (List.mem_cons_self l t) a ha
    have h2 : List.filter (fun c => c ≠ '\r') crlf = ['\n'] := by decide
    rw [h1, h2]

theorem mem_of_getLast? {l : Str} {c : Char} (h : l.getLast? = some c) : c ∈ l := by
  have hne : l ≠ [] := by
    intro hnil
    rw [hnil] at h
    cases h
  rw [List.getLast?_eq_getLast l hne] at h
  injection h with h
  rw [← h]
  exact List.getLast_mem hne

theorem trimCh_noop_all (l : Str) (h : ∀ c ∈ l, isSpaceCh c = false) : trimCh l = l := by
  apply trimCh_noop
  · intro c hc
    cases l with
    | nil => cases hc
    | cons a t =>
      injection hc with hc
      subst hc
      exact h a (List.mem_cons_self a t)
  · intro c hc
    exact h c (mem_of_getLast? hc)

theorem trimCh_intStr (i : Int) : trimCh (intStr i) = intStr i := by
  apply trimCh_noop_all
  intro c hc
  rcases intStr_chars i c hc with ⟨h1, h2⟩ | h
  · exact (digit_not_special c h1 h2).2.2.2.2
  · subst h
    decide

theorem trimCh_fmt2 (q : F64) : trimCh (fmt2 q) = fmt2 q := by
  apply trimCh_noop_all
  intro c hc
  rcases fmt2_chars q c hc with ⟨h1, h2⟩ | h | h
  · exact (digit_not_special c h1 h2).2.2.2.2
  · subst h
    decide
  · subst h
    decide

theorem fmt2_ne_nil (q : F64) : fmt2 q ≠ [] := by
  unfold fmt2
  simp

theorem stackGetValue_at (row : List Str) (name : Str) (idx : Nat)
    (hfind : goFind (stackColMap stackHeaderFields) name = some idx)
    (hlt : idx < row.length) :
    stackGetValue (stackColMap stackHeaderFields) row name = trimCh (row.getD idx []) := by
  simp only [stackGetValue, hfind]
  rw [if_pos hlt]

theorem stationRow_roundtrip (n : Nat) (s : XStation) (hnote : cleanNote s.Note)
    (hx : twoDecimal s.DeltX) (hy : twoDecimal s.DeltY) :
    stackRoundTripMatch (parseStationRow stackHeaderFields (stackFieldsRaw n s)) s := by
  have h18 : (stackFieldsRaw n s).length = 18 := rfl
  unfold stackRoundTripMatch
  simp only [parseStationRow]
  refine ⟨?_, ?_, ?_, ?_, ?_⟩
  · rw [stackGetValue_at _ _ 7 (by decide) (by rw [h18]; omega)]
    rw [show (stackFieldsRaw n s).getD 7 [] = s.Note.data from rfl, hnote.1]
  · simp only [stackGetInt]
    rw [stackGetValue_at _ _ 2 (by decide) (by rw [h18]; omega)]
    rw [show (stackFieldsRaw n s).getD 2 [] = intStr s.ID from rfl, trimCh_intStr,
      if_neg (intStr_ne_nil s.ID)]
    simp only [atoiCh_intStr]
  · simp only [stackGetFloat]
    rw [stackGetValue_at _ _ 4 (by decide) (by rw [h18]; omega)]
    rw [show (stackFieldsRaw n s).getD 4 [] = fmt2 s.DeltX from rfl, trimCh_fmt2,
      if_neg (fmt2_ne_nil s.DeltX)]
    simp only [parseFloat_fmt2 s.DeltX hx]
    exact fmt2_roundtrip_eqv s.DeltX hx
  · simp only [stackGetFloat]
    rw [stackGetValue_at _ _ 5 (by decide) (by rw [h18]; omega)]
    rw [show (stackFieldsRaw n s).getD 5 [] = fmt2 s.DeltY from rfl, trimCh_fmt2,
      if_neg (fmt2_ne_nil s.DeltY)]
    simp only [parseFloat_fmt2 s.DeltY hy]
    exact fmt2_roundtrip_eqv s.DeltY hy
  · simp only [stackGetInt]
    rw [stackGetValue_at _ _ 10 (by decide) (by rw [h18]; omega)]
    rw [show (stackFieldsRaw n s).getD 10 [] = intStr s.Status from rfl, trimCh_intStr,
      if_neg (intStr_ne_nil s.Status)]
    simp only [atoiCh_intStr]

theorem stationLine_ne_nil (n : Nat) (s : XStation) : stackStationLine n s ≠ [] := by
  intro h
  have hh : (stackStationLine n s).head? = some 'S' := rfl
  rw [h] at hh
  cases hh

theorem parseStackLine_station (acc : List XStation) (n : Nat) (s : XStation) :
    parseStackLine (stackHeaderFields, acc) (stackStationLine n s) =
      (stackHeaderFields, acc ++ [parseStationRow stackHeaderFields (stackFieldsRaw n s)]) := by
  simp only [parseStackLine]
  rw [trim_stationLine, if_neg (stationLine_ne_nil n s), stationLine_not_skipped,
    if_neg Bool.false_ne_true]
  simp only [csv_station_row]
  simp only [stackFieldsRaw, List.head?_cons]
  have ht : trimCh "Station".data = "Station".data := by decide
  simp only [ht]
  rw [if_neg (by decide), if_pos trivial, if_neg (by decide)]

theorem parseStackLine_empty (st : List Str × List XStation) :
    parseStackLine st [] = st := rfl

theorem foldl_stationLines (rows : List (Nat × XStation)) :
    ∀ acc : List XStation,
      (rows.map (fun p => stackStationLine p.1 p.2)).foldl parseStackLine
        (stackHeaderFields, acc) =
      (stackHeaderFields, acc ++ rows.map (fun p =>
        parseStationRow stackHeaderFields (stackFieldsRaw p.1 p.2))) := by
  induction rows with
  | nil =>
    intro acc
    simp
  | cons p t ih =>
    intro acc
    rw [List.map_cons, List.foldl_cons, parseStackLine_station acc p.1 p.2, ih,
      List.map_cons, List.append_assoc]
    rfl

theorem enumFrom_filter_map_snd (l : List XStation) :
    ∀ k, ((List.enumFrom k l).filter (fun p => !p.2.DNP)).map (fun p => p.2) =
      l.filter (fun s => !s.DNP) := by
  induction l with
  | nil => intro k; rfl
  | cons s t ih =>
    intro k
    have he : List.enumFrom k (s :: t) = (k, s) :: List.enumFrom (k + 1) t := rfl
    rw [he]
    simp only [List.filter_cons]
    by_cases hdnp : s.DNP
    · simp [hdnp, ih (k + 1)]
    · simp [hdnp, ih (k + 1)]

theorem stackDataRows_map_snd (xf : XFile) :
    (stackDataRows xf).map (fun p => p.2) = xf.Stations.filter (fun s => !s.DNP) := by
  unfold stackDataRows
  exact enumFrom_filter_map_snd xf.Stations 0

theorem stackDataRows_mem (xf : XFile) (p : Nat × XStation) (hp : p ∈ stackDataRows xf) :
    p.2 ∈ xf.Stations ∧ p.2.DNP = false := by
  unfold stackDataRows at hp
  obtain ⟨h1, h2⟩ := List.mem_filter.mp hp
  constructor
  · obtain ⟨i, x⟩ := p
    obtain ⟨hlt, hx⟩ := List.mem_enum h1
    rw [hx]
    exact List.getElem_mem hlt
  · simpa using h2

theorem forall₂_map_map {α β γ : Type} (R : β → γ → Prop) (f : α → β) (g : α → γ)
    (l : List α) (h : ∀ x ∈ l, R (f x) (g x)) : List.Forall₂ R (l.map f) (l.map g) := by
  induction l with
  | nil => exact List.Forall₂.nil
  | cons x t ih =>
    exact List.Forall₂.cons (h x (List.mem_cons_self x t))
      (ih (fun y hy => h y (List.mem_cons_of_mem x hy)))

/-- C4 (amended): for a model with at least one exported (non-doNotPlace)
feeder, in which every exported feeder has a trim-stable note free of line
breaks and offsets exactly representable with two decimals, parsing the
generated feeder-backup text back through ParseStack succeeds and yields
one entry per exported feeder, in order, with the same note, ID, position
offset (up to exact float value) and status flags; doNotPlace feeders are
never present. -/
theorem c4_stack_round_trip (xf : XFile)
    (h1 : xf.Stations.filter (fun s => !s.DNP) ≠ [])
    (h2 : ∀ s ∈ xf.Stations, s.DNP = false →
      cleanNote s.Note ∧ twoDecimal s.DeltX ∧ twoDecimal s.DeltY) :
    ∃ sts, parseStack (generateStack xf) = .ok sts ∧
      List.Forall₂ stackRoundTripMatch sts (xf.Stations.filter (fun s => !s.DNP)) := by
  have hmemfacts : ∀ p ∈ stackDataRows xf,
      cleanNote p.2.Note ∧ twoDecimal p.2.DeltX ∧ twoDecimal p.2.DeltY := by
    intro p hp
    obtain ⟨hm, hdnp⟩ := stackDataRows_mem xf p hp
    exact h2 p.2 hm hdnp
  have hlines_r : ∀ l ∈ generateStackLines xf, ∀ c ∈ l, ¬ c = '\r' := by
    intro l hl
    unfold generateStackLines at hl
    rcases List.mem_append.mp hl with h | h
    · fin_cases h <;> decide
    · obtain ⟨p, hp, rfl⟩ := List.mem_map.mp h
      intro c hc
      exact (stationLine_chars p.1 p.2 (hmemfacts p hp).1 c hc).1
  have hlines_n : ∀ l ∈ generateStackLines xf, ∀ c ∈ l, ¬ c = '\n' := by
    intro l hl
    unfold generateStackLines at hl
    rcases List.mem_append.mp hl with h | h
    · fin_cases h <;> decide
    · obtain ⟨p, hp, rfl⟩ := List.mem_map.mp h
      intro c hc
      exact (stationLine_chars p.1 p.2 (hmemfacts p hp).1 c hc).2
  have hmark : containsSub (lowerS (crlfJoin (generateStackLines xf)))
      "separated".data = true := by
    apply containsSub_of_prefix
    obtain ⟨R, hR⟩ : ∃ R, lowerS (crlfJoin (generateStackLines xf)) =
        "separated".data ++ R := ⟨_, rfl⟩
    rw [hR]
    exact isPrefixOf_append_self _ _
  have hdata : (generateStack xf).data = crlfJoin (generateStackLines xf) := rfl
  simp only [parseStack, hdata, hmark, Bool.true_or]
  rw [if_neg (not_not_intro trivial)]
  rw [filter_crlf _ hlines_r, splitNl_join _ hlines_n]
  unfold generateStackLines
  rw [List.foldl_append, List.foldl_append]
  have h5 : (["separated".data, "FILE,MaterialStack.stack".data, "PANELYPE,1".data,
      ([] : Str), stackTableHeader] : List Str).foldl parseStackLine ([], []) =
      (stackHeaderFields, []) := by decide
  rw [h5, foldl_stationLines (stackDataRows xf) []]
  have hlast : ∀ X : List Str × List XStation, ([[]] : List Str).foldl parseStackLine X = X :=
    fun X => rfl
  rw [hlast]
  have hrows : stackDataRows xf ≠ [] := by
    intro h0
    apply h1
    rw [← stackDataRows_map_snd, h0]
    rfl
  have hres : ([] : List XStation) ++ (stackDataRows xf).map (fun p =>
      parseStationRow stackHeaderFields (stackFieldsRaw p.1 p.2)) ≠ [] := by
    rw [List.nil_append]
    intro h0
    cases hr : stackDataRows xf with
    | nil => exact hrows hr
    | cons a t =>
      rw [hr] at h0
      cases h0
  rw [if_neg hres]
  refine ⟨_, rfl, ?_⟩
  rw [List.nil_append, ← stackDataRows_map_snd xf]
  apply forall₂_map_map
  intro p hp
  obtain ⟨hc, hx, hy⟩ := hmemfacts p hp
  exact stationRow_roundtrip p.1 p.2 hc hx hy

/-- Witness: the amended round-trip theorem evaluated on a concrete
single-feeder model with a clean note and two-decimal offsets. -/
theorem c4_witness :
    (c4WitModel.Stations.filter (fun s => !s.DNP) ≠ [] ∧
      (∀ s ∈ c4WitModel.Stations, s.DNP = false →
        cleanNote s.Note ∧ twoDecimal s.DeltX ∧ twoDecimal s.DeltY)) ∧
    (∃ sts, parseStack (generateStack c4WitModel) = .ok sts ∧
      List.Forall₂ stackRoundTripMatch sts
        (c4WitModel.Stations.filter (fun s => !s.DNP))) :=
  ⟨⟨by decide, by decide⟩, c4_stack_round_trip c4WitModel (by decide) (by decide)⟩

/-- C4 counterexample: a feeder whose stored offset 0.001 is not a
two-decimal value exports as 0.00, so the reparsed feeder's offset differs
from the stored one and the round trip does not preserve the position. -/
theorem c4_counterexample :
    parseStack (generateStack c4Model) = .ok c4Parsed ∧
    ¬ List.Forall₂ stackRoundTripMatch c4Parsed
        (c4Model.Stations.filter (fun s => !s.DNP)) := by
  constructor
  · decide
  · intro h
    cases h with
    | cons hR hrest => exact absurd hR.2.2.1 (by decide)
